import Mathlib

/-!
# Blaze expression templates: sparse × dense product kernels and declared symmetry

A shallow embedding of the expression nodes
`blaze/math/expressions/TSMatTDMatMultExpr.h`,
`blaze/math/expressions/DMatDeclSymExpr.h`,
`blaze/math/expressions/DVecForEachExpr.h` and
`blaze/math/expressions/SVecDVecSubExpr.h`, of the type resolution traits under
`blaze/math/traits`, of `blaze/math/typetraits/HasSIMDDiv.h` and of
`blaze/math/problems/LCP.h`.

* Element types are modelled by a commutative ring `R` with decidable equality
  (`isDefault`) and a star operation (`conj`); arithmetic is exact.
* `size_t` indices are natural numbers.  The only place where wrap-around of
  `size_t` is modelled is the element count `C.rows() * C.columns()` of the
  kernel selection; loop counters stay far below `2^64` for every matrix that
  fits into memory.
* C++ `for` loops are embedded by the combinator `forLoop`; the iterator loop
  over the stored elements of a sparse column is a left fold over the list of
  its elements.
* The containers and their interface (`rows`, `columns`, element access,
  `begin`/`end`, `nonZeros`, `reset`, `isDefault`, `conj`, `trans`, `isSquare`)
  are declared in other headers of the library; they are modelled by their
  documented meaning.
* A `BLAZE_INTERNAL_ASSERT` is modelled as a failure of its own kind, so that
  "the assertion is never violated" is a statement about the embedding.
-/

namespace Blaze

/-! ## Loops -/

/-- Worker of `forLoop`: at most `fuel` iterations of
`for( j = start; j < stop; j += step ) body`. -/
def forLoopAux {σ : Type} (stop step : Nat) (body : Nat → σ → σ) : Nat → Nat → σ → σ
  | 0, _, s => s
  | fuel + 1, j, s =>
    if j < stop then forLoopAux stop step body fuel (j + step) (body j s) else s

/-- The loop `for( size_t j=start; j<stop; j+=step ) body(j)` acting on a state.
The fuel `stop - start` is enough for every positive `step`
(see `forLoop_unfold`). -/
def forLoop {σ : Type} (start stop step : Nat) (body : Nat → σ → σ) (s : σ) : σ :=
  forLoopAux stop step body (stop - start) start s

/-! ## Containers -/

/-- A stored element of a compressed sparse matrix (`element->index()`,
`element->value()`). -/
structure Element (R : Type) where
  index : Nat
  value : R
deriving DecidableEq, Repr

/-- A column-major compressed sparse matrix: `col i` is the sequence of stored
elements between `begin(i)` and `end(i)`. -/
structure CompressedMatrix (R : Type) where
  rows : Nat
  columns : Nat
  col : Nat → List (Element R)

/-- A dense matrix: its shape and its element storage. -/
@[ext]
structure DenseMatrix (R : Type) where
  rows : Nat
  columns : Nat
  elem : Nat → Nat → R

variable {R : Type}

/-- Number of stored elements of column `i` (`A.nonZeros(i)`). -/
def CompressedMatrix.nonZeros (A : CompressedMatrix R) (i : Nat) : Nat :=
  (A.col i).length

/-- Strictly increasing indices, all below `bound`. -/
def sortedBelow (bound : Nat) : List (Element R) → Prop
  | [] => True
  | [e] => e.index < bound
  | e :: e' :: es => e.index < e'.index ∧ sortedBelow bound (e' :: es)

/-- The container invariant of a column-major compressed matrix: in every
column the stored row indices are strictly increasing and smaller than the
number of rows. -/
def CompressedMatrix.WF (A : CompressedMatrix R) : Prop :=
  ∀ i, i < A.columns → sortedBelow A.rows (A.col i)

/-- Element access `A(i,j)` of a sparse matrix: the stored value with row index
`i` in column `j`, zero when there is none. -/
def CompressedMatrix.at [Zero R] (A : CompressedMatrix R) (i j : Nat) : R :=
  match (A.col j).find? (fun e => e.index == i) with
  | some e => e.value
  | none => 0

/-- The assignment `C(i,j) = v`. -/
def DenseMatrix.set (C : DenseMatrix R) (i j : Nat) (v : R) : DenseMatrix R :=
  { C with elem := fun a b => if a = i ∧ b = j then v else C.elem a b }

/-- Resetting a dense matrix, `reset( C )`: every element of the matrix becomes
the default value. -/
def reset [Zero R] (C : DenseMatrix R) : DenseMatrix R :=
  { C with elem := fun a b => if a < C.rows ∧ b < C.columns then 0 else C.elem a b }

/-- Test `isDefault( x )` of a numeric element. -/
def isDefault [Zero R] [DecidableEq R] (x : R) : Bool := decide (x = 0)

/-- Complex conjugate `conj( x )`. -/
def conj [Star R] (x : R) : R := star x

/-! ## Compile-time flags -/

/-- The declaration flags `SF`, `HF`, `LF`, `UF` of a product node. -/
structure DeclFlags where
  SF : Bool
  HF : Bool
  LF : Bool
  UF : Bool
deriving DecidableEq, Repr

/-- Kernel flag for symmetric matrices. -/
def DeclFlags.SYM (f : DeclFlags) : Bool := f.SF && !(f.HF || f.LF || f.UF)

/-- Kernel flag for Hermitian matrices. -/
def DeclFlags.HERM (f : DeclFlags) : Bool := f.HF && !(f.LF || f.UF)

/-- Kernel flag for lower matrices. -/
def DeclFlags.LOW (f : DeclFlags) : Bool := f.LF || ((f.SF || f.HF) && f.UF)

/-- Kernel flag for upper matrices. -/
def DeclFlags.UPP (f : DeclFlags) : Bool := f.UF || ((f.SF || f.HF) && f.LF)

/-- A product node without declaration flags, as built by `operator*`. -/
def DeclFlags.none : DeclFlags := ⟨false, false, false, false⟩

/-- The static structure traits of the right-hand side operand type `MT5`
that the kernels query. -/
structure StructFlags where
  isDiagonal : Bool
  isUpper : Bool
  isLower : Bool
  isStrictlyUpper : Bool
  isStrictlyLower : Bool
deriving DecidableEq, Repr

/-- An operand type without static structure flags. -/
def StructFlags.none : StructFlags := ⟨false, false, false, false, false⟩

/-! ## The assignment kernels of `TSMatTDMatMultExpr` -/

/-- Three-argument `max`. -/
def max3 (a b c : Nat) : Nat := max a (max b c)

/-- Three-argument `min`. -/
def min3 (a b c : Nat) : Nat := min a (min b c)

/-- First column that the stored element with row index `i1` of column `i`
contributes to within the block starting at `jj`. -/
def jbegin (f : DeclFlags) (t : StructFlags) (i1 i jj : Nat) : Nat :=
  if t.isUpper then
    if f.SYM || f.HERM || f.UPP then
      max3 i1 (if t.isStrictlyUpper then i + 1 else i) jj
    else
      max (if t.isStrictlyUpper then i + 1 else i) jj
  else
    if f.SYM || f.HERM || f.UPP then max i1 jj else jj

/-- One past the last column that the stored element with row index `i1` of
column `i` contributes to within the block ending at `jpos`. -/
def jend (f : DeclFlags) (t : StructFlags) (i1 i jpos : Nat) : Nat :=
  if t.isLower then
    if f.LOW then
      min3 (i1 + 1) (if t.isStrictlyLower then i else i + 1) jpos
    else
      min (if t.isStrictlyLower then i else i + 1) jpos
  else
    if f.LOW then min (i1 + 1) jpos else jpos

/-- End of the column block that starts at `jj`. -/
def blockEnd (block columns jj : Nat) : Nat :=
  if jj + block > columns then columns else jj + block

/-- The loop that copies the computed triangle of a product declared symmetric
or Hermitian into the other triangle. -/
def mirror [Star R] (f : DeclFlags) (A : CompressedMatrix R) (B : DenseMatrix R)
    (C : DenseMatrix R) : DenseMatrix R :=
  if f.SYM || f.HERM then
    forLoop 0 B.columns 1 (fun j C =>
      forLoop (j + 1) A.rows 1 (fun i C =>
        C.set i j (if f.HERM then conj (C.elem j i) else C.elem j i)) C) C
  else C

/-- The contribution of one stored element to the columns `jbegin..jend` in the
default kernel. -/
def defaultUpdate [CommRing R] [DecidableEq R] (B : DenseMatrix R) (i i1 : Nat) (v : R)
    (jb je : Nat) (C : DenseMatrix R) : DenseMatrix R :=
  if jb ≥ je then C
  else
    forLoop jb je 1 (fun j C =>
      if isDefault (C.elem i1 j) then C.set i1 j (v * B.elem i j)
      else C.set i1 j (C.elem i1 j + v * B.elem i j)) C

/-- The branch of the default kernel for a diagonal right operand: every stored
element `A(i1,i)` is multiplied by `B(i,i)`. -/
def defaultDiagonalLoop [CommRing R] (A : CompressedMatrix R) (B : DenseMatrix R)
    (C : DenseMatrix R) : DenseMatrix R :=
  forLoop 0 A.columns 1 (fun i C =>
    (A.col i).foldl (fun C element =>
      C.set element.index i (element.value * B.elem i i)) C) C

/-- The general branch of the default kernel: column blocks of 64, and for
every stored element of `A` the clipped range of columns. -/
def defaultBlockedLoop [CommRing R] [DecidableEq R] (f : DeclFlags) (t : StructFlags)
    (A : CompressedMatrix R) (B : DenseMatrix R) (C : DenseMatrix R) : DenseMatrix R :=
  let block := 64
  forLoop 0 B.columns block (fun jj C =>
    let jpos := blockEnd block B.columns jj
    forLoop 0 A.columns 1 (fun i C =>
      (A.col i).foldl (fun C element =>
        let i1 := element.index
        defaultUpdate B i i1 element.value (jbegin f t i1 i jj) (jend f t i1 i jpos) C)
        C) C) C

/-- The default assignment kernel `selectDefaultAssignKernel( C, A, B )`:
reset of the target, accumulation, mirroring. -/
def selectDefaultAssignKernel [CommRing R] [DecidableEq R] [Star R]
    (f : DeclFlags) (t : StructFlags)
    (C : DenseMatrix R) (A : CompressedMatrix R) (B : DenseMatrix R) : DenseMatrix R :=
  let C := reset C
  let C :=
    if t.isDiagonal then defaultDiagonalLoop A B C
    else defaultBlockedLoop f t A B C
  mirror f A B C

/-- The update `C(i1,j) += v * B(i,j)` for the columns `jbegin..jend`, used for
the stored elements that remain after the unrolled loop. -/
def smallUpdate [CommRing R] (B : DenseMatrix R) (i i1 : Nat) (v : R)
    (jb je : Nat) (C : DenseMatrix R) : DenseMatrix R :=
  if jb ≥ je then C
  else forLoop jb je 1 (fun j C => C.set i1 j (C.elem i1 j + v * B.elem i j)) C

/-- One pass of the four-way unrolled loop of the optimized small kernel.  The
state is the iterator `element` (the stored elements not yet consumed) together
with the target.  Four elements are read, `jbegin` is taken from the first and
`jend` from the fourth of them. -/
def unrolledStep [CommRing R] (f : DeclFlags) (t : StructFlags) (B : DenseMatrix R)
    (i jj jpos : Nat) (_k : Nat) (s : List (Element R) × DenseMatrix R) :
    List (Element R) × DenseMatrix R :=
  match s.1 with
  | e1 :: e2 :: e3 :: e4 :: element =>
    let i1 := e1.index
    let v1 := e1.value
    let i2 := e2.index
    let v2 := e2.value
    let i3 := e3.index
    let v3 := e3.value
    let i4 := e4.index
    let v4 := e4.value
    let jb := jbegin f t i1 i jj
    let je := jend f t i4 i jpos
    if jb ≥ je then (element, s.2)
    else
      (element, forLoop jb je 1 (fun j C =>
        let C := C.set i1 j (C.elem i1 j + v1 * B.elem i j)
        let C := C.set i2 j (C.elem i2 j + v2 * B.elem i j)
        let C := C.set i3 j (C.elem i3 j + v3 * B.elem i j)
        C.set i4 j (C.elem i4 j + v4 * B.elem i j)) s.2)
  | _ => s

/-- The work of the optimized small kernel on column `i` of `A` within one
column block: the four-way unrolled loop up to `kpos`, then the remaining
stored elements one at a time.  The end `kpos` of the unrolled loop,
`nonzeros & size_t(-4)`, is written `nonzeros - nonzeros % 4`, the value the
kernel asserts for it. -/
def smallColumn [CommRing R] (f : DeclFlags) (t : StructFlags)
    (A : CompressedMatrix R) (B : DenseMatrix R) (i jj jpos : Nat)
    (C : DenseMatrix R) : DenseMatrix R :=
  let nonzeros := A.nonZeros i
  let kpos := nonzeros - nonzeros % 4
  let s := forLoop 0 kpos 4 (unrolledStep f t B i jj jpos) (A.col i, C)
  s.1.foldl (fun C element =>
    let i1 := element.index
    smallUpdate B i i1 element.value (jbegin f t i1 i jj) (jend f t i1 i jpos) C)
    s.2

/-- The blocked loop of the optimized small kernel: per column block, reset of
the block followed by the accumulation over all columns of `A`. -/
def smallBlockedLoop [CommRing R] (f : DeclFlags) (t : StructFlags) (rowMajor : Bool)
    (A : CompressedMatrix R) (B : DenseMatrix R) (C : DenseMatrix R) : DenseMatrix R :=
  let block := if rowMajor then 128 else 64
  forLoop 0 B.columns block (fun jj C =>
    let jpos := blockEnd block B.columns jj
    let C := forLoop 0 A.rows 1 (fun i C =>
      forLoop jj jpos 1 (fun j C => C.set i j 0) C) C
    forLoop 0 A.columns 1 (fun i C => smallColumn f t A B i jj jpos C) C) C

/-- The optimized small assignment kernel, the overload of
`selectSmallAssignKernel( C, A, B )` enabled by `UseOptimizedKernel`.
`rowMajor` is `IsRowMajorMatrix<MT3>` of the target. -/
def selectSmallAssignKernelOptimized [CommRing R] [Star R]
    (f : DeclFlags) (t : StructFlags) (rowMajor : Bool)
    (C : DenseMatrix R) (A : CompressedMatrix R) (B : DenseMatrix R) : DenseMatrix R :=
  mirror f A B (smallBlockedLoop f t rowMajor A B C)

/-- The reference value of the product: the inner loop of the naive triple
loop, `sum over l of A(i,l) * B(l,j)`. -/
def naiveProduct [CommRing R] (A : CompressedMatrix R) (B : DenseMatrix R) (i j : Nat) : R :=
  Finset.sum (Finset.range A.columns) (fun l => A.at i l * B.elem l j)

/-! ## Sample data -/

/-- The 3×3 sparse matrix of the specification's example scenario, with
nonzeros (0,0):1, (1,1):3, (2,0):-1, (0,2):2, (1,2):-1, (2,2):2. -/
def exampleA : CompressedMatrix Int where
  rows := 3
  columns := 3
  col := fun i =>
    match i with
    | 0 => [⟨0, 1⟩, ⟨2, -1⟩]
    | 1 => [⟨1, 3⟩]
    | 2 => [⟨0, 2⟩, ⟨1, -1⟩, ⟨2, 2⟩]
    | _ => []

/-- The dense `n`×`n` identity matrix. -/
def identity [Zero R] [One R] (n : Nat) : DenseMatrix R where
  rows := n
  columns := n
  elem := fun i j => if i = j then 1 else 0

/-- A dense target whose every element holds `v`. -/
def filled (m n : Nat) (v : R) : DenseMatrix R where
  rows := m
  columns := n
  elem := fun _ _ => v

/-! ## Errors and the product node -/

/-- The failures of the library: the two exception kinds thrown by the
operators and accessors, and the violation of a `BLAZE_INTERNAL_ASSERT`. -/
inductive Error where
  | invalidArgument (msg : String)
  | outOfRange (msg : String)
  | assertion (msg : String)
deriving DecidableEq, Repr

/-- The product node `TSMatTDMatMultExpr<MT1,MT2,SF,HF,LF,UF>`: its two operands
and its declaration flags. -/
structure TSMatTDMatMultExpr (R : Type) where
  lhs : CompressedMatrix R
  rhs : DenseMatrix R
  flags : DeclFlags

/-- Number of rows of the product, `rows()`. -/
def TSMatTDMatMultExpr.rows (e : TSMatTDMatMultExpr R) : Nat := e.lhs.rows

/-- Number of columns of the product, `columns()`. -/
def TSMatTDMatMultExpr.columns (e : TSMatTDMatMultExpr R) : Nat := e.rhs.columns

/-- The constructor of the product node with its internal assertion
`lhs.columns() == rhs.rows()`. -/
def TSMatTDMatMultExpr.new (lhs : CompressedMatrix R) (rhs : DenseMatrix R)
    (flags : DeclFlags) : Except Error (TSMatTDMatMultExpr R) :=
  if lhs.columns = rhs.rows then .ok ⟨lhs, rhs, flags⟩
  else .error (.assertion "Invalid matrix sizes")

/-- The multiplication operator `operator*( SparseMatrix<MT1,true>,
DenseMatrix<MT2,true> )`. -/
def operatorMul (lhs : CompressedMatrix R) (rhs : DenseMatrix R) :
    Except Error (TSMatTDMatMultExpr R) :=
  if lhs.columns ≠ rhs.rows then
    .error (.invalidArgument "Matrix sizes do not match")
  else
    TSMatTDMatMultExpr.new lhs rhs ⟨false, false, false, false⟩

/-! ## Kernel selection -/

/-- The compile-time inputs of the kernel selection that come from the
configuration and from the element types: the threshold
`TSMATTDMATMULT_THRESHOLD`, the switch `useOptimizedKernels`, and
`IsResizable` of the element type of the target and of the left operand.
The configuration headers are not embedded here, so these values are
parameters. -/
structure KernelConfig where
  TSMATTDMATMULT_THRESHOLD : Nat
  useOptimizedKernels : Bool
  targetElementResizable : Bool
  leftElementResizable : Bool
deriving DecidableEq, Repr

/-- With the storage order flag `SO` of a matrix type, `IsRowMajorMatrix`. -/
def IsRowMajorMatrix (SO : Bool) : Bool := !SO

/-- With the storage order flag `SO` of a matrix type, `IsColumnMajorMatrix`. -/
def IsColumnMajorMatrix (SO : Bool) : Bool := SO

/-- The switch `UseOptimizedKernel<T1,T2,T3>`; `t` are the static structure
flags of `T3`. -/
def UseOptimizedKernel (k : KernelConfig) (t : StructFlags) : Bool :=
  k.useOptimizedKernels && !t.isDiagonal && !k.targetElementResizable &&
    !k.leftElementResizable

/-- The switch `UseDefaultKernel<T1,T2,T3>`. -/
def UseDefaultKernel (k : KernelConfig) (t : StructFlags) : Bool :=
  !UseOptimizedKernel k t

/-- The two overloads of every small and large kernel. -/
inductive KernelVariant where
  | default
  | optimized
deriving DecidableEq, Repr

/-- The overloads of a small or large kernel that `EnableIf_` leaves in the
overload set. -/
def enabledOverloads (k : KernelConfig) (t : StructFlags) : List KernelVariant :=
  (if UseDefaultKernel k t then [KernelVariant.default] else []) ++
    (if UseOptimizedKernel k t then [KernelVariant.optimized] else [])

/-- The element count computed by the kernel selection, a `size_t` product. -/
def targetSize (C : DenseMatrix R) : Nat := (C.rows * C.columns) % 2 ^ 64

/-- The kernel selection `selectAssignKernel( C, A, B )`; `small` and `large`
stand for the calls of the small and of the large kernel. -/
def selectAssignKernel {α : Type} (k : KernelConfig) (SO : Bool) (C : DenseMatrix R)
    (small large : α) : α :=
  let size := targetSize C
  if (IsRowMajorMatrix SO && decide (size < k.TSMATTDMATMULT_THRESHOLD)) ||
      (IsColumnMajorMatrix SO && decide (size < 625)) then
    small
  else
    large

/-- The kernel selection `selectAddAssignKernel( C, A, B )`. -/
def selectAddAssignKernel {α : Type} (k : KernelConfig) (SO : Bool) (C : DenseMatrix R)
    (small large : α) : α :=
  let size := targetSize C
  if (IsRowMajorMatrix SO && decide (size < k.TSMATTDMATMULT_THRESHOLD)) ||
      (IsColumnMajorMatrix SO && decide (size < 625)) then
    small
  else
    large

/-- The kernel selection `selectSubAssignKernel( C, A, B )`. -/
def selectSubAssignKernel {α : Type} (k : KernelConfig) (SO : Bool) (C : DenseMatrix R)
    (small large : α) : α :=
  let size := targetSize C
  if (IsRowMajorMatrix SO && decide (size < k.TSMATTDMATMULT_THRESHOLD)) ||
      (IsColumnMajorMatrix SO && decide (size < 625)) then
    small
  else
    large

/-- The small kernel `selectSmallAssignKernel( C, A, B )`: the overload that is
enabled. -/
def selectSmallAssignKernel [CommRing R] [DecidableEq R] [Star R] (k : KernelConfig)
    (f : DeclFlags) (t : StructFlags) (SO : Bool)
    (C : DenseMatrix R) (A : CompressedMatrix R) (B : DenseMatrix R) : DenseMatrix R :=
  if UseOptimizedKernel k t then
    selectSmallAssignKernelOptimized f t (IsRowMajorMatrix SO) C A B
  else
    selectDefaultAssignKernel f t C A B

/-- Modelled from the spec: the assignment of the product of the row-major copy
of `A` with `B`, to which the optimized large kernel forwards.  It belongs to
the node type of the row-major sparse × column-major dense product, whose
header is not embedded here.  By the kernel-equivalence
law of the specification this path leaves the result of the naive triple loop
in the target. -/
def rowMajorProductAssign [CommRing R] (C : DenseMatrix R) (A : CompressedMatrix R)
    (B : DenseMatrix R) : DenseMatrix R :=
  { C with elem := fun i j =>
      if i < A.rows ∧ j < B.columns then naiveProduct A B i j else C.elem i j }

/-- The large kernel `selectLargeAssignKernel( C, A, B )`: the default kernel, or
for the optimized overload the forwarding to the product with the row-major
copy of `A`. -/
def selectLargeAssignKernel [CommRing R] [DecidableEq R] [Star R] (k : KernelConfig)
    (f : DeclFlags) (t : StructFlags)
    (C : DenseMatrix R) (A : CompressedMatrix R) (B : DenseMatrix R) : DenseMatrix R :=
  if UseOptimizedKernel k t then rowMajorProductAssign C A B
  else selectDefaultAssignKernel f t C A B

/-- A `BLAZE_INTERNAL_ASSERT`. -/
def internalAssert (cond : Bool) (msg : String) : Except Error Unit :=
  if cond then .ok () else .error (.assertion msg)

/-- The assignment `assign( DenseMatrix<MT,SO>& lhs, const TSMatTDMatMultExpr& rhs )`
of a product to a dense matrix, the overload taken when no operand is
symmetric.  The operands are plain matrices, so their evaluation `A`, `B` is
the operands themselves. -/
def assign [CommRing R] [DecidableEq R] [Star R] (k : KernelConfig) (t : StructFlags)
    (SO : Bool) (lhs : DenseMatrix R) (rhs : TSMatTDMatMultExpr R) :
    Except Error (DenseMatrix R) := do
  internalAssert (decide (lhs.rows = rhs.rows)) "Invalid number of rows"
  internalAssert (decide (lhs.columns = rhs.columns)) "Invalid number of columns"
  let A := rhs.lhs
  let B := rhs.rhs
  internalAssert (decide (A.rows = lhs.rows)) "Invalid number of rows"
  internalAssert (decide (B.columns = lhs.columns)) "Invalid number of columns"
  pure (selectAssignKernel k SO lhs
    (selectSmallAssignKernel k rhs.flags t SO lhs A B)
    (selectLargeAssignKernel k rhs.flags t lhs A B))

/-! ## Restructuring assignment -/

/-- The values of a sparse matrix as a matrix of elements. -/
def CompressedMatrix.toDense [Zero R] (A : CompressedMatrix R) : DenseMatrix R :=
  ⟨A.rows, A.columns, A.at⟩

/-- The transpose `trans( M )` of a matrix. -/
def trans (M : DenseMatrix R) : DenseMatrix R :=
  ⟨M.columns, M.rows, fun i j => M.elem j i⟩

/-- The value of the product of two matrices at `(i,j)`. -/
def productValue [CommRing R] (L M : DenseMatrix R) (i j : Nat) : R :=
  Finset.sum (Finset.range L.columns) (fun l => L.elem i l * M.elem l j)

/-- The operands of the product that the restructuring `assign` forwards to,
chosen by `IsSymmetric<MT1>` and `IsSymmetric<MT2>`. -/
def restructure [Zero R] (symmetricLeft symmetricRight : Bool) (rhs : TSMatTDMatMultExpr R) :
    DenseMatrix R × DenseMatrix R :=
  if symmetricLeft && symmetricRight then (trans rhs.lhs.toDense, trans rhs.rhs)
  else if symmetricLeft then (trans rhs.lhs.toDense, rhs.rhs)
  else (rhs.lhs.toDense, trans rhs.rhs)

/-- A matrix is symmetric: it is square and equal to its transpose. -/
def IsSymmetricMatrix (M : DenseMatrix R) : Prop :=
  M.rows = M.columns ∧ ∀ i j, i < M.rows → j < M.rows → M.elem i j = M.elem j i

/-! ## Declaring a dense matrix symmetric -/

/-- The operands of `declsym`: a dense matrix type with its static traits
`IsSymmetric` and `IsUniTriangular`, or a matrix-scalar multiplication
`DMatScalarMultExpr` (whose own two traits are declared with that node type,
in a header that is not embedded here, and are therefore carried along). -/
inductive DenseOperand (R : Type) where
  | matrix (M : DenseMatrix R) (isSymmetric isUniTriangular : Bool)
  | scalarMult (leftOperand : DenseOperand R) (rightOperand : R)
      (isSymmetric isUniTriangular : Bool)

/-- Number of rows of an operand. -/
def DenseOperand.rows : DenseOperand R → Nat
  | .matrix M _ _ => M.rows
  | .scalarMult l _ _ _ => l.rows

/-- Number of columns of an operand. -/
def DenseOperand.columns : DenseOperand R → Nat
  | .matrix M _ _ => M.columns
  | .scalarMult l _ _ _ => l.columns

/-- The trait `IsSymmetric` of the operand type. -/
def DenseOperand.isSymmetric : DenseOperand R → Bool
  | .matrix _ s _ => s
  | .scalarMult _ _ s _ => s

/-- The trait `IsUniTriangular` of the operand type. -/
def DenseOperand.isUniTriangular : DenseOperand R → Bool
  | .matrix _ _ u => u
  | .scalarMult _ _ _ u => u

/-- The test `isSquare( dm )`. -/
def isSquare (dm : DenseOperand R) : Bool := decide (dm.rows = dm.columns)

/-- The wrapper node `DMatDeclSymExpr<MT,SO>`. -/
structure DMatDeclSymExpr (R : Type) where
  dm : DenseOperand R

/-- The constructor of the wrapper node with its internal assertion. -/
def DMatDeclSymExpr.new (dm : DenseOperand R) : Except Error (DMatDeclSymExpr R) :=
  if isSquare dm then .ok ⟨dm⟩ else .error (.assertion "Non-square matrix detected")

/-- What `declsym` returns: the operand itself, an identity matrix, a wrapper
node, or the product of such a result with a scalar. -/
inductive DeclSymResult (R : Type) where
  | operand (dm : DenseOperand R)
  | identityMatrix (n : Nat)
  | wrapper (node : DMatDeclSymExpr R)
  | scaled (inner : DeclSymResult R) (scalar : R)

/-- The three overloads of `declsym_backend`, selected by `IsSymmetric` and
`IsUniTriangular` of the operand type. -/
def declsym_backend (dm : DenseOperand R) : Except Error (DeclSymResult R) := do
  internalAssert (isSquare dm) "Non-square matrix detected"
  if dm.isSymmetric then
    pure (.operand dm)
  else if dm.isUniTriangular then
    pure (.identityMatrix dm.rows)
  else
    let node ← DMatDeclSymExpr.new dm
    pure (.wrapper node)

/-- The function `declsym`: the overload for dense matrices, and the
restructuring overload for a matrix-scalar multiplication whose left operand
type is not symmetric. -/
def declsym : DenseOperand R → Except Error (DeclSymResult R)
  | .matrix M s u =>
    if !isSquare (.matrix M s u) then
      .error (.invalidArgument "Invalid symmetric matrix specification")
    else
      declsym_backend (.matrix M s u)
  | .scalarMult l x s u =>
    if l.isSymmetric then
      if !isSquare (.scalarMult l x s u) then
        .error (.invalidArgument "Invalid symmetric matrix specification")
      else
        declsym_backend (.scalarMult l x s u)
    else
      if !isSquare (.scalarMult l x s u) then
        .error (.invalidArgument "Invalid symmetric matrix specification")
      else do
        let inner ← declsym l
        pure (.scaled inner x)

/-! ## More sample data -/

/-- A 4×2 sparse matrix: column 0 holds four stored elements, column 1 one. -/
def tallA : CompressedMatrix Int where
  rows := 4
  columns := 2
  col := fun i =>
    match i with
    | 0 => [⟨0, 1⟩, ⟨1, 1⟩, ⟨2, 1⟩, ⟨3, 1⟩]
    | 1 => [⟨3, -1⟩]
    | _ => []

/-- A 2×4 dense matrix whose only nonzero column is column 2. -/
def wideB : DenseMatrix Int where
  rows := 2
  columns := 4
  elem := fun i j => if j = 2 ∧ i < 2 then 1 else 0

/-! ## Auxiliary descriptions of the clipping -/

/-- Columns admitted for row `i` of the right operand by its static structure
flags, as far as `jbegin` and `jend` consult them. -/
def structBand (t : StructFlags) (i c : Nat) : Bool :=
  (!t.isUpper || decide ((if t.isStrictlyUpper then i + 1 else i) ≤ c)) &&
  (!t.isLower || decide (c < (if t.isStrictlyLower then i else i + 1)))

/-- Columns admitted by the kernel flags when `jbegin` is computed from the row
index `i1` and `jend` from the row index `i4`. -/
def declBand (f : DeclFlags) (i1 i4 c : Nat) : Bool :=
  (!(f.SYM || f.HERM || f.UPP) || decide (i1 ≤ c)) && (!f.LOW || decide (c < i4 + 1))

/-- What one stored element of column `i` adds to entry `(r,c)` in the default
kernel. -/
def bandTerm [CommRing R] (f : DeclFlags) (t : StructFlags) (B : DenseMatrix R)
    (i r c : Nat) (e : Element R) : R :=
  if e.index = r ∧ structBand t i c = true ∧ declBand f e.index e.index c = true then
    e.value * B.elem i c
  else 0

/-- What the stored elements of column `i` add to entry `(r,c)` in the optimized
small kernel: groups of four share the window of the first and the fourth
element, the rest is treated as in the default kernel. -/
def groupSum [CommRing R] (f : DeclFlags) (t : StructFlags) (B : DenseMatrix R)
    (i r c : Nat) : List (Element R) → R
  | e1 :: e2 :: e3 :: e4 :: es =>
    (if structBand t i c = true ∧ declBand f e1.index e4.index c = true then
      ([e1, e2, e3, e4].map (fun e => if e.index = r then e.value * B.elem i c else 0)).sum
    else 0) + groupSum f t B i r c es
  | es => (es.map (bandTerm f t B i r c)).sum

/-- The static structure flags of an operand type describe the operand: the
elements outside the asserted structure are zero. -/
def StructFlags.Holds [Zero R] (t : StructFlags) (B : DenseMatrix R) : Prop :=
  (t.isDiagonal = true → ∀ l j, l < B.rows → j < B.columns → l ≠ j → B.elem l j = 0) ∧
  (t.isUpper = true → ∀ l j, l < B.rows → j < B.columns → j < l → B.elem l j = 0) ∧
  (t.isLower = true → ∀ l j, l < B.rows → j < B.columns → l < j → B.elem l j = 0) ∧
  (t.isStrictlyUpper = true → ∀ l j, l < B.rows → j < B.columns → j ≤ l → B.elem l j = 0) ∧
  (t.isStrictlyLower = true → ∀ l j, l < B.rows → j < B.columns → l ≤ j → B.elem l j = 0)

/-- The update `C(i,j) += x`. -/
def addAt [Add R] (C : DenseMatrix R) (i j : Nat) (x : R) : DenseMatrix R :=
  C.set i j (C.elem i j + x)

/-- What the stored elements of one column add to entry `(r,c)` when only the
static structure of the right operand clips. -/
def structSum [CommRing R] (t : StructFlags) (B : DenseMatrix R) (i r c : Nat)
    (es : List (Element R)) : R :=
  (es.map (fun e =>
    if e.index = r ∧ structBand t i c = true then e.value * B.elem i c else 0)).sum

/-- The target has `m` rows and `n` columns. -/
abbrev HasShape (m n : Nat) (C : DenseMatrix R) : Prop := C.rows = m ∧ C.columns = n

/-- A sparse matrix whose columns hold 5, 4 and 0 stored elements. -/
def exampleWide : CompressedMatrix Int where
  rows := 6
  columns := 3
  col := fun i =>
    match i with
    | 0 => [⟨0, 2⟩, ⟨1, -1⟩, ⟨3, 4⟩, ⟨4, 1⟩, ⟨5, 3⟩]
    | 1 => [⟨1, 1⟩, ⟨2, 5⟩, ⟨3, -2⟩, ⟨5, 7⟩]
    | _ => []

/-- A kernel configuration used in examples. -/
def exampleConfig : KernelConfig := ⟨10000, true, false, false⟩

/-- A 2×3 sparse matrix. -/
def exampleLeft : CompressedMatrix Int where
  rows := 2
  columns := 3
  col := fun i =>
    match i with
    | 0 => [⟨0, 1⟩]
    | 2 => [⟨1, 4⟩]
    | _ => []

/-- A product node declared symmetric. -/
def DeclFlags.symmetric : DeclFlags := ⟨true, false, false, false⟩

/-- A product node declared Hermitian. -/
def DeclFlags.hermitian : DeclFlags := ⟨false, true, false, false⟩

/-- A product node declared upper. -/
def DeclFlags.upper : DeclFlags := ⟨false, false, false, true⟩

/-- A product node declared lower. -/
def DeclFlags.lower : DeclFlags := ⟨false, false, true, false⟩

/-- A symmetric 2×2 sparse matrix. -/
def exampleSym : CompressedMatrix Int where
  rows := 2
  columns := 2
  col := fun i =>
    match i with
    | 0 => [⟨0, 1⟩, ⟨1, 2⟩]
    | 1 => [⟨0, 2⟩, ⟨1, 3⟩]
    | _ => []

/-- The two kernel sizes between which the kernel selection chooses. -/
inductive KernelSize where
  | small
  | large
deriving DecidableEq, Repr

/-- A non-square dense matrix-scalar multiplication of a general matrix. -/
def exampleScaled : DenseOperand Int :=
  .scalarMult (.matrix (filled 2 3 1) false false) 5 false false

/-- A 4×2 sparse matrix: column 0 holds four stored elements, column 1 one
element in row 0. -/
def tallLow : CompressedMatrix Int where
  rows := 4
  columns := 2
  col := fun i =>
    match i with
    | 0 => [⟨0, 1⟩, ⟨1, 1⟩, ⟨2, 1⟩, ⟨3, 1⟩]
    | 1 => [⟨0, -1⟩]
    | _ => []

/-- A 2×4 dense matrix whose only nonzero column is column 1. -/
def wideLow : DenseMatrix Int where
  rows := 2
  columns := 4
  elem := fun i j => if j = 1 ∧ i < 2 then 1 else 0

/-! ## The declared-symmetry node -/

/-- The overloads of `declsym_backend`. -/
inductive BackendOverload where
  | wrap
  | identity
  | forward
deriving DecidableEq, Repr

/-- The overloads of `declsym_backend` that their `EnableIf_`/`DisableIf_`
conditions leave in the overload set, for the operand traits `IsSymmetric` and
`IsUniTriangular`: the wrapping overload is disabled by
`Or< IsSymmetric, IsUniTriangular >`, the identity overload is enabled by
`And< Not< IsSymmetric >, IsUniTriangular >`, the forwarding overload by
`IsSymmetric`. -/
def enabledBackendOverloads (isSymmetric isUniTriangular : Bool) : List BackendOverload :=
  (if !(isSymmetric || isUniTriangular) then [BackendOverload.wrap] else []) ++
    (if !isSymmetric && isUniTriangular then [BackendOverload.identity] else []) ++
    (if isSymmetric then [BackendOverload.forward] else [])

/-- Element access `dm(i,j)` of an operand of `declsym`. -/
def DenseOperand.elem [Mul R] : DenseOperand R → Nat → Nat → R
  | .matrix M _ _ => M.elem
  | .scalarMult l x _ _ => fun i j => l.elem i j * x

/-- Element access of an identity matrix. -/
def identityElem [Zero R] [One R] (i j : Nat) : R := if i = j then 1 else 0

/-- Number of rows of the wrapper node, `rows()`. -/
def DMatDeclSymExpr.rows (e : DMatDeclSymExpr R) : Nat := e.dm.rows

/-- Number of columns of the wrapper node, `columns()`. -/
def DMatDeclSymExpr.columns (e : DMatDeclSymExpr R) : Nat := e.dm.columns

/-- The access operator `operator()( i, j )` of the wrapper node, with its two
internal assertions. -/
def DMatDeclSymExpr.call [Mul R] (e : DMatDeclSymExpr R) (i j : Nat) : Except Error R := do
  internalAssert (decide (i < e.dm.rows)) "Invalid row access index"
  internalAssert (decide (j < e.dm.columns)) "Invalid column access index"
  pure (e.dm.elem i j)

/-- The checked access `at( i, j )` of the wrapper node. -/
def DMatDeclSymExpr.at [Mul R] (e : DMatDeclSymExpr R) (i j : Nat) : Except Error R :=
  if i ≥ e.dm.rows then
    .error (.outOfRange "Invalid row access index")
  else if j ≥ e.dm.columns then
    .error (.outOfRange "Invalid column access index")
  else
    e.call i j

/-- The structural traits of a matrix type. -/
structure Traits where
  isSymmetric : Bool
  isHermitian : Bool
  isLower : Bool
  isUniLower : Bool
  isStrictlyLower : Bool
  isUpper : Bool
  isUniUpper : Bool
  isStrictlyUpper : Bool
deriving DecidableEq, Repr

/-- The trait specializations for `DMatDeclSymExpr<MT,SO>`, from the traits of
`MT`. -/
def DMatDeclSymExpr.traits (mt : Traits) : Traits where
  isSymmetric := true
  isHermitian := mt.isHermitian
  isLower := mt.isLower
  isUniLower := mt.isUniLower
  isStrictlyLower := mt.isStrictlyLower
  isUpper := mt.isUpper
  isUniUpper := mt.isUniUpper
  isStrictlyUpper := mt.isStrictlyUpper

/-- A square 2×2 operand. -/
def exampleSquare : DenseOperand Int :=
  .matrix ⟨2, 2, fun i j => (3 * i + j : Nat)⟩ false false

/-- Number of rows of what `declsym` returns. -/
def DeclSymResult.rows : DeclSymResult R → Nat
  | .operand dm => dm.rows
  | .identityMatrix n => n
  | .wrapper node => node.rows
  | .scaled inner _ => inner.rows

/-- Number of columns of what `declsym` returns. -/
def DeclSymResult.columns : DeclSymResult R → Nat
  | .operand dm => dm.columns
  | .identityMatrix n => n
  | .wrapper node => node.columns
  | .scaled inner _ => inner.columns

/-- Element access of what `declsym` returns. -/
def DeclSymResult.elem [Mul R] [Zero R] [One R] : DeclSymResult R → Nat → Nat → R
  | .operand dm => dm.elem
  | .identityMatrix _ => identityElem
  | .wrapper node => node.dm.elem
  | .scaled inner x => fun i j => inner.elem i j * x

/-- A uni-triangular 2×2 operand that is not symmetric. -/
def exampleUniLower : DenseOperand Int :=
  .matrix ⟨2, 2, fun i j => if i = j then 1 else if j < i then 7 else 0⟩ false true

/-! ## Vectors and the capability interface -/

/-- A dense vector: its size and its element storage. -/
@[ext]
structure DenseVector (R : Type) where
  size : Nat
  elem : Nat → R

/-- A compressed sparse vector: its size and its stored elements. -/
structure CompressedVector (R : Type) where
  size : Nat
  elements : List (Element R)

/-- The container invariant of a compressed vector: strictly increasing indices
below the size. -/
def CompressedVector.WF (a : CompressedVector R) : Prop := sortedBelow a.size a.elements

/-- Element access `a[index]` of a sparse vector: the stored value with that
index, zero when there is none. -/
def CompressedVector.subscript [Zero R] (a : CompressedVector R) (index : Nat) : R :=
  match a.elements.find? (fun e => e.index == index) with
  | some e => e.value
  | none => 0

/-- The answers of an operand to the capability queries: the type trait
`IsComputation`, and the member functions `canAlias( alias )`,
`isAliased( alias )` and `canSMPAssign()`.  Addresses are natural numbers. -/
structure Capabilities where
  isComputation : Bool
  canAlias : Nat → Bool
  isAliased : Nat → Bool
  canSMPAssign : Bool

/-! ## The unary map node `DVecForEachExpr` -/

/-- The node `DVecForEachExpr<VT,OP,TF>`: the dense vector operand and the
custom operation. -/
structure DVecForEachExpr (R S : Type) where
  dv : DenseVector R
  op : R → S

/-- The function `forEach( dv, op )`. -/
def forEach {S : Type} (dv : DenseVector R) (op : R → S) : DVecForEachExpr R S := ⟨dv, op⟩

/-- The subscript operator `operator[]( index )` of the map node, with its
internal assertion. -/
def DVecForEachExpr.subscript {S : Type} (e : DVecForEachExpr R S) (index : Nat) :
    Except Error S := do
  internalAssert (decide (index < e.dv.size)) "Invalid vector access index"
  pure (e.op (e.dv.elem index))

/-- The checked access `at( index )` of the map node. -/
def DVecForEachExpr.at {S : Type} (e : DVecForEachExpr R S) (index : Nat) : Except Error S :=
  if index ≥ e.dv.size then
    .error (.outOfRange "Invalid vector access index")
  else
    e.subscript index

/-- The size `size()` of the map node. -/
def DVecForEachExpr.size {S : Type} (e : DVecForEachExpr R S) : Nat := e.dv.size

/-- The query `canAlias( alias )` of the map node; `operand` are the answers of
the operand `dv_` and of its type `VT`. -/
def DVecForEachExpr.canAlias (operand : Capabilities) (address : Nat) : Bool :=
  operand.isComputation && operand.canAlias address

/-- The query `isAliased( alias )` of the map node. -/
def DVecForEachExpr.isAliased (operand : Capabilities) (address : Nat) : Bool :=
  operand.isAliased address

/-- The query `canSMPAssign()` of the map node. -/
def DVecForEachExpr.canSMPAssign (operand : Capabilities) : Bool :=
  operand.canSMPAssign

/-- The vector `(1,2,3,4)`. -/
def exampleVector : DenseVector Int := ⟨4, fun i => (i + 1 : Nat)⟩

/-- A leaf container at address 7: it is no computation and aliases exactly its
own address. -/
def leafAt7 : Capabilities := ⟨false, fun a => decide (a = 7), fun a => decide (a = 7), false⟩

/-! ## The sparse vector minus dense vector node `SVecDVecSubExpr` -/

/-- The node `SVecDVecSubExpr<VT1,VT2,TF>`: the sparse left-hand side and the
dense right-hand side operand. -/
structure SVecDVecSubExpr (R : Type) where
  lhs : CompressedVector R
  rhs : DenseVector R

/-- The constructor of the subtraction node with its internal assertion
`lhs.size() == rhs.size()`. -/
def SVecDVecSubExpr.new (lhs : CompressedVector R) (rhs : DenseVector R) :
    Except Error (SVecDVecSubExpr R) :=
  if lhs.size = rhs.size then .ok ⟨lhs, rhs⟩
  else .error (.assertion "Invalid vector sizes")

/-- The subtraction operator `operator-( SparseVector, DenseVector )`. -/
def operatorSub (lhs : CompressedVector R) (rhs : DenseVector R) :
    Except Error (SVecDVecSubExpr R) :=
  if lhs.size ≠ rhs.size then
    .error (.invalidArgument "Vector sizes do not match")
  else
    SVecDVecSubExpr.new lhs rhs

/-- The subscript operator `operator[]( index )` of the subtraction node, with
its internal assertion. -/
def SVecDVecSubExpr.subscript [Zero R] [Sub R] (e : SVecDVecSubExpr R) (index : Nat) :
    Except Error R := do
  internalAssert (decide (index < e.lhs.size)) "Invalid vector access index"
  pure (e.lhs.subscript index - e.rhs.elem index)

/-- The size `size()` of the subtraction node. -/
def SVecDVecSubExpr.size (e : SVecDVecSubExpr R) : Nat := e.lhs.size

/-- The assignment `t[i] = v`. -/
def DenseVector.set (t : DenseVector R) (i : Nat) (v : R) : DenseVector R :=
  { t with elem := fun a => if a = i then v else t.elem a }

/-- Modelled from the spec: the assignment `target = -b` of a negated dense
vector to a dense vector (the default `assign` of the dense vector interface,
in a header that is not embedded here): every element of the target becomes the
negated element of `b`. -/
def assignNegDense [Neg R] (t b : DenseVector R) : DenseVector R :=
  { t with elem := fun i => if i < b.size then -(b.elem i) else t.elem i }

/-- Modelled from the spec: the addition assignment `target += b` of a dense
vector to a dense vector (dense vector interface, not embedded here). -/
def addAssignDense [Add R] (t b : DenseVector R) : DenseVector R :=
  { t with elem := fun i => if i < b.size then t.elem i + b.elem i else t.elem i }

/-- Modelled from the spec: the subtraction assignment `target -= b` of a dense
vector to a dense vector (dense vector interface, not embedded here). -/
def subAssignDense [Sub R] (t b : DenseVector R) : DenseVector R :=
  { t with elem := fun i => if i < b.size then t.elem i - b.elem i else t.elem i }

/-- Modelled from the spec: the addition assignment `target += a` of a sparse
vector to a dense vector (dense vector interface, not embedded here): every
stored element is added at its index. -/
def addAssignSparse [Add R] (t : DenseVector R) (a : CompressedVector R) : DenseVector R :=
  a.elements.foldl (fun t element => t.set element.index (t.elem element.index + element.value)) t

/-- Modelled from the spec: the subtraction assignment `target -= a` of a sparse
vector to a dense vector (dense vector interface, not embedded here): every
stored element is subtracted at its index. -/
def subAssignSparse [Sub R] (t : DenseVector R) (a : CompressedVector R) : DenseVector R :=
  a.elements.foldl (fun t element => t.set element.index (t.elem element.index - element.value)) t

/-- The assignment `assign( DenseVector& lhs, const SVecDVecSubExpr& rhs )`:
assignment of the negated dense operand, then addition assignment of the sparse
operand. -/
def SVecDVecSubExpr.assign [Ring R] (lhs : DenseVector R) (rhs : SVecDVecSubExpr R) :
    Except Error (DenseVector R) := do
  internalAssert (decide (lhs.size = rhs.size)) "Invalid vector sizes"
  let lhs := assignNegDense lhs rhs.rhs
  pure (addAssignSparse lhs rhs.lhs)

/-- The addition assignment `addAssign( DenseVector& lhs, const SVecDVecSubExpr&
rhs )`: addition assignment of the sparse operand, then subtraction assignment
of the dense operand. -/
def SVecDVecSubExpr.addAssign [Ring R] (lhs : DenseVector R) (rhs : SVecDVecSubExpr R) :
    Except Error (DenseVector R) := do
  internalAssert (decide (lhs.size = rhs.size)) "Invalid vector sizes"
  let lhs := addAssignSparse lhs rhs.lhs
  pure (subAssignDense lhs rhs.rhs)

/-- The subtraction assignment `subAssign( DenseVector& lhs, const
SVecDVecSubExpr& rhs )`: subtraction assignment of the sparse operand, then
addition assignment of the dense operand. -/
def SVecDVecSubExpr.subAssign [Ring R] (lhs : DenseVector R) (rhs : SVecDVecSubExpr R) :
    Except Error (DenseVector R) := do
  internalAssert (decide (lhs.size = rhs.size)) "Invalid vector sizes"
  let lhs := subAssignSparse lhs rhs.lhs
  pure (addAssignDense lhs rhs.rhs)

/-- A sparse vector of size 4 with two stored elements. -/
def exampleSparseVector : CompressedVector Int := ⟨4, [⟨1, 5⟩, ⟨3, -2⟩]⟩

/-- A dense vector of size 3. -/
def shortVector : DenseVector Int := ⟨3, fun _ => 1⟩

/-! ## Capability queries of the nodes -/

/-- The query `canSMPAssign()` of the declared-symmetry node; `operand` are the
answers of the operand `dm_`. -/
def DMatDeclSymExpr.canSMPAssign (operand : Capabilities) : Bool :=
  operand.canSMPAssign

/-- The query `canSMPAssign()` of the product node:
`( rows() * columns() >= SMP_TSMATTDMATMULT_THRESHOLD ) && !IsDiagonal<MT2>`.
The threshold is a configuration constant and therefore a parameter, `t` are
the static structure flags of `MT2`, and `_lhs`, `_rhs` are the answers of the
two operands, which the function has at hand and does not consult. -/
def TSMatTDMatMultExpr.canSMPAssign (SMP_TSMATTDMATMULT_THRESHOLD : Nat) (t : StructFlags)
    (_lhs _rhs : Capabilities) (e : TSMatTDMatMultExpr R) : Bool :=
  decide ((e.rows * e.columns) % 2 ^ 64 ≥ SMP_TSMATTDMATMULT_THRESHOLD) && !t.isDiagonal

/-- The query `canAlias( alias )` of the product node; `lhs`, `rhs` are the
answers of the two operands. -/
def TSMatTDMatMultExpr.canAlias (lhs rhs : Capabilities) (address : Nat) : Bool :=
  lhs.isAliased address || rhs.isAliased address

/-- The query `isAliased( alias )` of the product node. -/
def TSMatTDMatMultExpr.isAliased (lhs rhs : Capabilities) (address : Nat) : Bool :=
  lhs.isAliased address || rhs.isAliased address

/-- An operand whose every capability answer is negative. -/
def noCapabilities : Capabilities := ⟨false, fun _ => false, fun _ => false, false⟩

/-- A product node of a 100×100 sparse matrix without stored elements and a
dense 100×100 matrix. -/
def largeProduct : TSMatTDMatMultExpr Int :=
  ⟨⟨100, 100, fun _ => []⟩, filled 100 100 1, DeclFlags.none⟩

/-! ## Assignment to an operand -/

/-- Dense matrices in memory, by address. -/
abbrev Memory (R : Type) := Nat → DenseMatrix R

/-- Storing a matrix at an address. -/
def Memory.write (memory : Memory R) (address : Nat) (M : DenseMatrix R) : Memory R :=
  fun a => if a = address then M else memory a

/-- The answers of a container that lives at `address`: it is no computation
and is aliased with its own address only. -/
def containerAt (address : Nat) : Capabilities :=
  ⟨false, fun a => decide (a = address), fun a => decide (a = address), false⟩

/-- The function `resize( m, n, false )` of a dense matrix. -/
def resize (C : DenseMatrix R) (m n : Nat) : DenseMatrix R := ⟨m, n, C.elem⟩

/-- Modelled from the spec: the assignment `target = A * B` of the dense matrix
container, which belongs to the container layer and is not embedded here.  `A`
is the sparse left operand, the dense right operand lives in memory at
`rhsAddress`, and `canAlias` is the answer of the product node to the query
`canAlias( &target )`.  If the node can alias the target, the product is
evaluated into a temporary that then replaces the target.  Otherwise the target
is resized and the product is assigned to it directly: the target is reset and
the kernel reads the right operand from memory as it stands then. -/
def assignInMemory [CommRing R] [DecidableEq R] [Star R] (canAlias : Nat → Bool)
    (k : KernelConfig) (SO : Bool) (memory : Memory R) (target : Nat)
    (A : CompressedMatrix R) (rhsAddress : Nat) : Except Error (Memory R) :=
  if canAlias target then do
    let tmp ← assign k StructFlags.none SO (filled A.rows (memory rhsAddress).columns 0)
      ⟨A, memory rhsAddress, DeclFlags.none⟩
    pure (memory.write target tmp)
  else do
    let memory := memory.write target
      (reset (resize (memory target) A.rows (memory rhsAddress).columns))
    let result ← assign k StructFlags.none SO (memory target)
      ⟨A, memory rhsAddress, DeclFlags.none⟩
    pure (memory.write target result)

/-- A memory that holds the dense identity matrix of size 3 at every address. -/
def exampleMemory : Memory Int := fun _ => identity 3

/-! ## Structural traits of the product node -/

/-- The trait specializations for `TSMatTDMatMultExpr<MT1,MT2,SF,HF,LF,UF>`,
from the declaration flags, `IsBuiltin` of the element type and the traits of
the two operand types.  `IsHermitian` is specialized for `HF = true` only. -/
def TSMatTDMatMultExpr.traits (f : DeclFlags) (isBuiltin : Bool) (mt1 mt2 : Traits) : Traits where
  isSymmetric := f.SF || (f.HF && isBuiltin) || (f.LF && f.UF)
  isHermitian := f.HF
  isLower := f.LF || (mt1.isLower && mt2.isLower) ||
    ((f.SF || f.HF) && mt1.isUpper && mt2.isUpper)
  isUniLower := (mt1.isUniLower && mt2.isUniLower) ||
    ((f.SF || f.HF) && mt1.isUniUpper && mt2.isUniUpper)
  isStrictlyLower := (mt1.isStrictlyLower && mt2.isLower) ||
    (mt2.isStrictlyLower && mt1.isLower) ||
    ((f.SF || f.HF) && ((mt1.isStrictlyUpper && mt2.isUpper) ||
      (mt2.isStrictlyUpper && mt1.isUpper)))
  isUpper := f.UF || (mt1.isUpper && mt2.isUpper) ||
    ((f.SF || f.HF) && mt1.isLower && mt2.isLower)
  isUniUpper := (mt1.isUniUpper && mt2.isUniUpper) ||
    ((f.SF || f.HF) && mt1.isUniLower && mt2.isUniLower)
  isStrictlyUpper := (mt1.isStrictlyUpper && mt2.isUpper) ||
    (mt2.isStrictlyUpper && mt1.isUpper) ||
    ((f.SF || f.HF) && ((mt1.isStrictlyLower && mt2.isLower) ||
      (mt2.isStrictlyLower && mt1.isLower)))

/-- A matrix is lower triangular. -/
def IsLowerMatrix [Zero R] (M : DenseMatrix R) : Prop :=
  ∀ i j, i < M.rows → j < M.columns → i < j → M.elem i j = 0

/-- A matrix is upper triangular. -/
def IsUpperMatrix [Zero R] (M : DenseMatrix R) : Prop :=
  ∀ i j, i < M.rows → j < M.columns → j < i → M.elem i j = 0

/-- A matrix is strictly lower triangular. -/
def IsStrictlyLowerMatrix [Zero R] (M : DenseMatrix R) : Prop :=
  ∀ i j, i < M.rows → j < M.columns → i ≤ j → M.elem i j = 0

/-- A matrix is strictly upper triangular. -/
def IsStrictlyUpperMatrix [Zero R] (M : DenseMatrix R) : Prop :=
  ∀ i j, i < M.rows → j < M.columns → j ≤ i → M.elem i j = 0

/-- A matrix is lower triangular with unit diagonal. -/
def IsUniLowerMatrix [Zero R] [One R] (M : DenseMatrix R) : Prop :=
  IsLowerMatrix M ∧ ∀ i, i < M.rows → i < M.columns → M.elem i i = 1

/-- A matrix is upper triangular with unit diagonal. -/
def IsUniUpperMatrix [Zero R] [One R] (M : DenseMatrix R) : Prop :=
  IsUpperMatrix M ∧ ∀ i, i < M.rows → i < M.columns → M.elem i i = 1

/-- A matrix is Hermitian: it is square and equal to its conjugate transpose. -/
def IsHermitianMatrix [Star R] (M : DenseMatrix R) : Prop :=
  M.rows = M.columns ∧ ∀ i j, i < M.rows → j < M.rows → M.elem i j = conj (M.elem j i)

/-- The traits of a matrix type describe the matrix. -/
def Traits.Holds [Zero R] [One R] [Star R] (t : Traits) (M : DenseMatrix R) : Prop :=
  (t.isSymmetric = true → IsSymmetricMatrix M) ∧
  (t.isHermitian = true → IsHermitianMatrix M) ∧
  (t.isLower = true → IsLowerMatrix M) ∧
  (t.isUniLower = true → IsUniLowerMatrix M) ∧
  (t.isStrictlyLower = true → IsStrictlyLowerMatrix M) ∧
  (t.isUpper = true → IsUpperMatrix M) ∧
  (t.isUniUpper = true → IsUniUpperMatrix M) ∧
  (t.isStrictlyUpper = true → IsStrictlyUpperMatrix M)

/-- The product of two matrices as a matrix. -/
def productMatrix [CommRing R] (L M : DenseMatrix R) : DenseMatrix R :=
  ⟨L.rows, M.columns, productValue L M⟩

/-- The declaration flags of a product node describe the matrix `P`. -/
def DeclFlags.Holds [Zero R] [Star R] (f : DeclFlags) (P : DenseMatrix R) : Prop :=
  (f.SF = true → IsSymmetricMatrix P) ∧
  (f.HF = true → IsHermitianMatrix P) ∧
  (f.LF = true → IsLowerMatrix P) ∧
  (f.UF = true → IsUpperMatrix P)

/-- The traits of a type without any structure. -/
def Traits.none : Traits := ⟨false, false, false, false, false, false, false, false⟩

/-- The traits of a lower triangular type. -/
def Traits.lower : Traits := ⟨false, false, true, false, false, false, false, false⟩

/-- A lower triangular 2×2 matrix. -/
def exampleLower : DenseMatrix Int := ⟨2, 2, fun i j => if j ≤ i then (i + j + 1 : Nat) else 0⟩


/-! ## Ordering the inputs of the trait formulas -/

/-- Flags `g` are obtained from `f` by turning declaration flags from false to
true only. -/
def DeclFlags.le (f g : DeclFlags) : Prop :=
  (f.SF = true → g.SF = true) ∧ (f.HF = true → g.HF = true) ∧
  (f.LF = true → g.LF = true) ∧ (f.UF = true → g.UF = true)

/-- Traits `u` are obtained from `t` by turning traits from false to true
only. -/
def Traits.le (t u : Traits) : Prop :=
  (t.isSymmetric = true → u.isSymmetric = true) ∧
  (t.isHermitian = true → u.isHermitian = true) ∧
  (t.isLower = true → u.isLower = true) ∧
  (t.isUniLower = true → u.isUniLower = true) ∧
  (t.isStrictlyLower = true → u.isStrictlyLower = true) ∧
  (t.isUpper = true → u.isUpper = true) ∧
  (t.isUniUpper = true → u.isUniUpper = true) ∧
  (t.isStrictlyUpper = true → u.isStrictlyUpper = true)

instance (f g : DeclFlags) : Decidable (f.le g) := by
  unfold DeclFlags.le
  infer_instance

instance (t u : Traits) : Decidable (t.le u) := by
  unfold Traits.le
  infer_instance


/-! ## The addition and subtraction assignment kernels -/

/-- First column that the stored element with row index `i1` of column `i`
contributes to within the block starting at `jj`, as the addition and the
subtraction assignment kernels compute it: only `UPP` is consulted. -/
def jbeginUPP (f : DeclFlags) (t : StructFlags) (i1 i jj : Nat) : Nat :=
  if t.isUpper then
    if f.UPP then
      max3 i1 (if t.isStrictlyUpper then i + 1 else i) jj
    else
      max (if t.isStrictlyUpper then i + 1 else i) jj
  else
    if f.UPP then max i1 jj else jj

/-- The update `C(i1,j) -= v * B(i,j)` for the columns `jbegin..jend`. -/
def subUpdate [CommRing R] (B : DenseMatrix R) (i i1 : Nat) (v : R)
    (jb je : Nat) (C : DenseMatrix R) : DenseMatrix R :=
  if jb ≥ je then C
  else forLoop jb je 1 (fun j C => C.set i1 j (C.elem i1 j - v * B.elem i j)) C

/-- The default addition assignment kernel
`selectDefaultAddAssignKernel( C, A, B )`: no reset, no mirroring, every
contribution is added to the target. -/
def selectDefaultAddAssignKernel [CommRing R] (f : DeclFlags) (t : StructFlags)
    (C : DenseMatrix R) (A : CompressedMatrix R) (B : DenseMatrix R) : DenseMatrix R :=
  if t.isDiagonal then
    forLoop 0 A.columns 1 (fun i C =>
      (A.col i).foldl (fun C element =>
        C.set element.index i (C.elem element.index i + element.value * B.elem i i)) C) C
  else
    let block := 64
    forLoop 0 B.columns block (fun jj C =>
      let jpos := blockEnd block B.columns jj
      forLoop 0 A.columns 1 (fun i C =>
        (A.col i).foldl (fun C element =>
          let i1 := element.index
          smallUpdate B i i1 element.value (jbeginUPP f t i1 i jj) (jend f t i1 i jpos) C)
          C) C) C

/-- The default subtraction assignment kernel
`selectDefaultSubAssignKernel( C, A, B )`: every contribution is subtracted
from the target. -/
def selectDefaultSubAssignKernel [CommRing R] (f : DeclFlags) (t : StructFlags)
    (C : DenseMatrix R) (A : CompressedMatrix R) (B : DenseMatrix R) : DenseMatrix R :=
  if t.isDiagonal then
    forLoop 0 A.columns 1 (fun i C =>
      (A.col i).foldl (fun C element =>
        C.set element.index i (C.elem element.index i - element.value * B.elem i i)) C) C
  else
    let block := 64
    forLoop 0 B.columns block (fun jj C =>
      let jpos := blockEnd block B.columns jj
      forLoop 0 A.columns 1 (fun i C =>
        (A.col i).foldl (fun C element =>
          let i1 := element.index
          subUpdate B i i1 element.value (jbeginUPP f t i1 i jj) (jend f t i1 i jpos) C)
          C) C) C


/-! ## Column blocks -/

/-- The values of the block counter that the loop
`for( size_t jj=0UL; jj<columns; jj+=block )` visits, in the order of the
visits. -/
def blockStarts (columns block : Nat) : List Nat :=
  forLoop 0 columns block (fun jj visited => visited ++ [jj]) []

/-- The static structure flags of an upper triangular operand type. -/
def StructFlags.upper : StructFlags := ⟨false, true, false, false, false⟩

/-- An upper triangular 3×3 matrix. -/
def exampleUpper : DenseMatrix Int :=
  ⟨3, 3, fun i j => if i ≤ j then (i + 2 * j + 1 : Nat) else 0⟩


/-! ## Element access through the product node -/

/-- The operand type carries one of the static structure flags. -/
def StructFlags.isStructured (t : StructFlags) : Bool :=
  t.isDiagonal || t.isUpper || t.isLower || t.isStrictlyUpper || t.isStrictlyLower

/-- First index `begin` of the inner product of `operator()( i, j )` in the
branch for triangular operands; `t1` holds the traits of `MT1`, `t2` those of
`MT2`. -/
def accessBegin (t1 t2 : StructFlags) (i j : Nat) : Nat :=
  if t1.isUpper then
    if t2.isLower then
      max (if t1.isStrictlyUpper then i + 1 else i) (if t2.isStrictlyLower then j + 1 else j)
    else
      (if t1.isStrictlyUpper then i + 1 else i)
  else
    if t2.isLower then
      (if t2.isStrictlyLower then j + 1 else j)
    else 0

/-- One past the last index `end` of the inner product of `operator()( i, j )`
in the branch for triangular operands; `columns` is `lhs_.columns()`. -/
def accessEnd (t1 t2 : StructFlags) (columns i j : Nat) : Nat :=
  if t1.isLower then
    if t2.isUpper then
      min (if t1.isStrictlyLower then i else i + 1) (if t2.isStrictlyUpper then j else j + 1)
    else
      (if t1.isStrictlyLower then i else i + 1)
  else
    if t2.isUpper then
      (if t2.isStrictlyUpper then j else j + 1)
    else columns

/-- Modelled from the spec: the inner product
`subvector( row( lhs, i ), begin, n ) * subvector( column( rhs, j ), begin, n )`.
The views `row`, `column`, `subvector` and the product of two vectors are
declared in headers that are not embedded here: a subvector that does not lie
inside its vector is rejected with an invalid-argument error, otherwise the
product is the sum of the `n` products of corresponding elements. -/
def subvectorProduct [CommRing R] (lhs : CompressedMatrix R) (rhs : DenseMatrix R)
    (i j begin n : Nat) : Except Error R :=
  if begin + n > lhs.columns then
    .error (.invalidArgument "Invalid subvector specification")
  else if begin + n > rhs.rows then
    .error (.invalidArgument "Invalid subvector specification")
  else
    .ok (Finset.sum (Finset.range n) (fun l => lhs.at i (begin + l) * rhs.elem (begin + l) j))

/-- Modelled from the spec: the inner product `row( lhs, i ) * column( rhs, j )`
of a full row with a full column, declared in headers that are not embedded
here: vectors of different size are rejected with an invalid-argument error. -/
def rowColumnProduct [CommRing R] (lhs : CompressedMatrix R) (rhs : DenseMatrix R)
    (i j : Nat) : Except Error R :=
  if lhs.columns ≠ rhs.rows then
    .error (.invalidArgument "Vector sizes do not match")
  else
    .ok (Finset.sum (Finset.range lhs.columns) (fun l => lhs.at i l * rhs.elem l j))

/-- The access operator `operator()( i, j )` of the product node.  `t1` and
`t2` hold `IsDiagonal`, `IsUpper`, `IsLower`, `IsStrictlyUpper` and
`IsStrictlyLower` of `MT1` and `MT2`; `triangular1` and `triangular2` are
`IsTriangular<MT1>` and `IsTriangular<MT2>`. -/
def TSMatTDMatMultExpr.call [CommRing R] (t1 t2 : StructFlags)
    (triangular1 triangular2 : Bool) (e : TSMatTDMatMultExpr R) (i j : Nat) :
    Except Error R := do
  internalAssert (decide (i < e.lhs.rows)) "Invalid row access index"
  internalAssert (decide (j < e.rhs.columns)) "Invalid column access index"
  if t1.isDiagonal then
    pure (e.lhs.at i i * e.rhs.elem i j)
  else if t2.isDiagonal then
    pure (e.lhs.at i j * e.rhs.elem j j)
  else if triangular1 || triangular2 then
    let begin := accessBegin t1 t2 i j
    let stop := accessEnd t1 t2 e.lhs.columns i j
    if begin ≥ stop then pure 0
    else
      let n := stop - begin
      subvectorProduct e.lhs e.rhs i j begin n
  else
    rowColumnProduct e.lhs e.rhs i j

/-- The static structure flags of a lower triangular operand type. -/
def StructFlags.lower : StructFlags := ⟨false, false, true, false, false⟩

/-- A lower triangular 3×3 sparse matrix with the nonzeros (0,0):1, (1,0):2,
(2,1):4, (2,2):5. -/
def exampleSparseLower : CompressedMatrix Int where
  rows := 3
  columns := 3
  col := fun i =>
    match i with
    | 0 => [⟨0, 1⟩, ⟨1, 2⟩]
    | 1 => [⟨2, 4⟩]
    | 2 => [⟨2, 5⟩]
    | _ => []


/-! ## Selection of the assignment path -/

/-- The helper `CanExploitSymmetry<T1,T2,T3>` of the product node: `T1` is the
type of the target, `T2` and `T3` are the types of the two operands.  Its value
is `IsSymmetric<T2>::value || IsSymmetric<T3>::value`; the target type is not
consulted. -/
def CanExploitSymmetry (_T1 T2 T3 : Traits) : Bool :=
  T2.isSymmetric || T3.isSymmetric

/-- The two kinds of `assign` overloads of the product node: the direct
overloads, which evaluate the operands and select a kernel, and the
restructuring overload, which forwards to the assignment of a product of
transposed operands. -/
inductive AssignPath where
  | direct
  | restructuring
deriving DecidableEq, Repr

/-- The `assign` overload that a target of type `MT` takes for a product of
operands of the types `MT1` and `MT2`.  The direct overloads are declared with
`DisableIf_< CanExploitSymmetry<MT,MT1,MT2> >`, the restructuring overload with
`EnableIf_< CanExploitSymmetry<MT,MT1,MT2> >`, so exactly one kind takes part in
overload resolution.  The restructuring overload carries
`BLAZE_CONSTRAINT_MUST_NOT_BE_SYMMETRIC_MATRIX_TYPE( MT )`: with a symmetric
target type the program is rejected at compile time, which is the outcome
`none`. -/
def selectAssignPath (MT MT1 MT2 : Traits) : Option AssignPath :=
  if CanExploitSymmetry MT MT1 MT2 then
    if MT.isSymmetric then none else some .restructuring
  else
    some .direct

/-- The path named by the specification: restructuring if the target is
neither symmetric nor Hermitian and at least one operand is statically
symmetric, direct for every other combination. -/
def specifiedAssignPath (MT MT1 MT2 : Traits) : AssignPath :=
  if !(MT.isSymmetric || MT.isHermitian) && (MT1.isSymmetric || MT2.isSymmetric) then
    .restructuring
  else .direct

/-- The traits of a symmetric type. -/
def Traits.symmetric : Traits := ⟨true, false, false, false, false, false, false, false⟩

/-- The traits of a Hermitian type that is not symmetric. -/
def Traits.hermitian : Traits := ⟨false, true, false, false, false, false, false, false⟩

/-! ## Type resolution traits -/

/-- The compile-time predicates and type functions on C++ types that the
type resolution traits consult.  They are declared in headers that are not
embedded here and are taken as parameters; `Ty` is the collection of C++
types. -/
structure TypeTraits (Ty : Type) where
  IsSparseVector : Ty → Bool
  IsTransposeVector : Ty → Bool
  IsDenseMatrix : Ty → Bool
  IsSparseMatrix : Ty → Bool
  IsRowMajorMatrix : Ty → Bool
  IsColumnMajorMatrix : Ty → Bool
  IsNumeric : Ty → Bool
  IsFloatingPoint : Ty → Bool
  BaseElementType : Ty → Ty
  DivType : Ty → Ty → Ty
  MultType : Ty → Ty → Ty

/-- The types that the type resolution traits return: `INVALID_TYPE` and the
instances of the expression class templates. -/
inductive ExprType (Ty : Type) where
  | INVALID_TYPE
  | SVecScalarMultExpr (VT E : Ty) (TF : Bool)
  | SVecScalarDivExpr (VT E : Ty) (TF : Bool)
  | DMatScalarMultExpr (MT E : Ty) (SO : Bool)
  | SMatSMatAddExpr (MT1 MT2 : Ty)
  | TSVecTDMatMultExpr (VT MT : Ty)
deriving DecidableEq, Repr

/-- The helper `SVecScalarDivTraitHelper<VT,ST,Condition>` with its
specialization for `Condition = false`. -/
def SVecScalarDivTraitHelper {Ty : Type} (tt : TypeTraits Ty) (VT ST : Ty)
    (Condition : Bool) : ExprType Ty :=
  if Condition then
    let ElementType := tt.DivType (tt.BaseElementType VT) ST
    if tt.IsFloatingPoint ElementType then .SVecScalarMultExpr VT ElementType false
    else .SVecScalarDivExpr VT ElementType false
  else .INVALID_TYPE

/-- The nested type `SVecScalarDivTrait<VT,ST>::Type`. -/
def SVecScalarDivTrait {Ty : Type} (tt : TypeTraits Ty) (VT ST : Ty) : ExprType Ty :=
  let condition := tt.IsSparseVector VT && !tt.IsTransposeVector VT && tt.IsNumeric ST
  SVecScalarDivTraitHelper tt VT ST condition

/-- The helper `DMatScalarMultTraitHelper<MT,ST,Condition>` with its
specialization for `Condition = false`. -/
def DMatScalarMultTraitHelper {Ty : Type} (tt : TypeTraits Ty) (MT ST : Ty)
    (Condition : Bool) : ExprType Ty :=
  if Condition then
    let ElementType := tt.MultType (tt.BaseElementType MT) ST
    .DMatScalarMultExpr MT ElementType false
  else .INVALID_TYPE

/-- The nested type `DMatScalarMultTrait<MT,ST>::Type`. -/
def DMatScalarMultTrait {Ty : Type} (tt : TypeTraits Ty) (MT ST : Ty) : ExprType Ty :=
  let condition := tt.IsDenseMatrix MT && tt.IsRowMajorMatrix MT && tt.IsNumeric ST
  DMatScalarMultTraitHelper tt MT ST condition

/-- The nested type `SMatSMatAddTrait<MT1,MT2>::Type`. -/
def SMatSMatAddTrait {Ty : Type} (tt : TypeTraits Ty) (MT1 MT2 : Ty) : ExprType Ty :=
  if tt.IsSparseMatrix MT1 && tt.IsRowMajorMatrix MT1 &&
      tt.IsSparseMatrix MT2 && tt.IsRowMajorMatrix MT2 then
    .SMatSMatAddExpr MT1 MT2
  else .INVALID_TYPE

/-- The nested type `TSVecTDMatMultTrait<VT,MT>::Type`. -/
def TSVecTDMatMultTrait {Ty : Type} (tt : TypeTraits Ty) (VT MT : Ty) : ExprType Ty :=
  if tt.IsSparseVector VT && tt.IsTransposeVector VT &&
      tt.IsDenseMatrix MT && tt.IsColumnMajorMatrix MT then
    .TSVecTDMatMultExpr VT MT
  else .INVALID_TYPE


/-! ## Availability of a SIMD division -/

/-- The C++ types that the examples of `HasSIMDDiv` range over: some built-in
types, `complex<T>`, and types with cv-qualifiers and references. -/
inductive CppType where
  | bool
  | char
  | short
  | int
  | long
  | unsignedInt
  | float
  | double
  | complex (T : CppType)
  | const (T : CppType)
  | volatile (T : CppType)
  | lvalueReference (T : CppType)
  | rvalueReference (T : CppType)
deriving DecidableEq, Repr

/-- Removal of the top-level cv-qualifiers of a type. -/
def RemoveCV : CppType → CppType
  | .const T => RemoveCV T
  | .volatile T => RemoveCV T
  | T => T

/-- Removal of a reference. -/
def RemoveReference : CppType → CppType
  | .lvalueReference T => T
  | .rvalueReference T => T
  | T => T

/-- Modelled from the spec: the alias `RemoveCVRef_t<T>`, declared in
`blaze/util/typetraits/RemoveCVRef.h`, which is not embedded here: the type `T`
without a reference and without top-level cv-qualifiers. -/
def RemoveCVRef (T : CppType) : CppType := RemoveCV (RemoveReference T)

/-- The vectorization modes of `blaze/system/Vectorization.h`, which is not
embedded here; they are taken as parameters. -/
structure SIMDModes where
  BLAZE_SSE_MODE : Bool
  BLAZE_SSE2_MODE : Bool
  BLAZE_AVX_MODE : Bool
  BLAZE_MIC_MODE : Bool
  BLAZE_AVX512F_MODE : Bool
  BLAZE_AVX512BW_MODE : Bool
  BLAZE_SVML_MODE : Bool
deriving DecidableEq, Repr

/-- The type traits `IsNumeric`, `IsIntegral`, `IsSigned` and the operator
`sizeof`, which `HasSIMDDivHelper` consults; their headers are not embedded
here and they are taken as parameters. -/
structure ScalarTraits where
  IsNumeric : CppType → Bool
  IsIntegral : CppType → Bool
  IsSigned : CppType → Bool
  sizeof : CppType → Nat

/-- The helper `HasSIMDDivHelper<T1,T2>`: the primary template derives from
`FalseType`; the explicit specializations for `<float,float>` and
`<double,double>` are taken when the arguments are exactly these; the partial
specialization for `<complex<T>,T>` and the one for two signed integral types of
equal size take part only if their `EnableIf_t` condition holds, the more
specialized `<complex<T>,T>` first. -/
def HasSIMDDivHelper (m : SIMDModes) (tt : ScalarTraits) (T1 T2 : CppType) : Bool :=
  if T1 = .float ∧ T2 = .float then
    m.BLAZE_SSE_MODE || m.BLAZE_AVX_MODE || m.BLAZE_MIC_MODE || m.BLAZE_AVX512F_MODE
  else if T1 = .double ∧ T2 = .double then
    m.BLAZE_SSE2_MODE || m.BLAZE_AVX_MODE || m.BLAZE_MIC_MODE || m.BLAZE_AVX512F_MODE
  else if T1 = .complex T2 ∧
      (tt.IsNumeric T2 && tt.IsIntegral T2 && tt.IsSigned T2) = true then
    m.BLAZE_SVML_MODE &&
      ((m.BLAZE_MIC_MODE && decide (tt.sizeof T2 ≥ 4)) ||
        (m.BLAZE_AVX512BW_MODE && decide (tt.sizeof T2 ≤ 2)) ||
        (m.BLAZE_AVX512F_MODE && decide (tt.sizeof T2 ≥ 4)))
  else if tt.IsNumeric T1 && tt.IsIntegral T1 && tt.IsSigned T1 && tt.IsNumeric T2 &&
      tt.IsIntegral T2 && tt.IsSigned T2 && decide (tt.sizeof T1 = tt.sizeof T2) then
    m.BLAZE_SVML_MODE &&
      ((m.BLAZE_MIC_MODE && decide (tt.sizeof T1 ≥ 4)) ||
        (m.BLAZE_AVX512BW_MODE && decide (tt.sizeof T1 ≤ 2)) ||
        (m.BLAZE_AVX512F_MODE && decide (tt.sizeof T1 ≥ 4)))
  else false

/-- The value of the type trait `HasSIMDDiv<T1,T2>`. -/
def HasSIMDDiv (m : SIMDModes) (tt : ScalarTraits) (T1 T2 : CppType) : Bool :=
  HasSIMDDivHelper m tt (RemoveCVRef T1) (RemoveCVRef T2)

/-- A configuration with SSE, SSE2 and AVX available and without MIC, AVX-512
and SVML. -/
def avxModes : SIMDModes := ⟨true, true, true, false, false, false, false⟩

/-- The size of the sample types on an LP64 platform. -/
def exampleSizeof : CppType → Nat
  | .bool => 1
  | .char => 1
  | .short => 2
  | .int => 4
  | .long => 8
  | .unsignedInt => 4
  | .float => 4
  | .double => 8
  | .complex T => 2 * exampleSizeof T
  | .const T => exampleSizeof T
  | .volatile T => exampleSizeof T
  | .lvalueReference T => exampleSizeof T
  | .rvalueReference T => exampleSizeof T

/-- Sample values of the scalar traits on the unqualified sample types. -/
def exampleScalarTraits : ScalarTraits where
  IsNumeric := fun T =>
    match T with
    | .char | .short | .int | .long | .unsignedInt | .float | .double => true
    | .complex (.float) | .complex (.double) => true
    | _ => false
  IsIntegral := fun T =>
    match T with
    | .bool | .char | .short | .int | .long | .unsignedInt => true
    | _ => false
  IsSigned := fun T =>
    match T with
    | .char | .short | .int | .long | .float | .double => true
    | _ => false
  sizeof := exampleSizeof

/-! ## The linear complementarity problem -/

/-- The data structure `LCP`: the system matrix `A_`, the right-hand side
vector `b_` and the vector of unknowns `x_`.  The element type `real` is
modelled by a linearly ordered ring with exact arithmetic, the compressed
system matrix by its values. -/
structure LCP (R : Type) where
  A_ : DenseMatrix R
  b_ : DenseVector R
  x_ : DenseVector R

/-- The size of the problem, `size()`. -/
def LCP.size (p : LCP R) : Nat := p.x_.size

/-- The projection `project( index )` of one unknown on the solution range. -/
def LCP.project [LinearOrderedRing R] (p : LCP R) (index : Nat) : LCP R :=
  { p with x_ := p.x_.set index (max 0 (p.x_.elem index)) }

/-- The lower bound `lbound( index )` of an unknown. -/
def LCP.lbound [LinearOrderedRing R] (_p : LCP R) (_index : Nat) : R := 0

/-- The upper bound `ubound( index )` of an unknown.  Modelled from the spec:
the constant `inf` of `blaze/math/Infinity.h`, which is not embedded here, is
the positive infinity value, above every value of the type `real`. -/
def LCP.ubound (_p : LCP R) (_index : Nat) : WithTop R := ⊤

/-- Modelled from the spec: the element `( A * x )[index]` of the product of a
matrix and a vector, whose expression class is not embedded here: the sum over
`j` of `A(index,j) * x[j]`. -/
def matVecAt [LinearOrderedRing R] (A : DenseMatrix R) (x : DenseVector R) (index : Nat) : R :=
  Finset.sum (Finset.range A.columns) (fun j => A.elem index j * x.elem j)

/-- The residual `residual( index )` of one unknown. -/
def LCP.residualAt [LinearOrderedRing R] (p : LCP R) (index : Nat) : R :=
  min (p.x_.elem index) (matVecAt p.A_ p.x_ index + p.b_.elem index)

/-- The maximum norm `residual()` of the residual of the problem. -/
def LCP.residual [LinearOrderedRing R] (p : LCP R) : R :=
  forLoop 0 p.size 1 (fun i rmax => max rmax |p.residualAt i|) 0

/-- The unknowns solve the problem in its documented form
`A*x + b <= 0` complementary to `x >= 0`. -/
def LCP.SolvesDocumentedForm [LinearOrderedRing R] (p : LCP R) : Prop :=
  ∀ i, i < p.size → 0 ≤ p.x_.elem i ∧ matVecAt p.A_ p.x_ i + p.b_.elem i ≤ 0 ∧
    p.x_.elem i * (matVecAt p.A_ p.x_ i + p.b_.elem i) = 0

instance (p : LCP Int) : Decidable p.SolvesDocumentedForm := by
  unfold LCP.SolvesDocumentedForm
  infer_instance

/-- A problem of size 1 with `A = (0)`, `b = (-1)` and `x = (0)`. -/
def exampleLCP : LCP Int := ⟨⟨1, 1, fun _ _ => 0⟩, ⟨1, fun _ => -1⟩, ⟨1, fun _ => 0⟩⟩

/-- A problem of size 1 with `A = (0)`, `b = (1)` and `x = (0)`. -/
def exampleLCPPositive : LCP Int := ⟨⟨1, 1, fun _ _ => 0⟩, ⟨1, fun _ => 1⟩, ⟨1, fun _ => 0⟩⟩


/-! ## Restructuring operators of the subtraction node -/

/-- Modelled from the spec: the subtraction `operator-( DenseVector, DenseVector )`,
whose node is declared in a header that is not embedded here: vectors of
different size are rejected with an invalid-argument error, otherwise the
element `i` of the result is `lhs[i] - rhs[i]`. -/
def dvecDVecSub [Sub R] (lhs rhs : DenseVector R) : Except Error (DenseVector R) :=
  if lhs.size ≠ rhs.size then
    .error (.invalidArgument "Vector sizes do not match")
  else
    .ok ⟨lhs.size, fun i => lhs.elem i - rhs.elem i⟩

/-- Modelled from the spec: the addition `operator+( DenseVector, DenseVector )`,
whose node is declared in a header that is not embedded here: vectors of
different size are rejected with an invalid-argument error, otherwise the
element `i` of the result is `lhs[i] + rhs[i]`. -/
def dvecDVecAdd [Add R] (lhs rhs : DenseVector R) : Except Error (DenseVector R) :=
  if lhs.size ≠ rhs.size then
    .error (.invalidArgument "Vector sizes do not match")
  else
    .ok ⟨lhs.size, fun i => lhs.elem i + rhs.elem i⟩

/-- Modelled from the spec: the node of the addition of a dense and a sparse
vector, `DVecSVecAddExpr`, declared in a header that is not embedded here: its
two operands. -/
structure DVecSVecAddExpr (R : Type) where
  lhs : DenseVector R
  rhs : CompressedVector R

/-- Modelled from the spec: the addition `operator+( DenseVector, SparseVector )`:
vectors of different size are rejected with an invalid-argument error. -/
def dvecSVecAdd (lhs : DenseVector R) (rhs : CompressedVector R) :
    Except Error (DVecSVecAddExpr R) :=
  if lhs.size ≠ rhs.size then
    .error (.invalidArgument "Vector sizes do not match")
  else
    .ok ⟨lhs, rhs⟩

/-- Modelled from the spec: the subscript operator of the node
`DVecSVecAddExpr`, the sum of the elements of the two operands. -/
def DVecSVecAddExpr.subscript [Zero R] [Add R] (e : DVecSVecAddExpr R) (index : Nat) :
    Except Error R := do
  internalAssert (decide (index < e.lhs.size)) "Invalid vector access index"
  pure (e.lhs.elem index + e.rhs.subscript index)

/-- The restructuring operator
`operator+( const SVecDVecSubExpr& lhs, const DenseVector& rhs )`, which returns
`( rhs - lhs.rightOperand() ) + lhs.leftOperand()`. -/
def SVecDVecSubExpr.addDense [Sub R] (lhs : SVecDVecSubExpr R) (rhs : DenseVector R) :
    Except Error (DVecSVecAddExpr R) := do
  let difference ← dvecDVecSub rhs lhs.rhs
  dvecSVecAdd difference lhs.lhs

/-- The restructuring operator
`operator-( const SVecDVecSubExpr& lhs, const DenseVector& rhs )`, which returns
`lhs.leftOperand() - ( lhs.rightOperand() + rhs )`. -/
def SVecDVecSubExpr.subDense [Add R] (lhs : SVecDVecSubExpr R) (rhs : DenseVector R) :
    Except Error (SVecDVecSubExpr R) := do
  let sum ← dvecDVecAdd lhs.rhs rhs
  Blaze.operatorSub lhs.lhs sum

/-! ## Assignment of the unary map node -/

/-- Modelled from the spec: the default assignment of a dense vector expression
to a dense vector (dense vector interface, not embedded here), the loop
`lhs[i] = rhs[i]` over the elements of the target.  `rhs target i` is the
element `i` of the right-hand side, evaluated when it is stored: a right-hand
side that refers to the target reads the elements that the target holds
then. -/
def assignElementwise {S : Type} (lhs : DenseVector S) (rhs : DenseVector S → Nat → S) :
    DenseVector S :=
  forLoop 0 lhs.size 1 (fun i target => target.set i (rhs target i)) lhs

/-- The overload of `assign( DenseVector& lhs, const DVecForEachExpr& rhs )` for
an operand that requires an evaluation and has the underlying numeric type of
the target: the operand is assigned to the target, then `forEach( lhs, op )`,
which refers to the target, is assigned to the target. -/
def DVecForEachExpr.assign (lhs : DenseVector R) (rhs : DVecForEachExpr R R) :
    Except Error (DenseVector R) := do
  internalAssert (decide (lhs.size = rhs.size)) "Invalid vector sizes"
  let lhs := assignElementwise lhs (fun _ index => rhs.dv.elem index)
  pure (assignElementwise lhs (fun target index => rhs.op (target.elem index)))

/-- The overload of `assign( DenseVector& lhs, const DVecForEachExpr& rhs )` for
an operand that requires an evaluation and has another underlying numeric type
than the target: the operand is evaluated into the temporary `tmp`, then
`forEach( tmp, op )` is assigned to the target. -/
def DVecForEachExpr.assignFromTemporary {S : Type} (lhs : DenseVector S)
    (rhs : DVecForEachExpr R S) : Except Error (DenseVector S) := do
  internalAssert (decide (lhs.size = rhs.size)) "Invalid vector sizes"
  let tmp := rhs.dv
  pure (assignElementwise lhs (fun _ index => rhs.op (tmp.elem index)))

/-! ## Aliasing of the subtraction node -/

/-- The query `isAliased( alias )` of the subtraction node:
`( IsExpression<VT2>::value && lhs_.isAliased( alias ) ) || rhs_.isAliased( alias )`.
`isExpressionVT2` is the trait `IsExpression` of the type of the right-hand
side operand; `lhs`, `rhs` are the answers of the two operands. -/
def SVecDVecSubExpr.isAliased (isExpressionVT2 : Bool) (lhs rhs : Capabilities)
    (address : Nat) : Bool :=
  (isExpressionVT2 && lhs.isAliased address) || rhs.isAliased address

/-- Modelled from the spec: the value of the componentwise product `s * t` of a
sparse vector with a dense vector, a sparse expression whose node is not
embedded here; it reads the dense vector `t`. -/
def componentwiseProduct [Mul R] (s : CompressedVector R) (t : DenseVector R) :
    CompressedVector R :=
  ⟨s.size, s.elements.map (fun e => ⟨e.index, e.value * t.elem e.index⟩)⟩

/-- The answers of a sparse expression that reads the dense vector at address
7. -/
def expressionOver7 : Capabilities :=
  ⟨true, fun a => decide (a = 7), fun a => decide (a = 7), false⟩

/-- The sparse vector of size 2 with the stored element `(0, 2)`. -/
def exampleScale : CompressedVector Int := ⟨2, [⟨0, 2⟩]⟩

/-- The dense vector `(1, 1)`. -/
def exampleTarget : DenseVector Int := ⟨2, fun _ => 1⟩

/-- The dense vector `(0, 0)`. -/
def exampleZero : DenseVector Int := ⟨2, fun _ => 0⟩

/-! ## Kernel flags and the forwarding functor -/

/-- The functors that `ForwardFunctor` chooses from. -/
inductive DeclFunctor where
  | DeclHerm
  | DeclSym
  | DeclDiag
  | DeclLow
  | DeclUpp
  | Noop
deriving DecidableEq, Repr

/-- The type `ForwardFunctor` of the product node, selected by the kernel flags
`HERM`, `SYM`, `LOW` and `UPP`. -/
def ForwardFunctor (f : DeclFlags) : DeclFunctor :=
  if f.HERM then .DeclHerm
  else if f.SYM then .DeclSym
  else if f.LOW then
    if f.UPP then .DeclDiag else .DeclLow
  else
    if f.UPP then .DeclUpp else .Noop

/-! ## Declaration functions on the product node -/

/-- The test `isSquare( dm )` of a product node. -/
def TSMatTDMatMultExpr.isSquare (dm : TSMatTDMatMultExpr R) : Bool :=
  decide (dm.rows = dm.columns)

/-- The function `declsym( const TSMatTDMatMultExpr& dm )`. -/
def TSMatTDMatMultExpr.declsym (dm : TSMatTDMatMultExpr R) :
    Except Error (TSMatTDMatMultExpr R) :=
  if !dm.isSquare then
    .error (.invalidArgument "Invalid symmetric matrix specification")
  else
    TSMatTDMatMultExpr.new dm.lhs dm.rhs ⟨true, dm.flags.HF, dm.flags.LF, dm.flags.UF⟩

/-- The function `declherm( const TSMatTDMatMultExpr& dm )`. -/
def TSMatTDMatMultExpr.declherm (dm : TSMatTDMatMultExpr R) :
    Except Error (TSMatTDMatMultExpr R) :=
  if !dm.isSquare then
    .error (.invalidArgument "Invalid Hermitian matrix specification")
  else
    TSMatTDMatMultExpr.new dm.lhs dm.rhs ⟨dm.flags.SF, true, dm.flags.LF, dm.flags.UF⟩

/-- The function `decllow( const TSMatTDMatMultExpr& dm )`. -/
def TSMatTDMatMultExpr.decllow (dm : TSMatTDMatMultExpr R) :
    Except Error (TSMatTDMatMultExpr R) :=
  if !dm.isSquare then
    .error (.invalidArgument "Invalid lower matrix specification")
  else
    TSMatTDMatMultExpr.new dm.lhs dm.rhs ⟨dm.flags.SF, dm.flags.HF, true, dm.flags.UF⟩

/-- The function `declupp( const TSMatTDMatMultExpr& dm )`. -/
def TSMatTDMatMultExpr.declupp (dm : TSMatTDMatMultExpr R) :
    Except Error (TSMatTDMatMultExpr R) :=
  if !dm.isSquare then
    .error (.invalidArgument "Invalid upper matrix specification")
  else
    TSMatTDMatMultExpr.new dm.lhs dm.rhs ⟨dm.flags.SF, dm.flags.HF, dm.flags.LF, true⟩

/-- The function `decldiag( const TSMatTDMatMultExpr& dm )`. -/
def TSMatTDMatMultExpr.decldiag (dm : TSMatTDMatMultExpr R) :
    Except Error (TSMatTDMatMultExpr R) :=
  if !dm.isSquare then
    .error (.invalidArgument "Invalid diagonal matrix specification")
  else
    TSMatTDMatMultExpr.new dm.lhs dm.rhs ⟨dm.flags.SF, dm.flags.HF, true, true⟩

/-- A product node of the 3×3 sample matrix and the identity, without flags. -/
def exampleNode : TSMatTDMatMultExpr Int := ⟨exampleA, identity 3, DeclFlags.none⟩

/-- A product declared symmetric and upper. -/
def DeclFlags.symmetricUpper : DeclFlags := ⟨true, false, false, true⟩

/-- A product declared symmetric and lower. -/
def DeclFlags.symmetricLower : DeclFlags := ⟨true, false, true, false⟩

/-! # Proofs -/

/-! ## Loop lemmas -/

theorem forLoopAux_invariant {σ : Type} (Inv : Nat → σ → Prop) (stop step : Nat)
    (body : Nat → σ → σ) (hpos : 0 < step)
    (hstep : ∀ j s, j < stop → Inv j s → Inv (j + step) (body j s)) :
    ∀ fuel j s, stop - j ≤ fuel → Inv j s →
      ∃ j', stop ≤ j' ∧ Inv j' (forLoopAux stop step body fuel j s) := by
  intro fuel
  induction fuel with
  | zero =>
    intro j s hf hI
    exact ⟨j, by omega, by simpa [forLoopAux] using hI⟩
  | succ fuel ih =>
    intro j s hf hI
    by_cases hj : j < stop
    · simp only [forLoopAux, hj, if_true]
      exact ih (j + step) (body j s) (by omega) (hstep j s hj hI)
    · simp only [forLoopAux, hj, if_false]
      exact ⟨j, by omega, hI⟩

/-- Invariant rule for a loop with a positive step: the invariant holds at some
counter value at or beyond `stop` when the loop is left. -/
theorem forLoop_invariant {σ : Type} (Inv : Nat → σ → Prop) (start stop step : Nat)
    (body : Nat → σ → σ) (s : σ) (hpos : 0 < step) (h0 : Inv start s)
    (hstep : ∀ j s, j < stop → Inv j s → Inv (j + step) (body j s)) :
    ∃ j', stop ≤ j' ∧ Inv j' (forLoop start stop step body s) :=
  forLoopAux_invariant Inv stop step body hpos hstep (stop - start) start s (le_refl _) h0

/-- Invariant rule for a loop with step one. -/
theorem forLoop_one_invariant {σ : Type} (Inv : Nat → σ → Prop) (start stop : Nat)
    (body : Nat → σ → σ) (s : σ) (hle : start ≤ stop) (h0 : Inv start s)
    (hstep : ∀ j s, start ≤ j → j < stop → Inv j s → Inv (j + 1) (body j s)) :
    Inv stop (forLoop start stop 1 body s) := by
  obtain ⟨j', hj', h1, h2, h3⟩ :=
    forLoop_invariant (fun j s => start ≤ j ∧ j ≤ stop ∧ Inv j s) start stop 1 body s
      (by omega) ⟨le_refl _, hle, h0⟩
      (fun j s hj h => ⟨by omega, by omega, hstep j s h.1 hj h.2.2⟩)
  have : j' = stop := by omega
  subst this
  exact h3

/-- A loop whose start is not below its end does nothing. -/
theorem forLoop_ge {σ : Type} (start stop step : Nat) (body : Nat → σ → σ) (s : σ)
    (h : stop ≤ start) : forLoop start stop step body s = s := by
  unfold forLoop
  have : stop - start = 0 := by omega
  rw [this]
  rfl

theorem forLoopAux_fuel {σ : Type} (stop step : Nat) (body : Nat → σ → σ) (hpos : 0 < step) :
    ∀ fuel fuel' j s, stop - j ≤ fuel → stop - j ≤ fuel' →
      forLoopAux stop step body fuel j s = forLoopAux stop step body fuel' j s := by
  intro fuel
  induction fuel with
  | zero =>
    intro fuel' j s hf _
    have hj : ¬ j < stop := by omega
    cases fuel' with
    | zero => rfl
    | succ n => simp [forLoopAux, hj]
  | succ fuel ih =>
    intro fuel' j s hf hf'
    by_cases hj : j < stop
    · cases fuel' with
      | zero => omega
      | succ n =>
        simp only [forLoopAux, hj, if_true]
        exact ih n (j + step) (body j s) (by omega) (by omega)
    · cases fuel' with
      | zero => simp [forLoopAux, hj]
      | succ n => simp [forLoopAux, hj]

/-- The fuel of `forLoop` suffices: the loop satisfies the unfolding equation of
the C++ `for` statement. -/
theorem forLoop_unfold {σ : Type} (start stop step : Nat) (body : Nat → σ → σ) (s : σ)
    (hpos : 0 < step) :
    forLoop start stop step body s =
      if start < stop then forLoop (start + step) stop step body (body start s) else s := by
  unfold forLoop
  by_cases h : start < stop
  · obtain ⟨m, hm⟩ : ∃ m, stop - start = m + 1 := ⟨stop - start - 1, by omega⟩
    rw [hm]
    simp only [forLoopAux, h, if_true]
    exact forLoopAux_fuel stop step body hpos _ _ _ _ (by omega) (le_refl _)
  · have : stop - start = 0 := by omega
    rw [this]
    simp [forLoopAux, h]

/-! ## Element-wise description of the kernels -/

@[simp] theorem DenseMatrix.set_elem (C : DenseMatrix R) (i j : Nat) (v : R) (r c : Nat) :
    (C.set i j v).elem r c = if r = i ∧ c = j then v else C.elem r c := rfl

theorem defaultUpdate_eq_smallUpdate [CommRing R] [DecidableEq R] (B : DenseMatrix R)
    (i i1 : Nat) (v : R) (jb je : Nat) (C : DenseMatrix R) :
    defaultUpdate B i i1 v jb je C = smallUpdate B i i1 v jb je C := by
  unfold defaultUpdate smallUpdate
  have hbody : (fun (j : Nat) (C : DenseMatrix R) =>
      if isDefault (C.elem i1 j) then C.set i1 j (v * B.elem i j)
      else C.set i1 j (C.elem i1 j + v * B.elem i j)) =
      (fun j C => C.set i1 j (C.elem i1 j + v * B.elem i j)) := by
    funext j C
    by_cases h : C.elem i1 j = 0
    · simp [isDefault, h]
    · simp [isDefault, h]
  rw [hbody]

theorem smallUpdate_elem [CommRing R] (B : DenseMatrix R) (i i1 : Nat) (v : R)
    (jb je : Nat) (C : DenseMatrix R) (r c : Nat) :
    (smallUpdate B i i1 v jb je C).elem r c =
      C.elem r c + if r = i1 ∧ jb ≤ c ∧ c < je then v * B.elem i c else 0 := by
  unfold smallUpdate
  by_cases h : jb ≥ je
  · have h' : ¬ (r = i1 ∧ jb ≤ c ∧ c < je) := by omega
    simp [h, h']
  · simp only [h, if_false]
    have key := forLoop_one_invariant
      (fun j' (C' : DenseMatrix R) => ∀ r c, C'.elem r c =
        C.elem r c + if r = i1 ∧ jb ≤ c ∧ c < j' then v * B.elem i c else 0)
      jb je (fun j C => C.set i1 j (C.elem i1 j + v * B.elem i j)) C (by omega)
      (by
        intro r c
        have h' : ¬ (r = i1 ∧ jb ≤ c ∧ c < jb) := by omega
        simp [h'])
      (by
        intro j s hj1 _ hI r c
        simp only [DenseMatrix.set_elem]
        by_cases hrc : r = i1 ∧ c = j
        · obtain ⟨rfl, rfl⟩ := hrc
          have h1 : ¬ (r = r ∧ jb ≤ c ∧ c < c) := by omega
          have h2 : (r = r ∧ jb ≤ c ∧ c < c + 1) := by omega
          rw [hI]
          simp [h1, h2]
        · rw [if_neg hrc, hI]
          have h3 : (r = i1 ∧ jb ≤ c ∧ c < j) ↔ (r = i1 ∧ jb ≤ c ∧ c < j + 1) := by
            constructor
            · rintro ⟨a, b, d⟩; exact ⟨a, b, by omega⟩
            · rintro ⟨a, b, d⟩
              refine ⟨a, b, ?_⟩
              by_contra hc
              exact hrc ⟨a, by omega⟩
          simp only [h3])
    exact key r c

/-- A unit-step loop whose body adds `T i r c` to every entry adds the sum. -/
theorem forLoop_accum [CommRing R] (k : Nat) (body : Nat → DenseMatrix R → DenseMatrix R)
    (T : Nat → Nat → Nat → R)
    (h : ∀ i C r c, i < k → (body i C).elem r c = C.elem r c + T i r c)
    (C : DenseMatrix R) (r c : Nat) :
    (forLoop 0 k 1 body C).elem r c =
      C.elem r c + Finset.sum (Finset.range k) (fun i => T i r c) := by
  have key := forLoop_one_invariant
    (fun i (C' : DenseMatrix R) => ∀ r c, C'.elem r c =
      C.elem r c + Finset.sum (Finset.range i) (fun i => T i r c))
    0 k body C (Nat.zero_le _) (by intro r c; simp)
    (by
      intro i s _ hi hI r c
      rw [h i s r c hi, hI, Finset.sum_range_succ, add_assoc])
  exact key r c

/-- A fold over stored elements whose step adds `T e r c` to every entry adds
the sum over the list. -/
theorem foldl_accum [CommRing R] (step : DenseMatrix R → Element R → DenseMatrix R)
    (T : Element R → Nat → Nat → R)
    (h : ∀ e C r c, (step C e).elem r c = C.elem r c + T e r c)
    (es : List (Element R)) (C : DenseMatrix R) (r c : Nat) :
    (es.foldl step C).elem r c = C.elem r c + (es.map (fun e => T e r c)).sum := by
  induction es generalizing C with
  | nil => simp
  | cons e es ih =>
    simp only [List.foldl_cons, List.map_cons, List.sum_cons]
    rw [ih, h, add_assoc]

/-- A blocked loop whose body rewrites exactly the columns of its block, by the
same entry-wise rule `F` in every block, applies `F` to every column. -/
theorem blockLoop_elem (n block : Nat) (hb : 0 < block)
    (body : Nat → DenseMatrix R → DenseMatrix R) (F : R → Nat → Nat → R)
    (h : ∀ jj C r c, jj < n → (body jj C).elem r c =
      if jj ≤ c ∧ c < blockEnd block n jj then F (C.elem r c) r c else C.elem r c)
    (C : DenseMatrix R) (r c : Nat) :
    (forLoop 0 n block body C).elem r c =
      if c < n then F (C.elem r c) r c else C.elem r c := by
  obtain ⟨j', hj', hI⟩ := forLoop_invariant
    (fun jj (C' : DenseMatrix R) => ∀ r c, C'.elem r c =
      if c < min jj n then F (C.elem r c) r c else C.elem r c)
    0 n block body C hb (by intro r c; simp)
    (by
      intro jj s hjj hI r c
      rw [h jj s r c hjj]
      have hI' := hI r c
      unfold blockEnd
      by_cases h1 : jj ≤ c ∧ c < (if jj + block > n then n else jj + block)
      · rw [if_pos h1]
        have h2 : ¬ c < min jj n := by omega
        have h3 : c < min (jj + block) n := by
          split_ifs at h1 <;> omega
        rw [hI', if_neg h2, if_pos h3]
      · rw [if_neg h1, hI']
        have h4 : c < min jj n ↔ c < min (jj + block) n := by
          split_ifs at h1 <;> omega
        simp only [h4])
  rw [hI r c]
  have : c < min j' n ↔ c < n := by omega
  simp only [this]

theorem jbegin_le_iff (f : DeclFlags) (t : StructFlags) (i1 i jj c : Nat) :
    jbegin f t i1 i jj ≤ c ↔
      (jj ≤ c ∧ (!t.isUpper || decide ((if t.isStrictlyUpper then i + 1 else i) ≤ c)) = true ∧
        (!(f.SYM || f.HERM || f.UPP) || decide (i1 ≤ c)) = true) := by
  unfold jbegin max3
  generalize (f.SYM || f.HERM || f.UPP) = x
  generalize (if t.isStrictlyUpper then i + 1 else i) = a
  cases t.isUpper <;> cases x <;>
    simp only [Bool.not_true, Bool.not_false, Bool.false_or, Bool.true_or, if_true, if_false,
      decide_eq_true_eq, true_and, and_true, Bool.false_eq_true] <;> omega

theorem lt_jend_iff (f : DeclFlags) (t : StructFlags) (i4 i jpos c : Nat) :
    c < jend f t i4 i jpos ↔
      (c < jpos ∧ (!t.isLower || decide (c < (if t.isStrictlyLower then i else i + 1))) = true ∧
        (!f.LOW || decide (c < i4 + 1)) = true) := by
  unfold jend min3
  generalize f.LOW = y
  generalize (if t.isStrictlyLower then i else i + 1) = a
  cases t.isLower <;> cases y <;>
    simp only [Bool.not_true, Bool.not_false, Bool.false_or, Bool.true_or, if_true, if_false,
      decide_eq_true_eq, true_and, and_true, Bool.false_eq_true] <;> omega

theorem window_iff (f : DeclFlags) (t : StructFlags) (i1 i4 i jj jpos c : Nat) :
    (jbegin f t i1 i jj ≤ c ∧ c < jend f t i4 i jpos) ↔
      ((jj ≤ c ∧ c < jpos) ∧ structBand t i c = true ∧ declBand f i1 i4 c = true) := by
  rw [jbegin_le_iff, lt_jend_iff]
  unfold structBand declBand
  simp only [Bool.and_eq_true]
  tauto

/-- Inside its block a clipped update is the band term, outside it is nothing. -/
theorem windowTerm_eq [CommRing R] (f : DeclFlags) (t : StructFlags) (B : DenseMatrix R)
    (i jj jpos r c : Nat) (e : Element R) :
    (if r = e.index ∧ jbegin f t e.index i jj ≤ c ∧ c < jend f t e.index i jpos then
        e.value * B.elem i c else 0) =
      if jj ≤ c ∧ c < jpos then bandTerm f t B i r c e else 0 := by
  have hw := window_iff f t e.index e.index i jj jpos c
  unfold bandTerm
  by_cases hb : jj ≤ c ∧ c < jpos
  · rw [if_pos hb]
    by_cases hr : r = e.index
    · by_cases hs : structBand t i c = true ∧ declBand f e.index e.index c = true
      · rw [if_pos ⟨hr, hw.2 ⟨hb, hs⟩⟩, if_pos ⟨hr.symm, hs⟩]
      · rw [if_neg (fun h => hs (hw.1 h.2).2), if_neg (fun h => hs h.2)]
    · rw [if_neg (fun h => hr h.1), if_neg (fun h => hr h.1.symm)]
  · rw [if_neg hb, if_neg (fun h => hb (hw.1 h.2).1)]

theorem sum_map_ite_const [CommRing R] {α : Type} (p : Prop) [Decidable p] (g : α → R)
    (es : List α) :
    (es.map (fun e => if p then g e else 0)).sum = if p then (es.map g).sum else 0 := by
  by_cases h : p <;> simp [h]

/-- The accumulation of the default kernel on one column block. -/
theorem defaultBlock_elem [CommRing R] [DecidableEq R] (f : DeclFlags) (t : StructFlags)
    (A : CompressedMatrix R) (B : DenseMatrix R) (jj jpos : Nat) (C : DenseMatrix R)
    (r c : Nat) :
    (forLoop 0 A.columns 1 (fun i C =>
      (A.col i).foldl (fun C element =>
        defaultUpdate B i element.index element.value (jbegin f t element.index i jj)
          (jend f t element.index i jpos) C) C) C).elem r c =
      if jj ≤ c ∧ c < jpos then
        C.elem r c + Finset.sum (Finset.range A.columns)
          (fun i => ((A.col i).map (bandTerm f t B i r c)).sum)
      else C.elem r c := by
  rw [forLoop_accum A.columns _
    (fun i r c => if jj ≤ c ∧ c < jpos then ((A.col i).map (bandTerm f t B i r c)).sum else 0)]
  · by_cases hb : jj ≤ c ∧ c < jpos
    · simp only [hb, and_self, if_true]
    · simp only [hb, if_false, Finset.sum_const_zero, add_zero]
  · intro i C r c _
    rw [foldl_accum _ (fun e r c => if r = e.index ∧ jbegin f t e.index i jj ≤ c ∧
        c < jend f t e.index i jpos then e.value * B.elem i c else 0)]
    · congr 1
      rw [← sum_map_ite_const]
      congr 1
      apply List.map_congr_left
      intro e _
      exact windowTerm_eq f t B i jj jpos r c e
    · intro e C r c
      rw [defaultUpdate_eq_smallUpdate, smallUpdate_elem]

/-- Entry-wise description of the general branch of the default kernel: every
entry of the columns below `B.columns` gains the band terms of all stored
elements of `A`. -/
theorem defaultBlockedLoop_elem [CommRing R] [DecidableEq R] (f : DeclFlags) (t : StructFlags)
    (A : CompressedMatrix R) (B : DenseMatrix R) (C : DenseMatrix R) (r c : Nat) :
    (defaultBlockedLoop f t A B C).elem r c =
      if c < B.columns then
        C.elem r c + Finset.sum (Finset.range A.columns)
          (fun i => ((A.col i).map (bandTerm f t B i r c)).sum)
      else C.elem r c := by
  unfold defaultBlockedLoop
  exact blockLoop_elem B.columns 64 (by decide) _
    (fun x r c => x + Finset.sum (Finset.range A.columns)
      (fun i => ((A.col i).map (bandTerm f t B i r c)).sum))
    (fun jj C r c _ => defaultBlock_elem f t A B jj (blockEnd 64 B.columns jj) C r c) C r c

/-! ## The mirroring loop -/

theorem mirrorInner_elem (g : R → R) (j m : Nat) (s : DenseMatrix R) (r c : Nat) :
    (forLoop (j + 1) m 1 (fun i C => C.set i j (g (C.elem j i))) s).elem r c =
      if c = j ∧ j < r ∧ r < m then g (s.elem j r) else s.elem r c := by
  by_cases hm : j + 1 ≤ m
  · have key := forLoop_one_invariant
      (fun i (C' : DenseMatrix R) => ∀ r c, C'.elem r c =
        if c = j ∧ j < r ∧ r < i then g (s.elem j r) else s.elem r c)
      (j + 1) m (fun i C => C.set i j (g (C.elem j i))) s hm
      (by
        intro r c
        have h' : ¬ (c = j ∧ j < r ∧ r < j + 1) := by omega
        rw [if_neg h'])
      (by
        intro i s' hi1 _ hI r c
        simp only [DenseMatrix.set_elem]
        by_cases hrc : r = i ∧ c = j
        · obtain ⟨rfl, rfl⟩ := hrc
          have h1 : ¬ (r = c ∧ c < c ∧ c < r) := by omega
          have h2 : (c = c ∧ c < r ∧ r < r + 1) := by omega
          rw [if_pos (show r = r ∧ c = c from ⟨rfl, rfl⟩), if_pos h2, hI c r, if_neg h1]
        · rw [if_neg hrc, hI r c]
          have h3 : (c = j ∧ j < r ∧ r < i) ↔ (c = j ∧ j < r ∧ r < i + 1) := by
            constructor
            · rintro ⟨a, b, d⟩; exact ⟨a, b, by omega⟩
            · rintro ⟨a, b, d⟩
              refine ⟨a, b, ?_⟩
              by_contra hc
              exact hrc ⟨by omega, a⟩
          simp only [h3])
    exact key r c
  · rw [forLoop_ge _ _ _ _ _ (by omega)]
    have h' : ¬ (c = j ∧ j < r ∧ r < m) := by omega
    rw [if_neg h']

/-- Entry-wise description of the mirroring loop: the entries strictly below the
diagonal are overwritten by the (conjugated) entries above it; everything else
is left as it was. -/
theorem mirror_elem [Star R] (f : DeclFlags) (A : CompressedMatrix R) (B : DenseMatrix R)
    (C : DenseMatrix R) (r c : Nat) :
    (mirror f A B C).elem r c =
      if (f.SYM || f.HERM) = true ∧ c < B.columns ∧ c < r ∧ r < A.rows then
        (if f.HERM then conj (C.elem c r) else C.elem c r)
      else C.elem r c := by
  unfold mirror
  by_cases hf : (f.SYM || f.HERM) = true
  · rw [if_pos hf]
    have key := forLoop_one_invariant
      (fun j (C' : DenseMatrix R) => ∀ r c, C'.elem r c =
        if c < j ∧ c < r ∧ r < A.rows then
          (if f.HERM then conj (C.elem c r) else C.elem c r)
        else C.elem r c)
      0 B.columns
      (fun j C => forLoop (j + 1) A.rows 1 (fun i C =>
        C.set i j (if f.HERM then conj (C.elem j i) else C.elem j i)) C) C (Nat.zero_le _)
      (by
        intro r c
        have h' : ¬ (c < 0 ∧ c < r ∧ r < A.rows) := by omega
        rw [if_neg h'])
      (by
        intro j s _ _ hI r c
        have hin := mirrorInner_elem (fun x => if f.HERM then conj x else x) j A.rows s r c
        simp only at hin
        rw [hin]
        by_cases h1 : c = j ∧ j < r ∧ r < A.rows
        · obtain ⟨rfl, h1a, h1b⟩ := h1
          have h2 : ¬ (r < c ∧ r < c ∧ c < A.rows) := by omega
          rw [if_pos (show c = c ∧ c < r ∧ r < A.rows from ⟨rfl, h1a, h1b⟩),
            if_pos (show c < c + 1 ∧ c < r ∧ r < A.rows from ⟨by omega, h1a, h1b⟩),
            hI c r, if_neg h2]
        · rw [if_neg h1, hI r c]
          have h3 : (c < j ∧ c < r ∧ r < A.rows) ↔ (c < j + 1 ∧ c < r ∧ r < A.rows) := by
            constructor
            · rintro ⟨a, b, d⟩; exact ⟨by omega, b, d⟩
            · rintro ⟨a, b, d⟩
              refine ⟨?_, b, d⟩
              by_contra hc
              exact h1 ⟨by omega, by omega, d⟩
          simp only [h3])
    have := key r c
    rw [this]
    simp only [hf, true_and]
  · rw [if_neg hf, if_neg (fun h => hf h.1)]

/-! ## Stored elements and element access -/

theorem sortedBelow_tail (bound : Nat) (e : Element R) (es : List (Element R))
    (h : sortedBelow bound (e :: es)) : sortedBelow bound es := by
  cases es with
  | nil => trivial
  | cons e' es => exact h.2

theorem sortedBelow_head_lt (bound : Nat) (e : Element R) (es : List (Element R))
    (h : sortedBelow bound (e :: es)) : ∀ e' ∈ es, e.index < e'.index := by
  induction es generalizing e with
  | nil => intro e' he'; cases he'
  | cons e1 es ih =>
    intro e' he'
    rcases List.mem_cons.1 he' with rfl | hmem
    · exact h.1
    · exact lt_trans h.1 (ih e1 h.2 e' hmem)

theorem sortedBelow_index_lt (bound : Nat) (es : List (Element R))
    (h : sortedBelow bound es) : ∀ e ∈ es, e.index < bound := by
  induction es with
  | nil => intro e he; cases he
  | cons e1 es ih =>
    intro e he
    rcases List.mem_cons.1 he with rfl | hmem
    · cases es with
      | nil => exact h
      | cons e2 es =>
        exact lt_trans h.1 (ih h.2 e2 (List.mem_cons_self _ _))
    · exact ih (sortedBelow_tail bound e1 es h) e hmem

theorem sum_map_eq_zero [CommRing R] {α : Type} (g : α → R) (es : List α)
    (h : ∀ e ∈ es, g e = 0) : (es.map g).sum = 0 := by
  induction es with
  | nil => simp
  | cons e es ih =>
    simp only [List.map_cons, List.sum_cons]
    rw [h e (List.mem_cons_self _ _), ih (fun e' he' => h e' (List.mem_cons_of_mem _ he')),
      add_zero]

/-- In a column with strictly increasing indices, the stored elements with row
index `r` add up to the element `A(r,·)` found by element access. -/
theorem sum_index_eq [CommRing R] (bound : Nat) (es : List (Element R))
    (h : sortedBelow bound es) (r : Nat) (b : R) :
    (es.map (fun e => if e.index = r then e.value * b else 0)).sum =
      (match es.find? (fun e => e.index == r) with
        | some e => e.value
        | none => 0) * b := by
  induction es with
  | nil => simp
  | cons e es ih =>
    simp only [List.map_cons, List.sum_cons, List.find?_cons]
    by_cases he : e.index = r
    · have hz : (es.map (fun e => if e.index = r then e.value * b else 0)).sum = 0 := by
        apply sum_map_eq_zero
        intro e' he'
        have := sortedBelow_head_lt bound e es h e' he'
        have hne : e'.index ≠ r := by omega
        simp [hne]
      have hb : (e.index == r) = true := by simpa using he
      rw [hz, hb]
      simp [he]
    · have hb : (e.index == r) = false := by simpa using he
      rw [ih (sortedBelow_tail bound e es h), hb]
      simp [he]

theorem structBand_none (i c : Nat) : structBand StructFlags.none i c = true := by
  simp [structBand, StructFlags.none]

theorem declBand_none (i1 i4 c : Nat) : declBand DeclFlags.none i1 i4 c = true := by
  simp [declBand, DeclFlags.none, DeclFlags.SYM, DeclFlags.HERM, DeclFlags.UPP, DeclFlags.LOW]

/-- The sum of all stored elements of `A` with row index `r`, each times the
matching element of `B`, is the naive product. -/
theorem sum_columns_eq_naiveProduct [CommRing R] (A : CompressedMatrix R) (B : DenseMatrix R)
    (hA : A.WF) (r c : Nat) :
    Finset.sum (Finset.range A.columns)
      (fun i => ((A.col i).map
        (fun e => if e.index = r then e.value * B.elem i c else 0)).sum) =
      naiveProduct A B r c := by
  unfold naiveProduct
  apply Finset.sum_congr rfl
  intro i hi
  rw [sum_index_eq A.rows (A.col i) (hA i (Finset.mem_range.1 hi)) r (B.elem i c)]
  rfl

theorem exampleA_WF : exampleA.WF := by
  intro i hi
  have hi' : i < 3 := hi
  interval_cases i <;> simp [exampleA, sortedBelow]

/-- The default kernel without flags computes the naive product. -/
theorem defaultKernel_none_elem [CommRing R] [DecidableEq R] [Star R]
    (A : CompressedMatrix R) (B : DenseMatrix R) (C : DenseMatrix R)
    (hA : A.WF) (hrows : C.rows = A.rows) (hcols : C.columns = B.columns)
    (i j : Nat) (hi : i < A.rows) (hj : j < B.columns) :
    (selectDefaultAssignKernel DeclFlags.none StructFlags.none C A B).elem i j =
      naiveProduct A B i j := by
  unfold selectDefaultAssignKernel
  rw [mirror_elem]
  have hf : ¬ ((DeclFlags.none.SYM || DeclFlags.none.HERM) = true ∧ j < B.columns ∧ j < i ∧
      i < A.rows) := by
    simp [DeclFlags.none, DeclFlags.SYM, DeclFlags.HERM]
  rw [if_neg hf]
  have hd : StructFlags.none.isDiagonal = false := rfl
  simp only [hd, Bool.false_eq_true, if_false]
  rw [defaultBlockedLoop_elem, if_pos hj]
  have hreset : (reset C).elem i j = 0 := by
    simp [reset, hrows, hcols, hi, hj]
  rw [hreset, zero_add, ← sum_columns_eq_naiveProduct A B hA i j]
  apply Finset.sum_congr rfl
  intro l _
  apply congrArg
  apply List.map_congr_left
  intro e _
  simp [bandTerm, structBand_none, declBand_none]

/-- C1: without declaration flags and without static structure flags on `B`,
`selectDefaultAssignKernel` leaves `C(i,j) = sum over l of A(i,l) * B(l,j)` in
every entry of the target, whatever the target held before. -/
theorem selectDefaultAssignKernel_product [CommRing R] [DecidableEq R] [Star R]
    (A : CompressedMatrix R) (B : DenseMatrix R) (C : DenseMatrix R)
    (hA : A.WF) (hrows : C.rows = A.rows) (hcols : C.columns = B.columns)
    (i j : Nat) (hi : i < A.rows) (hj : j < B.columns) :
    (selectDefaultAssignKernel DeclFlags.none StructFlags.none C A B).elem i j =
      naiveProduct A B i j :=
  defaultKernel_none_elem A B C hA hrows hcols i j hi hj

theorem selectDefaultAssignKernel_product_witness :
    exampleA.WF ∧
      (selectDefaultAssignKernel DeclFlags.none StructFlags.none (filled 3 3 7) exampleA
        (identity 3)).elem 2 0 = naiveProduct exampleA (identity 3) 2 0 :=
  ⟨exampleA_WF,
    selectDefaultAssignKernel_product exampleA (identity 3) (filled 3 3 7) exampleA_WF rfl rfl
      2 0 (by decide) (by decide)⟩

/-! ## Entry-wise description of the optimized small kernel -/

theorem addAt_elem [CommRing R] (C : DenseMatrix R) (i j : Nat) (x : R) (r c : Nat) :
    (addAt C i j x).elem r c = C.elem r c + if r = i ∧ c = j then x else 0 := by
  unfold addAt
  rw [DenseMatrix.set_elem]
  by_cases h : r = i ∧ c = j
  · obtain ⟨rfl, rfl⟩ := h
    simp
  · simp [h]

/-- A unit-step loop over columns whose body adds `X r j` to the entries of
column `j` adds `X` on all columns of the range. -/
theorem forLoop_addColumn [CommRing R] (jb je : Nat)
    (body : Nat → DenseMatrix R → DenseMatrix R) (X : Nat → Nat → R)
    (h : ∀ j C r c, (body j C).elem r c = C.elem r c + if c = j then X r c else 0)
    (C : DenseMatrix R) (r c : Nat) :
    (forLoop jb je 1 body C).elem r c =
      C.elem r c + if jb ≤ c ∧ c < je then X r c else 0 := by
  by_cases hle : jb ≤ je
  · have key := forLoop_one_invariant
      (fun j' (C' : DenseMatrix R) => ∀ r c, C'.elem r c =
        C.elem r c + if jb ≤ c ∧ c < j' then X r c else 0)
      jb je body C hle
      (by
        intro r c
        have h' : ¬ (jb ≤ c ∧ c < jb) := by omega
        simp [h'])
      (by
        intro j s hj1 _ hI r c
        rw [h j s r c, hI r c]
        by_cases hc : c = j
        · subst hc
          have h1 : ¬ (jb ≤ c ∧ c < c) := by omega
          have h2 : jb ≤ c ∧ c < c + 1 := by omega
          simp [h1, h2]
        · have h3 : (jb ≤ c ∧ c < j) ↔ (jb ≤ c ∧ c < j + 1) := by omega
          simp only [h3, hc, if_false, add_zero])
    exact key r c
  · rw [forLoop_ge _ _ _ _ _ (by omega)]
    have h' : ¬ (jb ≤ c ∧ c < je) := by omega
    simp [h']

/-- Resetting the columns `jj..jpos` of the first `m` rows. -/
theorem resetBlock_elem [CommRing R] (m jj jpos : Nat) (C : DenseMatrix R) (r c : Nat) :
    (forLoop 0 m 1 (fun i C => forLoop jj jpos 1 (fun j C => C.set i j 0) C) C).elem r c =
      if r < m ∧ jj ≤ c ∧ c < jpos then 0 else C.elem r c := by
  have inner : ∀ (i : Nat) (C : DenseMatrix R) (r c : Nat),
      (forLoop jj jpos 1 (fun j C => C.set i j 0) C).elem r c =
        if r = i ∧ jj ≤ c ∧ c < jpos then 0 else C.elem r c := by
    intro i C r c
    by_cases hle : jj ≤ jpos
    · have key := forLoop_one_invariant
        (fun j' (C' : DenseMatrix R) => ∀ r c, C'.elem r c =
          if r = i ∧ jj ≤ c ∧ c < j' then 0 else C.elem r c)
        jj jpos (fun j C => C.set i j 0) C hle
        (by
          intro r c
          have h' : ¬ (r = i ∧ jj ≤ c ∧ c < jj) := by omega
          rw [if_neg h'])
        (by
          intro j s hj1 _ hI r c
          rw [DenseMatrix.set_elem, hI r c]
          by_cases hrc : r = i ∧ c = j
          · have h2 : r = i ∧ jj ≤ c ∧ c < j + 1 := by omega
            rw [if_pos hrc, if_pos h2]
          · have h3 : (r = i ∧ jj ≤ c ∧ c < j) ↔ (r = i ∧ jj ≤ c ∧ c < j + 1) := by omega
            rw [if_neg hrc]
            simp only [h3])
      exact key r c
    · rw [forLoop_ge _ _ _ _ _ (by omega)]
      have h' : ¬ (r = i ∧ jj ≤ c ∧ c < jpos) := by omega
      rw [if_neg h']
  have key := forLoop_one_invariant
    (fun i' (C' : DenseMatrix R) => ∀ r c, C'.elem r c =
      if r < i' ∧ jj ≤ c ∧ c < jpos then 0 else C.elem r c)
    0 m (fun i C => forLoop jj jpos 1 (fun j C => C.set i j 0) C) C (Nat.zero_le _)
    (by
      intro r c
      have h' : ¬ (r < 0 ∧ jj ≤ c ∧ c < jpos) := by omega
      rw [if_neg h'])
    (by
      intro i s _ _ hI r c
      rw [inner i s r c, hI r c]
      by_cases hrc : r = i ∧ jj ≤ c ∧ c < jpos
      · have h2 : r < i + 1 ∧ jj ≤ c ∧ c < jpos := by omega
        rw [if_pos hrc, if_pos h2]
      · have h3 : (r < i ∧ jj ≤ c ∧ c < jpos) ↔ (r < i + 1 ∧ jj ≤ c ∧ c < jpos) := by omega
        rw [if_neg hrc]
        simp only [h3])
  exact key r c

/-- One pass of the unrolled loop consumes four stored elements and adds their
products on the window given by the first and the fourth of them. -/
theorem unrolledStep_cons [CommRing R] (f : DeclFlags) (t : StructFlags) (B : DenseMatrix R)
    (i jj jpos k : Nat) (e1 e2 e3 e4 : Element R) (es : List (Element R))
    (C : DenseMatrix R) :
    (unrolledStep f t B i jj jpos k (e1 :: e2 :: e3 :: e4 :: es, C)).1 = es ∧
    ∀ r c, (unrolledStep f t B i jj jpos k (e1 :: e2 :: e3 :: e4 :: es, C)).2.elem r c =
      C.elem r c +
        if (jj ≤ c ∧ c < jpos) ∧ structBand t i c = true ∧
            declBand f e1.index e4.index c = true then
          ([e1, e2, e3, e4].map (fun e => if e.index = r then e.value * B.elem i c else 0)).sum
        else 0 := by
  have hw := fun c => window_iff f t e1.index e4.index i jj jpos c
  unfold unrolledStep
  simp only
  by_cases hje : jbegin f t e1.index i jj ≥ jend f t e4.index i jpos
  · rw [if_pos hje]
    refine ⟨rfl, ?_⟩
    intro r c
    have h' : ¬ ((jj ≤ c ∧ c < jpos) ∧ structBand t i c = true ∧
        declBand f e1.index e4.index c = true) := by
      intro h
      have := (hw c).2 h
      omega
    rw [if_neg h', add_zero]
  · rw [if_neg hje]
    refine ⟨rfl, ?_⟩
    intro r c
    have hloop := forLoop_addColumn (jbegin f t e1.index i jj) (jend f t e4.index i jpos)
      (fun j C =>
        addAt (addAt (addAt (addAt C e1.index j (e1.value * B.elem i j)) e2.index j
          (e2.value * B.elem i j)) e3.index j (e3.value * B.elem i j)) e4.index j
          (e4.value * B.elem i j))
      (fun r c => ([e1, e2, e3, e4].map
        (fun e => if e.index = r then e.value * B.elem i c else 0)).sum)
      (by
        intro j C r c
        simp only [addAt_elem, List.map_cons, List.map_nil, List.sum_cons, List.sum_nil]
        by_cases hc : c = j
        · subst hc
          simp only [and_true, if_true, eq_comm (a := r)]
          ring
        · simp [hc])
      C r c
    have hiff : (jbegin f t e1.index i jj ≤ c ∧ c < jend f t e4.index i jpos) ↔
        ((jj ≤ c ∧ c < jpos) ∧ structBand t i c = true ∧
          declBand f e1.index e4.index c = true) := hw c
    simp only [hiff] at hloop
    exact hloop

/-- The loop over the stored elements that remain after the unrolled loop. -/
theorem remainder_elem [CommRing R] (f : DeclFlags) (t : StructFlags) (B : DenseMatrix R)
    (i jj jpos : Nat) (es : List (Element R)) (C : DenseMatrix R) (r c : Nat) :
    (es.foldl (fun C element =>
      smallUpdate B i element.index element.value (jbegin f t element.index i jj)
        (jend f t element.index i jpos) C) C).elem r c =
      C.elem r c + if jj ≤ c ∧ c < jpos then (es.map (bandTerm f t B i r c)).sum else 0 := by
  rw [foldl_accum _ (fun e r c => if r = e.index ∧ jbegin f t e.index i jj ≤ c ∧
      c < jend f t e.index i jpos then e.value * B.elem i c else 0)]
  · congr 1
    rw [← sum_map_ite_const]
    congr 1
    apply List.map_congr_left
    intro e _
    exact windowTerm_eq f t B i jj jpos r c e
  · intro e C r c
    rw [smallUpdate_elem]

theorem unrolled_short [CommRing R] (f : DeclFlags) (t : StructFlags) (B : DenseMatrix R)
    (i jj jpos r c : Nat) (es : List (Element R)) (hlen : es.length < 4) (k : Nat)
    (C : DenseMatrix R) (hg : groupSum f t B i r c es = (es.map (bandTerm f t B i r c)).sum) :
    ((forLoop k (k + (es.length - es.length % 4)) 4 (unrolledStep f t B i jj jpos)
        (es, C)).1.foldl (fun C element =>
      smallUpdate B i element.index element.value (jbegin f t element.index i jj)
        (jend f t element.index i jpos) C)
      (forLoop k (k + (es.length - es.length % 4)) 4 (unrolledStep f t B i jj jpos)
        (es, C)).2).elem r c =
      C.elem r c + if jj ≤ c ∧ c < jpos then groupSum f t B i r c es else 0 := by
  rw [forLoop_ge _ _ _ _ _ (by omega), hg]
  exact remainder_elem f t B i jj jpos es C r c

/-- The unrolled loop followed by the remainder loop adds, inside the block, the
group sums of the column. -/
theorem unrolled_remainder_elem [CommRing R] (f : DeclFlags) (t : StructFlags)
    (B : DenseMatrix R) (i jj jpos r c : Nat) :
    ∀ (es : List (Element R)) (k : Nat) (C : DenseMatrix R),
      ((forLoop k (k + (es.length - es.length % 4)) 4 (unrolledStep f t B i jj jpos)
          (es, C)).1.foldl (fun C element =>
        smallUpdate B i element.index element.value (jbegin f t element.index i jj)
          (jend f t element.index i jpos) C)
        (forLoop k (k + (es.length - es.length % 4)) 4 (unrolledStep f t B i jj jpos)
          (es, C)).2).elem r c =
        C.elem r c + if jj ≤ c ∧ c < jpos then groupSum f t B i r c es else 0
  | [], k, C => unrolled_short f t B i jj jpos r c [] (by simp) k C rfl
  | [_], k, C => unrolled_short f t B i jj jpos r c _ (by simp) k C rfl
  | [_, _], k, C => unrolled_short f t B i jj jpos r c _ (by simp) k C rfl
  | [_, _, _], k, C => unrolled_short f t B i jj jpos r c _ (by simp) k C rfl
  | e1 :: e2 :: e3 :: e4 :: es, k, C => by
    have hstep := unrolledStep_cons f t B i jj jpos k e1 e2 e3 e4 es C
    have hlen : (e1 :: e2 :: e3 :: e4 :: es).length = es.length + 4 := by simp
    have hstop : k + ((e1 :: e2 :: e3 :: e4 :: es).length -
        (e1 :: e2 :: e3 :: e4 :: es).length % 4) =
        (k + 4) + (es.length - es.length % 4) := by
      rw [hlen]; omega
    rw [hstop, forLoop_unfold _ _ _ _ _ (by decide), if_pos (by omega)]
    have hpair : unrolledStep f t B i jj jpos k (e1 :: e2 :: e3 :: e4 :: es, C) =
        (es, (unrolledStep f t B i jj jpos k (e1 :: e2 :: e3 :: e4 :: es, C)).2) :=
      Prod.ext hstep.1 rfl
    rw [hpair, unrolled_remainder_elem f t B i jj jpos r c es (k + 4), hstep.2 r c]
    rw [add_assoc]
    congr 1
    by_cases hb : jj ≤ c ∧ c < jpos
    · simp only [hb, and_self, true_and, if_true, groupSum]
    · simp only [hb, false_and, if_false, add_zero]

/-- Entry-wise description of the work of the optimized small kernel on one
column of `A` within one block. -/
theorem smallColumn_elem [CommRing R] (f : DeclFlags) (t : StructFlags)
    (A : CompressedMatrix R) (B : DenseMatrix R) (i jj jpos : Nat) (C : DenseMatrix R)
    (r c : Nat) :
    (smallColumn f t A B i jj jpos C).elem r c =
      C.elem r c + if jj ≤ c ∧ c < jpos then groupSum f t B i r c (A.col i) else 0 := by
  unfold smallColumn CompressedMatrix.nonZeros
  have h := unrolled_remainder_elem f t B i jj jpos r c (A.col i) 0 C
  simp only [Nat.zero_add] at h
  exact h

/-- Entry-wise description of the blocked loop of the optimized small kernel:
in every column below `B.columns` the first `A.rows` rows are reset, and every
entry of these columns gains the group sums of all columns of `A`. -/
theorem smallBlockedLoop_elem [CommRing R] (f : DeclFlags) (t : StructFlags) (rowMajor : Bool)
    (A : CompressedMatrix R) (B : DenseMatrix R) (C : DenseMatrix R) (r c : Nat) :
    (smallBlockedLoop f t rowMajor A B C).elem r c =
      if c < B.columns then
        (if r < A.rows then 0 else C.elem r c) +
          Finset.sum (Finset.range A.columns) (fun i => groupSum f t B i r c (A.col i))
      else C.elem r c := by
  unfold smallBlockedLoop
  refine blockLoop_elem B.columns (if rowMajor then 128 else 64)
    (by cases rowMajor <;> decide) _
    (fun x r c => (if r < A.rows then 0 else x) +
      Finset.sum (Finset.range A.columns) (fun i => groupSum f t B i r c (A.col i)))
    ?_ C r c
  intro jj C r c _
  simp only
  rw [forLoop_accum A.columns _
    (fun i r c => if jj ≤ c ∧ c < blockEnd (if rowMajor then 128 else 64) B.columns jj then
      groupSum f t B i r c (A.col i) else 0)]
  · rw [resetBlock_elem]
    by_cases hb : jj ≤ c ∧ c < blockEnd (if rowMajor then 128 else 64) B.columns jj
    · simp only [hb, and_self, and_true, if_true]
    · simp only [hb, and_false, if_false, Finset.sum_const_zero, add_zero]
  · intro i C r c _
    exact smallColumn_elem f t A B i jj _ C r c

/-! ## Comparing the two kernels -/

/-- Where the declared structure admits the entry `(r,c)`, the band terms of the
default kernel are clipped by the static structure of `B` only. -/
theorem bandSum_eq_structSum [CommRing R] (f : DeclFlags) (t : StructFlags)
    (B : DenseMatrix R) (i r c : Nat) (hdecl : declBand f r r c = true)
    (es : List (Element R)) :
    (es.map (bandTerm f t B i r c)).sum = structSum t B i r c es := by
  unfold structSum
  congr 1
  apply List.map_congr_left
  intro e _
  unfold bandTerm
  by_cases he : e.index = r
  · subst he
    simp [hdecl]
  · simp [he]

/-- Where the declared structure admits the entry `(r,c)` for every window that
encloses row `r`, grouping the stored elements by four does not change what a
sorted column adds to the entry. -/
theorem groupSum_eq_structSum [CommRing R] (f : DeclFlags) (t : StructFlags)
    (B : DenseMatrix R) (i r c bound : Nat)
    (hdecl : ∀ i1 i4, i1 ≤ r → r ≤ i4 → declBand f i1 i4 c = true) :
    ∀ es : List (Element R), sortedBelow bound es →
      groupSum f t B i r c es = structSum t B i r c es
  | [], _ => bandSum_eq_structSum f t B i r c (hdecl r r (le_refl _) (le_refl _)) _
  | [_], _ => bandSum_eq_structSum f t B i r c (hdecl r r (le_refl _) (le_refl _)) _
  | [_, _], _ => bandSum_eq_structSum f t B i r c (hdecl r r (le_refl _) (le_refl _)) _
  | [_, _, _], _ => bandSum_eq_structSum f t B i r c (hdecl r r (le_refl _) (le_refl _)) _
  | e1 :: e2 :: e3 :: e4 :: es, hs => by
    have h12 : e1.index < e2.index := hs.1
    have h23 : e2.index < e3.index := hs.2.1
    have h34 : e3.index < e4.index := hs.2.2.1
    have hs' : sortedBelow bound es :=
      sortedBelow_tail bound e4 es hs.2.2.2
    have ih := groupSum_eq_structSum f t B i r c bound hdecl es hs'
    unfold groupSum structSum
    unfold structSum at ih
    rw [ih]
    simp only [List.map_cons, List.map_nil, List.sum_cons, List.sum_nil, add_zero]
    by_cases hst : structBand t i c = true
    · by_cases hd : declBand f e1.index e4.index c = true
      · simp only [hst, hd, and_self, and_true, if_true]
        ring
      · have hne : ∀ k, e1.index ≤ k → k ≤ e4.index → k ≠ r := by
          intro k hk1 hk4 hkr
          subst hkr
          exact hd (hdecl _ _ hk1 hk4)
        have n1 := hne e1.index (le_refl _) (by omega)
        have n2 := hne e2.index (by omega) (by omega)
        have n3 := hne e3.index (by omega) (by omega)
        have n4 := hne e4.index (by omega) (le_refl _)
        simp [hst, hd, n1, n2, n3, n4]
    · simp [hst]

theorem forLoopAux_shape {σ : Type} (P : σ → Prop) (stop step : Nat) (body : Nat → σ → σ)
    (h : ∀ j s, P s → P (body j s)) :
    ∀ fuel j s, P s → P (forLoopAux stop step body fuel j s) := by
  intro fuel
  induction fuel with
  | zero => intro j s hs; exact hs
  | succ fuel ih =>
    intro j s hs
    by_cases hj : j < stop
    · simp only [forLoopAux, hj, if_true]
      exact ih _ _ (h j s hs)
    · simp only [forLoopAux, hj, if_false]
      exact hs

/-- A property of the state that every pass of the body preserves is preserved
by the loop. -/
theorem forLoop_preserves {σ : Type} (P : σ → Prop) (start stop step : Nat)
    (body : Nat → σ → σ) (h : ∀ j s, P s → P (body j s)) (s : σ) (hs : P s) :
    P (forLoop start stop step body s) :=
  forLoopAux_shape P stop step body h _ _ s hs

theorem foldl_preserves {σ α : Type} (P : σ → Prop) (step : σ → α → σ)
    (h : ∀ s a, P s → P (step s a)) (es : List α) (s : σ) (hs : P s) :
    P (es.foldl step s) := by
  induction es generalizing s with
  | nil => exact hs
  | cons e es ih => exact ih _ (h s e hs)

/-- Shape of a target: `m` rows and `n` columns. -/
theorem set_shape (m n : Nat) (C : DenseMatrix R) (i j : Nat) (v : R)
    (h : C.rows = m ∧ C.columns = n) : (C.set i j v).rows = m ∧ (C.set i j v).columns = n := h

theorem mirror_shape [Star R] (f : DeclFlags) (A : CompressedMatrix R) (B : DenseMatrix R)
    (m n : Nat) (C : DenseMatrix R) (h : C.rows = m ∧ C.columns = n) :
    (mirror f A B C).rows = m ∧ (mirror f A B C).columns = n := by
  unfold mirror
  split
  · exact forLoop_preserves (HasShape m n) _ _ _ _
      (fun j s hs => forLoop_preserves (HasShape m n) _ _ _ _
        (fun i s hs => set_shape m n s _ _ _ hs) s hs) C h
  · exact h

theorem smallUpdate_shape [CommRing R] (B : DenseMatrix R) (i i1 : Nat) (v : R) (jb je : Nat)
    (m n : Nat) (C : DenseMatrix R) (h : C.rows = m ∧ C.columns = n) :
    (smallUpdate B i i1 v jb je C).rows = m ∧ (smallUpdate B i i1 v jb je C).columns = n := by
  unfold smallUpdate
  split
  · exact h
  · exact forLoop_preserves (HasShape m n) _ _ _ _
      (fun j s hs => set_shape m n s _ _ _ hs) C h

theorem selectDefaultAssignKernel_shape [CommRing R] [DecidableEq R] [Star R]
    (f : DeclFlags) (t : StructFlags) (C : DenseMatrix R) (A : CompressedMatrix R)
    (B : DenseMatrix R) :
    (selectDefaultAssignKernel f t C A B).rows = C.rows ∧
      (selectDefaultAssignKernel f t C A B).columns = C.columns := by
  unfold selectDefaultAssignKernel
  apply mirror_shape
  have hr : (reset C).rows = C.rows ∧ (reset C).columns = C.columns := ⟨rfl, rfl⟩
  split
  · unfold defaultDiagonalLoop
    exact forLoop_preserves (HasShape C.rows C.columns) _ _ _ _
      (fun i s hs => foldl_preserves (HasShape C.rows C.columns) _
        (fun s e hs => set_shape _ _ s _ _ _ hs) _ s hs) _ hr
  · unfold defaultBlockedLoop
    exact forLoop_preserves (HasShape C.rows C.columns) _ _ _ _
      (fun jj s hs => forLoop_preserves
        (HasShape C.rows C.columns) _ _ _ _
        (fun i s hs => foldl_preserves
          (HasShape C.rows C.columns) _
          (fun s e hs => by
            rw [defaultUpdate_eq_smallUpdate]
            exact smallUpdate_shape B _ _ _ _ _ _ _ s hs) _ s hs) s hs) _ hr

theorem unrolledStep_shape [CommRing R] (f : DeclFlags) (t : StructFlags) (B : DenseMatrix R)
    (i jj jpos k m n : Nat) (s : List (Element R) × DenseMatrix R)
    (h : s.2.rows = m ∧ s.2.columns = n) :
    (unrolledStep f t B i jj jpos k s).2.rows = m ∧
      (unrolledStep f t B i jj jpos k s).2.columns = n := by
  unfold unrolledStep
  split
  · simp only
    split
    · exact h
    · exact forLoop_preserves (HasShape m n) _ _ _ _
        (fun j s hs => set_shape m n _ _ _ _ (set_shape m n _ _ _ _
          (set_shape m n _ _ _ _ (set_shape m n s _ _ _ hs)))) s.2 h
  · exact h

theorem selectSmallAssignKernelOptimized_shape [CommRing R] [Star R]
    (f : DeclFlags) (t : StructFlags) (rowMajor : Bool) (C : DenseMatrix R)
    (A : CompressedMatrix R) (B : DenseMatrix R) :
    (selectSmallAssignKernelOptimized f t rowMajor C A B).rows = C.rows ∧
      (selectSmallAssignKernelOptimized f t rowMajor C A B).columns = C.columns := by
  unfold selectSmallAssignKernelOptimized
  apply mirror_shape
  unfold smallBlockedLoop
  refine forLoop_preserves (HasShape C.rows C.columns) _ _ _ _
    (fun jj s hs => ?_) C ⟨rfl, rfl⟩
  refine forLoop_preserves (HasShape C.rows C.columns) _ _ _ _
    (fun i s hs => ?_) _ ?_
  · unfold smallColumn
    refine foldl_preserves (HasShape C.rows C.columns) _
      (fun s e hs => smallUpdate_shape B _ _ _ _ _ _ _ s hs) _ _ ?_
    exact forLoop_preserves
      (fun (s : List (Element R) × DenseMatrix R) => HasShape C.rows C.columns s.2) _ _ _ _
      (fun k s hs => unrolledStep_shape f t B _ _ _ k _ _ s hs) _ hs
  · exact forLoop_preserves (HasShape C.rows C.columns) _ _ _ _
      (fun i s hs => forLoop_preserves
        (HasShape C.rows C.columns) _ _ _ _
        (fun j s hs => set_shape _ _ s _ _ _ hs) s hs) s hs

/-- The target before mirroring, default kernel, at an entry that the declared
structure admits. -/
theorem defaultBlockedLoop_reset_elem [CommRing R] [DecidableEq R] (f : DeclFlags)
    (t : StructFlags) (A : CompressedMatrix R) (B : DenseMatrix R) (C : DenseMatrix R)
    (hrows : C.rows = A.rows) (hcols : C.columns = B.columns) (r c : Nat)
    (hdecl : declBand f r r c = true) :
    (defaultBlockedLoop f t A B (reset C)).elem r c =
      if c < B.columns then
        (if r < A.rows then 0 else C.elem r c) +
          Finset.sum (Finset.range A.columns) (fun i => structSum t B i r c (A.col i))
      else C.elem r c := by
  rw [defaultBlockedLoop_elem]
  have hreset : (reset C).elem r c =
      if r < A.rows ∧ c < B.columns then 0 else C.elem r c := by
    simp [reset, hrows, hcols]
  rw [hreset]
  by_cases hc : c < B.columns
  · simp only [hc, and_true, if_true]
    congr 1
    apply Finset.sum_congr rfl
    intro i _
    exact bandSum_eq_structSum f t B i r c hdecl (A.col i)
  · simp only [hc, and_false, if_false]

/-- The target before mirroring, optimized small kernel, at an entry that the
declared structure admits for every window enclosing its row. -/
theorem smallBlockedLoop_struct_elem [CommRing R] (f : DeclFlags) (t : StructFlags)
    (rowMajor : Bool) (A : CompressedMatrix R) (B : DenseMatrix R) (C : DenseMatrix R)
    (hA : A.WF) (r c : Nat)
    (hdecl : ∀ i1 i4, i1 ≤ r → r ≤ i4 → declBand f i1 i4 c = true) :
    (smallBlockedLoop f t rowMajor A B C).elem r c =
      if c < B.columns then
        (if r < A.rows then 0 else C.elem r c) +
          Finset.sum (Finset.range A.columns) (fun i => structSum t B i r c (A.col i))
      else C.elem r c := by
  rw [smallBlockedLoop_elem]
  by_cases hc : c < B.columns
  · simp only [hc, if_true]
    congr 1
    apply Finset.sum_congr rfl
    intro i hi
    exact groupSum_eq_structSum f t B i r c A.rows hdecl (A.col i)
      (hA i (Finset.mem_range.1 hi))
  · simp only [hc, if_false]

theorem mirror_none [Star R] (A : CompressedMatrix R) (B : DenseMatrix R) (C : DenseMatrix R) :
    mirror DeclFlags.none A B C = C := rfl

/-- Without flags the optimized small kernel agrees with the default kernel. -/
theorem smallKernel_none_eq [CommRing R] [DecidableEq R] [Star R]
    (A : CompressedMatrix R) (B : DenseMatrix R) (C : DenseMatrix R) (rowMajor : Bool)
    (hA : A.WF) (hrows : C.rows = A.rows) (hcols : C.columns = B.columns) :
    selectSmallAssignKernelOptimized DeclFlags.none StructFlags.none rowMajor C A B =
      selectDefaultAssignKernel DeclFlags.none StructFlags.none C A B := by
  have h1 := selectSmallAssignKernelOptimized_shape DeclFlags.none StructFlags.none rowMajor
    C A B
  have h2 := selectDefaultAssignKernel_shape DeclFlags.none StructFlags.none C A B
  apply DenseMatrix.ext
  · rw [h1.1, h2.1]
  · rw [h1.2, h2.2]
  · funext r c
    unfold selectSmallAssignKernelOptimized selectDefaultAssignKernel
    rw [mirror_none, mirror_none]
    have hd : StructFlags.none.isDiagonal = false := rfl
    simp only [hd, Bool.false_eq_true, if_false]
    rw [smallBlockedLoop_struct_elem DeclFlags.none StructFlags.none rowMajor A B C hA r c
        (fun i1 i4 _ _ => declBand_none i1 i4 c),
      defaultBlockedLoop_reset_elem DeclFlags.none StructFlags.none A B C hrows hcols r c
        (declBand_none r r c)]

theorem exampleWide_WF : exampleWide.WF := by
  intro i hi
  have hi' : i < 3 := hi
  interval_cases i <;> simp [exampleWide, sortedBelow]

/-- C2: without declaration flags and without static structure flags on `B`, the
optimized small kernel (four stored elements per pass, column blocks of 64 or
128) leaves exactly the target that `selectDefaultAssignKernel` leaves, for
every initial target and every number of stored elements per column. -/
theorem selectSmallAssignKernel_eq_default [CommRing R] [DecidableEq R] [Star R]
    (A : CompressedMatrix R) (B : DenseMatrix R) (C : DenseMatrix R) (rowMajor : Bool)
    (hA : A.WF) (hrows : C.rows = A.rows) (hcols : C.columns = B.columns) :
    selectSmallAssignKernelOptimized DeclFlags.none StructFlags.none rowMajor C A B =
      selectDefaultAssignKernel DeclFlags.none StructFlags.none C A B :=
  smallKernel_none_eq A B C rowMajor hA hrows hcols

theorem selectSmallAssignKernel_eq_default_witness :
    exampleWide.WF ∧
      selectSmallAssignKernelOptimized DeclFlags.none StructFlags.none true
          (filled 6 2 9) exampleWide (filled 3 2 5) =
        selectDefaultAssignKernel DeclFlags.none StructFlags.none
          (filled 6 2 9) exampleWide (filled 3 2 5) :=
  ⟨exampleWide_WF,
    selectSmallAssignKernel_eq_default exampleWide (filled 3 2 5) (filled 6 2 9) true
      exampleWide_WF rfl rfl⟩

/-! ## Assignment of a product with the identity -/

theorem naiveProduct_identity [CommRing R] (A : CompressedMatrix R) (n : Nat)
    (hcols : A.columns = n) (i j : Nat) (hj : j < n) :
    naiveProduct A (identity n) i j = A.at i j := by
  unfold naiveProduct identity
  simp only [mul_ite, mul_one, mul_zero]
  rw [Finset.sum_ite_eq' (Finset.range A.columns) j (fun l => A.at i l)]
  simp [hcols, hj]

/-- Every path of the kernel selection leaves the naive product when neither the
node nor the right operand carries flags. -/
theorem selectAssignKernel_none_elem [CommRing R] [DecidableEq R] [Star R] (k : KernelConfig)
    (SO : Bool) (A : CompressedMatrix R) (B : DenseMatrix R) (C : DenseMatrix R)
    (hA : A.WF) (hrows : C.rows = A.rows) (hcols : C.columns = B.columns)
    (i j : Nat) (hi : i < A.rows) (hj : j < B.columns) :
    (selectAssignKernel k SO C
      (selectSmallAssignKernel k DeclFlags.none StructFlags.none SO C A B)
      (selectLargeAssignKernel k DeclFlags.none StructFlags.none C A B)).elem i j =
      naiveProduct A B i j := by
  have hdef := defaultKernel_none_elem A B C hA hrows hcols i j hi hj
  unfold selectAssignKernel selectSmallAssignKernel selectLargeAssignKernel
  simp only
  split
  · split
    · rw [smallKernel_none_eq A B C _ hA hrows hcols]
      exact hdef
    · exact hdef
  · split
    · simp [rowMajorProductAssign, hi, hj]
    · exact hdef

/-- C3: for an `n`×`n` sparse matrix `A` and the dense `n`×`n` identity matrix
`B`, assigning `A * B` to a dense matrix leaves `C(i,j) = A(i,j)` for all
`i, j < n` (zero where `A` stores no element), whichever kernel is selected. -/
theorem assign_identity [CommRing R] [DecidableEq R] [Star R] (k : KernelConfig) (SO : Bool)
    (n : Nat) (A : CompressedMatrix R) (C : DenseMatrix R) (hA : A.WF)
    (hAr : A.rows = n) (hAc : A.columns = n) (hCr : C.rows = n) (hCc : C.columns = n) :
    ∃ C', assign k StructFlags.none SO C ⟨A, identity n, DeclFlags.none⟩ = .ok C' ∧
      ∀ i j, i < n → j < n → C'.elem i j = A.at i j := by
  refine ⟨selectAssignKernel k SO C
      (selectSmallAssignKernel k DeclFlags.none StructFlags.none SO C A (identity n))
      (selectLargeAssignKernel k DeclFlags.none StructFlags.none C A (identity n)), ?_, ?_⟩
  · simp [assign, internalAssert, TSMatTDMatMultExpr.rows, TSMatTDMatMultExpr.columns,
      identity, hAr, hCr, hCc]
    rfl
  · intro i j hi hj
    rw [selectAssignKernel_none_elem k SO A (identity n) C hA (by rw [hCr, hAr])
      (by rw [hCc]; rfl) i j (by rw [hAr]; exact hi) hj]
    exact naiveProduct_identity A n hAc i j hj

theorem assign_identity_witness :
    exampleA.WF ∧
      ∃ C', assign exampleConfig StructFlags.none true (filled 3 3 0)
          ⟨exampleA, identity 3, DeclFlags.none⟩ = .ok C' ∧
        ∀ i j, i < 3 → j < 3 → C'.elem i j = exampleA.at i j :=
  ⟨exampleA_WF,
    assign_identity exampleConfig true 3 exampleA (filled 3 3 0) exampleA_WF rfl rfl rfl rfl⟩

/-! ## The multiplication operator -/

/-- C4: `operator*` fails with an invalid-argument error if and only if
`A.columns() != B.rows()`; otherwise it returns the product node of `A` and `B`
with all four declaration flags false, whose `rows()` is `A.rows()` and whose
`columns()` is `B.columns()`.  The outcome is decided by the shapes alone: on
operands of the same shapes but with other elements the operator fails in the
same way, so no element is read before the failure. -/
theorem operatorMul_spec (A : CompressedMatrix R) (B : DenseMatrix R) :
    ((∃ msg, operatorMul A B = .error (.invalidArgument msg)) ↔ A.columns ≠ B.rows) ∧
    ((∃ err, operatorMul A B = .error err) ↔ A.columns ≠ B.rows) ∧
    (A.columns = B.rows →
      ∃ e, operatorMul A B = .ok e ∧ e.lhs = A ∧ e.rhs = B ∧
        e.flags = ⟨false, false, false, false⟩ ∧
        e.rows = A.rows ∧ e.columns = B.columns) ∧
    (A.columns ≠ B.rows →
      ∀ (colA : Nat → List (Element R)) (elemB : Nat → Nat → R),
        operatorMul ⟨A.rows, A.columns, colA⟩ ⟨B.rows, B.columns, elemB⟩ =
          .error (.invalidArgument "Matrix sizes do not match")) := by
  by_cases h : A.columns = B.rows
  · refine ⟨?_, ?_, ?_, ?_⟩
    · simp [operatorMul, TSMatTDMatMultExpr.new, h]
    · simp [operatorMul, TSMatTDMatMultExpr.new, h]
    · intro _
      exact ⟨⟨A, B, ⟨false, false, false, false⟩⟩,
        by simp [operatorMul, TSMatTDMatMultExpr.new, h], rfl, rfl, rfl, rfl, rfl⟩
    · intro h'
      exact absurd h h'
  · refine ⟨?_, ?_, ?_, ?_⟩
    · simp [operatorMul, h]
    · simp [operatorMul, h]
    · intro h'
      exact absurd h' h
    · intro _ colA elemB
      simp [operatorMul, h]

theorem operatorMul_spec_witness :
    ((∃ msg, operatorMul exampleLeft (identity (R := Int) 2) = .error (.invalidArgument msg)) ↔
        exampleLeft.columns ≠ (identity (R := Int) 2).rows) ∧
      exampleLeft.columns ≠ (identity (R := Int) 2).rows :=
  ⟨(operatorMul_spec exampleLeft (identity 2)).1, by decide⟩

/-! ## Mirrored targets -/

/-- After the mirroring loop of a square product declared symmetric or
Hermitian, every off-diagonal entry is the (conjugated) transposed entry. -/
theorem mirror_relation [CommRing R] [StarRing R] (f : DeclFlags) (A : CompressedMatrix R)
    (B : DenseMatrix R) (X : DenseMatrix R) (hf : f.SYM = true ∨ f.HERM = true)
    (hsq : A.rows = B.columns) (i j : Nat) (hi : i < A.rows) (hj : j < A.rows) (hij : i ≠ j) :
    (mirror f A B X).elem i j =
      if f.HERM then conj ((mirror f A B X).elem j i) else (mirror f A B X).elem j i := by
  have hor : (f.SYM || f.HERM) = true := by
    rcases hf with h | h <;> simp [h]
  rw [mirror_elem f A B X i j, mirror_elem f A B X j i]
  rcases Nat.lt_or_gt_of_ne hij with hlt | hgt
  · have h1 : ¬ ((f.SYM || f.HERM) = true ∧ j < B.columns ∧ j < i ∧ i < A.rows) := by omega
    have h2 : (f.SYM || f.HERM) = true ∧ i < B.columns ∧ i < j ∧ j < A.rows :=
      ⟨hor, by omega, hlt, hj⟩
    rw [if_neg h1, if_pos h2]
    cases hH : f.HERM
    · simp
    · simp [conj]
  · have h1 : (f.SYM || f.HERM) = true ∧ j < B.columns ∧ j < i ∧ i < A.rows :=
      ⟨hor, by omega, hgt, hi⟩
    have h2 : ¬ ((f.SYM || f.HERM) = true ∧ i < B.columns ∧ i < j ∧ j < A.rows) := by omega
    rw [if_pos h1, if_neg h2]

/-- C5: for a square product declared symmetric (kernel flag `SYM`) or Hermitian
(`HERM`) and for all operand values, the targets left by
`selectDefaultAssignKernel` and by the optimized `selectSmallAssignKernel`
satisfy `C(i,j) = C(j,i)`, respectively `C(i,j) = conj(C(j,i))`, for all
`i != j`. -/
theorem kernels_mirrored [CommRing R] [DecidableEq R] [StarRing R]
    (f : DeclFlags) (t : StructFlags) (rowMajor : Bool)
    (A : CompressedMatrix R) (B : DenseMatrix R) (C : DenseMatrix R)
    (hf : f.SYM = true ∨ f.HERM = true) (hsq : A.rows = B.columns)
    (i j : Nat) (hi : i < A.rows) (hj : j < A.rows) (hij : i ≠ j) :
    (selectDefaultAssignKernel f t C A B).elem i j =
        (if f.HERM then conj ((selectDefaultAssignKernel f t C A B).elem j i)
          else (selectDefaultAssignKernel f t C A B).elem j i) ∧
      (selectSmallAssignKernelOptimized f t rowMajor C A B).elem i j =
        (if f.HERM then conj ((selectSmallAssignKernelOptimized f t rowMajor C A B).elem j i)
          else (selectSmallAssignKernelOptimized f t rowMajor C A B).elem j i) :=
  ⟨mirror_relation f A B _ hf hsq i j hi hj hij, mirror_relation f A B _ hf hsq i j hi hj hij⟩

theorem kernels_mirrored_witness :
    (DeclFlags.symmetric.SYM = true ∨ DeclFlags.symmetric.HERM = true) ∧
      ((selectDefaultAssignKernel DeclFlags.symmetric StructFlags.none (filled 4 4 7) tallA
            wideB).elem 3 2 =
          (if DeclFlags.symmetric.HERM then
            conj ((selectDefaultAssignKernel DeclFlags.symmetric StructFlags.none (filled 4 4 7)
              tallA wideB).elem 2 3)
          else (selectDefaultAssignKernel DeclFlags.symmetric StructFlags.none (filled 4 4 7)
              tallA wideB).elem 2 3) ∧
        (selectSmallAssignKernelOptimized DeclFlags.symmetric StructFlags.none false
            (filled 4 4 7) tallA wideB).elem 3 2 =
          (if DeclFlags.symmetric.HERM then
            conj ((selectSmallAssignKernelOptimized DeclFlags.symmetric StructFlags.none false
              (filled 4 4 7) tallA wideB).elem 2 3)
          else (selectSmallAssignKernelOptimized DeclFlags.symmetric StructFlags.none false
              (filled 4 4 7) tallA wideB).elem 2 3)) :=
  ⟨Or.inl rfl,
    kernels_mirrored DeclFlags.symmetric StructFlags.none false tallA wideB (filled 4 4 7)
      (Or.inl rfl) rfl 3 2 (by decide) (by decide) (by decide)⟩

/-! ## Operands with static structure -/

/-- Outside the columns admitted by its static structure flags a row of `B` is
zero. -/
theorem structBand_false_zero [CommRing R] (t : StructFlags) (B : DenseMatrix R)
    (ht : t.Holds B) (i c : Nat) (hi : i < B.rows) (hc : c < B.columns)
    (hband : structBand t i c = false) : B.elem i c = 0 := by
  obtain ⟨_, hU, hL, hSU, hSL⟩ := ht
  unfold structBand at hband
  rcases Bool.and_eq_false_iff.1 hband with h | h
  · have hu : t.isUpper = true := by
      cases hu : t.isUpper <;> simp [hu] at h ⊢
    cases hsu : t.isStrictlyUpper
    · simp [hu, hsu] at h
      exact hU hu i c hi hc h
    · simp [hu, hsu] at h
      exact hSU hsu i c hi hc (by omega)
  · have hl : t.isLower = true := by
      cases hl : t.isLower <;> simp [hl] at h ⊢
    cases hsl : t.isStrictlyLower
    · simp [hl, hsl] at h
      exact hL hl i c hi hc (by omega)
    · simp [hl, hsl] at h
      exact hSL hsl i c hi hc h

/-- For an operand that has the structure its flags assert, the clipping by the
static structure only drops zero products. -/
theorem structSum_eq [CommRing R] (t : StructFlags) (B : DenseMatrix R) (ht : t.Holds B)
    (i r c : Nat) (hi : i < B.rows) (hc : c < B.columns) (es : List (Element R)) :
    structSum t B i r c es =
      (es.map (fun e => if e.index = r then e.value * B.elem i c else 0)).sum := by
  unfold structSum
  congr 1
  apply List.map_congr_left
  intro e _
  cases hb : structBand t i c
  · have hz := structBand_false_zero t B ht i c hi hc hb
    simp [hz]
  · simp

theorem sum_structSum_eq_naiveProduct [CommRing R] (t : StructFlags) (A : CompressedMatrix R)
    (B : DenseMatrix R) (hA : A.WF) (ht : t.Holds B) (hconf : A.columns = B.rows)
    (r c : Nat) (hc : c < B.columns) :
    Finset.sum (Finset.range A.columns) (fun i => structSum t B i r c (A.col i)) =
      naiveProduct A B r c := by
  rw [← sum_columns_eq_naiveProduct A B hA r c]
  apply Finset.sum_congr rfl
  intro i hi
  exact structSum_eq t B ht i r c (by rw [← hconf]; exact Finset.mem_range.1 hi) hc (A.col i)

/-- The element found by element access is stored in the column. -/
theorem at_eq_zero_of_not_mem [Zero R] (A : CompressedMatrix R) (r c : Nat)
    (h : ¬ ∃ e ∈ A.col c, e.index = r) : A.at r c = 0 := by
  unfold CompressedMatrix.at
  have : (A.col c).find? (fun e => e.index == r) = none := by
    rw [List.find?_eq_none]
    intro e he hb
    exact h ⟨e, he, by simpa using hb⟩
  rw [this]

theorem foldl_set_elem [CommRing R] (bound i : Nat) (b : R) :
    ∀ (es : List (Element R)) (X : DenseMatrix R) (r c : Nat), sortedBelow bound es →
      (es.foldl (fun C element => C.set element.index i (element.value * b)) X).elem r c =
        if c = i ∧ ∃ e ∈ es, e.index = r then
          (match es.find? (fun e => e.index == r) with
            | some e => e.value
            | none => 0) * b
        else X.elem r c
  | [], X, r, c, _ => by simp
  | e :: es, X, r, c, hs => by
    have ih := foldl_set_elem bound i b es (X.set e.index i (e.value * b)) r c
      (sortedBelow_tail bound e es hs)
    have hlt := sortedBelow_head_lt bound e es hs
    simp only [List.foldl_cons]
    rw [ih, DenseMatrix.set_elem]
    by_cases he : e.index = r
    · have hnone : ¬ ∃ e' ∈ es, e'.index = r := by
        rintro ⟨e', he', hr⟩
        have := hlt e' he'
        omega
      have hb : (e.index == r) = true := by simpa using he
      by_cases hc : c = i
      · have hex : ∃ e' ∈ e :: es, e'.index = r := ⟨e, List.mem_cons_self _ _, he⟩
        rw [if_neg (fun h => hnone h.2), if_pos ⟨he.symm, hc⟩, if_pos ⟨hc, hex⟩,
          List.find?_cons, hb]
      · rw [if_neg (fun h => hc h.1), if_neg (fun h => hc h.2), if_neg (fun h => hc h.1)]
    · have hb : (e.index == r) = false := by simpa using he
      have hiff : (∃ e' ∈ e :: es, e'.index = r) ↔ ∃ e' ∈ es, e'.index = r := by
        constructor
        · rintro ⟨e', he', hr⟩
          rcases List.mem_cons.1 he' with rfl | hm
          · exact absurd hr he
          · exact ⟨e', hm, hr⟩
        · rintro ⟨e', he', hr⟩
          exact ⟨e', List.mem_cons_of_mem _ he', hr⟩
      have hset : (if r = e.index ∧ c = i then e.value * b else X.elem r c) = X.elem r c :=
        if_neg (fun h => he h.1.symm)
      rw [hset, List.find?_cons, hb]
      simp only [hiff]

/-- Entry-wise description of the diagonal branch of the default kernel. -/
theorem defaultDiagonalLoop_elem [CommRing R] (A : CompressedMatrix R) (B : DenseMatrix R)
    (hA : A.WF) (X : DenseMatrix R) (r c : Nat) :
    (defaultDiagonalLoop A B X).elem r c =
      if c < A.columns ∧ ∃ e ∈ A.col c, e.index = r then A.at r c * B.elem c c
      else X.elem r c := by
  unfold defaultDiagonalLoop
  have key := forLoop_one_invariant
    (fun i (C' : DenseMatrix R) => ∀ r c, C'.elem r c =
      if c < i ∧ ∃ e ∈ A.col c, e.index = r then A.at r c * B.elem c c else X.elem r c)
    0 A.columns
    (fun i C => (A.col i).foldl (fun C element =>
      C.set element.index i (element.value * B.elem i i)) C) X (Nat.zero_le _)
    (by
      intro r c
      have h' : ¬ (c < 0 ∧ ∃ e ∈ A.col c, e.index = r) := by omega
      rw [if_neg h'])
    (by
      intro i s _ hi hI r c
      simp only
      rw [foldl_set_elem A.rows i (B.elem i i) (A.col i) s r c (hA i hi), hI r c]
      by_cases hc : c = i
      · subst hc
        by_cases hex : ∃ e ∈ A.col c, e.index = r
        · rw [if_pos ⟨rfl, hex⟩, if_pos ⟨by omega, hex⟩]
          rfl
        · rw [if_neg (fun h => hex h.2), if_neg (fun h => hex h.2), if_neg (fun h => hex h.2)]
      · have h3 : (c < i ∧ ∃ e ∈ A.col c, e.index = r) ↔
            (c < i + 1 ∧ ∃ e ∈ A.col c, e.index = r) := by
          constructor
          · rintro ⟨a, b⟩; exact ⟨by omega, b⟩
          · rintro ⟨a, b⟩; exact ⟨by omega, b⟩
        rw [if_neg (fun h => hc h.1)]
        simp only [h3])
  exact key r c

/-- With a right operand that really is diagonal, the diagonal branch of the
default kernel leaves the naive product. -/
theorem defaultDiagonalLoop_reset_elem [CommRing R] (t : StructFlags) (A : CompressedMatrix R)
    (B : DenseMatrix R) (C : DenseMatrix R) (hA : A.WF) (hd : t.isDiagonal = true)
    (ht : t.Holds B) (hconf : A.columns = B.rows) (hrows : C.rows = A.rows)
    (hcols : C.columns = B.columns) (r c : Nat) (hr : r < A.rows) (hc : c < B.columns) :
    (defaultDiagonalLoop A B (reset C)).elem r c = naiveProduct A B r c := by
  rw [defaultDiagonalLoop_elem A B hA]
  have hreset : (reset C).elem r c = 0 := by
    simp [reset, hrows, hcols, hr, hc]
  have hzero : ∀ l, l ∈ Finset.range A.columns → l ≠ c → A.at r l * B.elem l c = 0 := by
    intro l hl hne
    rw [ht.1 hd l c (by rw [← hconf]; exact Finset.mem_range.1 hl) hc hne, mul_zero]
  unfold naiveProduct
  by_cases hck : c < A.columns
  · rw [Finset.sum_eq_single c (fun l hl hne => hzero l hl hne)
      (fun h => absurd (Finset.mem_range.2 hck) h)]
    by_cases hex : ∃ e ∈ A.col c, e.index = r
    · rw [if_pos ⟨hck, hex⟩]
    · rw [if_neg (fun h => hex h.2), hreset, at_eq_zero_of_not_mem A r c hex, zero_mul]
  · rw [if_neg (fun h => hck h.1), hreset]
    symm
    apply Finset.sum_eq_zero
    intro l hl
    exact hzero l hl (by have := Finset.mem_range.1 hl; omega)

/-! ## Products declared symmetric -/

theorem declBand_SYM (f : DeclFlags) (hf : f.SYM = true) (i1 i4 c : Nat) :
    declBand f i1 i4 c = decide (i1 ≤ c) := by
  rcases f with ⟨sf, hf', lf, uf⟩
  simp only [DeclFlags.SYM, Bool.and_eq_true, Bool.not_eq_true', Bool.or_eq_false_iff] at hf
  obtain ⟨rfl, ⟨rfl, rfl⟩, rfl⟩ := hf
  simp [declBand, DeclFlags.SYM, DeclFlags.HERM, DeclFlags.UPP, DeclFlags.LOW]

theorem HERM_of_SYM (f : DeclFlags) (hf : f.SYM = true) : f.HERM = false := by
  rcases f with ⟨sf, hf', lf, uf⟩
  simp only [DeclFlags.SYM, Bool.and_eq_true, Bool.not_eq_true', Bool.or_eq_false_iff] at hf
  obtain ⟨rfl, ⟨rfl, rfl⟩, rfl⟩ := hf
  rfl

/-- Before the mirroring loop of a product declared symmetric, both kernels hold
the naive product in every entry on or above the diagonal. -/
theorem symmetric_upper_elem [CommRing R] [DecidableEq R] (f : DeclFlags) (t : StructFlags)
    (rowMajor : Bool) (A : CompressedMatrix R) (B : DenseMatrix R) (C : DenseMatrix R)
    (hf : f.SYM = true) (hA : A.WF) (ht : t.Holds B) (hconf : A.columns = B.rows)
    (hrows : C.rows = A.rows) (hcols : C.columns = B.columns)
    (r c : Nat) (hrc : r ≤ c) (hr : r < A.rows) (hc : c < B.columns) :
    (if t.isDiagonal then defaultDiagonalLoop A B (reset C)
        else defaultBlockedLoop f t A B (reset C)).elem r c = naiveProduct A B r c ∧
      (smallBlockedLoop f t rowMajor A B C).elem r c = naiveProduct A B r c := by
  constructor
  · cases hd : t.isDiagonal
    · simp only [Bool.false_eq_true, if_false]
      rw [defaultBlockedLoop_reset_elem f t A B C hrows hcols r c
        (by rw [declBand_SYM f hf]; simpa using hrc), if_pos hc, if_pos hr, zero_add]
      exact sum_structSum_eq_naiveProduct t A B hA ht hconf r c hc
    · simp only [if_true]
      exact defaultDiagonalLoop_reset_elem t A B C hA hd ht hconf hrows hcols r c hr hc
  · rw [smallBlockedLoop_struct_elem f t rowMajor A B C hA r c
      (fun i1 i4 h1 _ => by rw [declBand_SYM f hf]; simpa using le_trans h1 hrc),
      if_pos hc, if_pos hr, zero_add]
    exact sum_structSum_eq_naiveProduct t A B hA ht hconf r c hc

/-- With a symmetric naive product, mirroring a target whose entries on and
above the diagonal hold the naive product gives the naive product everywhere. -/
theorem mirror_symmetric_elem [CommRing R] [Star R] (f : DeclFlags) (A : CompressedMatrix R)
    (B : DenseMatrix R) (X : DenseMatrix R) (hf : f.SYM = true) (hsq : A.rows = B.columns)
    (hX : ∀ r c, r ≤ c → r < A.rows → c < B.columns → X.elem r c = naiveProduct A B r c)
    (hsym : ∀ i j, i < A.rows → j < A.rows → naiveProduct A B i j = naiveProduct A B j i)
    (r c : Nat) (hr : r < A.rows) (hc : c < A.rows) :
    (mirror f A B X).elem r c = naiveProduct A B r c := by
  rw [mirror_elem, HERM_of_SYM f hf]
  by_cases hlt : c < r
  · have h1 : (f.SYM || false) = true ∧ c < B.columns ∧ c < r ∧ r < A.rows :=
      ⟨by simp [hf], by omega, hlt, hr⟩
    rw [if_pos h1]
    simp only [Bool.false_eq_true, if_false]
    rw [hX c r (by omega) hc (by omega)]
    exact hsym c r hc hr
  · rw [if_neg (fun h => hlt h.2.2.1)]
    exact hX r c (by omega) hr (by omega)

/-- C6: for a square product declared symmetric whose naive product `A*B` is in
fact symmetric, `selectDefaultAssignKernel` and the optimized
`selectSmallAssignKernel` leave the naive product in every entry of the target:
before the mirroring loop every entry `C(i,j)` with `j >= i` holds the full sum,
and the mirroring then fills the strictly lower triangle. -/
theorem symmetric_product_kernels [CommRing R] [DecidableEq R] [Star R]
    (f : DeclFlags) (t : StructFlags) (rowMajor : Bool)
    (A : CompressedMatrix R) (B : DenseMatrix R) (C : DenseMatrix R)
    (hf : f.SYM = true) (hA : A.WF) (ht : t.Holds B) (hconf : A.columns = B.rows)
    (hsq : A.rows = B.columns) (hrows : C.rows = A.rows) (hcols : C.columns = B.columns)
    (hsym : ∀ i j, i < A.rows → j < A.rows → naiveProduct A B i j = naiveProduct A B j i) :
    (∀ i j, i ≤ j → j < A.rows →
      (if t.isDiagonal then defaultDiagonalLoop A B (reset C)
          else defaultBlockedLoop f t A B (reset C)).elem i j = naiveProduct A B i j ∧
        (smallBlockedLoop f t rowMajor A B C).elem i j = naiveProduct A B i j) ∧
    (∀ i j, i < A.rows → j < A.rows →
      (selectDefaultAssignKernel f t C A B).elem i j = naiveProduct A B i j ∧
        (selectSmallAssignKernelOptimized f t rowMajor C A B).elem i j =
          naiveProduct A B i j) := by
  have hup := fun r c (hrc : r ≤ c) (hr : r < A.rows) (hc : c < B.columns) =>
    symmetric_upper_elem f t rowMajor A B C hf hA ht hconf hrows hcols r c hrc hr hc
  constructor
  · intro i j hij hj
    exact hup i j hij (by omega) (by omega)
  · intro i j hi hj
    constructor
    · exact mirror_symmetric_elem f A B _ hf hsq (fun r c hrc hr hc => (hup r c hrc hr hc).1)
        hsym i j hi hj
    · exact mirror_symmetric_elem f A B _ hf hsq (fun r c hrc hr hc => (hup r c hrc hr hc).2)
        hsym i j hi hj

theorem exampleSym_WF : exampleSym.WF := by
  intro i hi
  have hi' : i < 2 := hi
  interval_cases i <;> simp [exampleSym, sortedBelow]

theorem holds_none [Zero R] (B : DenseMatrix R) : StructFlags.none.Holds B := by
  simp [StructFlags.Holds, StructFlags.none]

theorem symmetric_product_kernels_witness :
    (DeclFlags.symmetric.SYM = true ∧ exampleSym.WF) ∧
      ((selectDefaultAssignKernel DeclFlags.symmetric StructFlags.none (filled 2 2 5)
          exampleSym (identity 2)).elem 1 0 = naiveProduct exampleSym (identity 2) 1 0 ∧
        (selectSmallAssignKernelOptimized DeclFlags.symmetric StructFlags.none true
          (filled 2 2 5) exampleSym (identity 2)).elem 1 0 =
            naiveProduct exampleSym (identity 2) 1 0) :=
  ⟨⟨rfl, exampleSym_WF⟩,
    (symmetric_product_kernels DeclFlags.symmetric StructFlags.none true exampleSym
      (identity 2) (filled 2 2 5) rfl exampleSym_WF (holds_none _) rfl rfl rfl rfl
      (by
        intro i j hi hj
        have hi' : i < 2 := hi
        have hj' : j < 2 := hj
        interval_cases i <;> interval_cases j <;> decide)).2 1 0 (by decide) (by decide)⟩

/-! ## Products declared upper: the unrolled loop outside the triangle -/

/-- C7, evaluated at a failing input: the 4×2 matrix `tallA` and the 2×4 matrix
`wideB` have an upper triangular naive product, whose entry `(3,2)` is zero.
Declared upper, `selectDefaultAssignKernel` leaves zero in the entry `(3,2)`,
whereas the optimized `selectSmallAssignKernel` leaves the partial sum
`A(3,0) * B(0,2) = 1` there. -/
theorem upper_small_kernel_partial_sum :
    (∀ i < 4, ∀ j < 4, j < i → naiveProduct tallA wideB i j = 0) ∧
      naiveProduct tallA wideB 3 2 = 0 ∧
      (selectDefaultAssignKernel DeclFlags.upper StructFlags.none (filled 4 4 0) tallA
        wideB).elem 3 2 = 0 ∧
      (selectSmallAssignKernelOptimized DeclFlags.upper StructFlags.none false (filled 4 4 0)
        tallA wideB).elem 3 2 = 1 := by
  decide

/-- The same defect for a product declared lower: the naive product of `tallLow`
and `wideLow` is lower triangular with entry `(0,1)` zero; the default kernel
leaves zero there, the optimized small kernel the partial sum
`A(0,0) * B(0,1) = 1`. -/
theorem lower_small_kernel_partial_sum :
    (∀ i < 4, ∀ j < 4, i < j → naiveProduct tallLow wideLow i j = 0) ∧
      (selectDefaultAssignKernel DeclFlags.lower StructFlags.none (filled 4 4 0) tallLow
        wideLow).elem 0 1 = 0 ∧
      (selectSmallAssignKernelOptimized DeclFlags.lower StructFlags.none false (filled 4 4 0)
        tallLow wideLow).elem 0 1 = 1 := by
  decide

theorem bandSum_zero_of_declBand_false [CommRing R] (f : DeclFlags) (t : StructFlags)
    (B : DenseMatrix R) (i r c : Nat) (hdecl : declBand f r r c = false)
    (es : List (Element R)) : (es.map (bandTerm f t B i r c)).sum = 0 := by
  apply sum_map_eq_zero
  intro e _
  unfold bandTerm
  by_cases he : e.index = r
  · subst he
    simp [hdecl]
  · simp [he]

/-- The sibling path: for a product that is declared neither symmetric nor
Hermitian and whose naive product vanishes wherever the declared structure
excludes an entry (a product declared upper or lower that really is so), the
default kernel leaves the naive product in every entry. -/
theorem default_kernel_declared_structure [CommRing R] [DecidableEq R] [Star R]
    (f : DeclFlags) (t : StructFlags) (A : CompressedMatrix R) (B : DenseMatrix R)
    (C : DenseMatrix R) (hf : (f.SYM || f.HERM) = false) (hA : A.WF) (ht : t.Holds B)
    (hconf : A.columns = B.rows) (hrows : C.rows = A.rows) (hcols : C.columns = B.columns)
    (hout : ∀ r c, r < A.rows → c < B.columns → declBand f r r c = false →
      naiveProduct A B r c = 0)
    (r c : Nat) (hr : r < A.rows) (hc : c < B.columns) :
    (selectDefaultAssignKernel f t C A B).elem r c = naiveProduct A B r c := by
  unfold selectDefaultAssignKernel
  rw [mirror_elem, hf]
  simp only [Bool.false_eq_true, false_and, if_false]
  cases hd : t.isDiagonal
  · simp only [Bool.false_eq_true, if_false]
    cases hb : declBand f r r c
    · rw [defaultBlockedLoop_elem, if_pos hc, hout r c hr hc hb]
      have hreset : (reset C).elem r c = 0 := by
        simp [reset, hrows, hcols, hr, hc]
      rw [hreset, zero_add]
      apply Finset.sum_eq_zero
      intro i _
      exact bandSum_zero_of_declBand_false f t B i r c hb (A.col i)
    · rw [defaultBlockedLoop_reset_elem f t A B C hrows hcols r c hb, if_pos hc, if_pos hr,
        zero_add]
      exact sum_structSum_eq_naiveProduct t A B hA ht hconf r c hc
  · simp only [if_true]
    exact defaultDiagonalLoop_reset_elem t A B C hA hd ht hconf hrows hcols r c hr hc

/-- Inside the declared structure the optimized small kernel is right as well:
an entry that every window enclosing its row admits holds the naive product. -/
theorem small_kernel_declared_structure [CommRing R] [Star R]
    (f : DeclFlags) (t : StructFlags) (rowMajor : Bool) (A : CompressedMatrix R)
    (B : DenseMatrix R) (C : DenseMatrix R) (hf : (f.SYM || f.HERM) = false) (hA : A.WF)
    (ht : t.Holds B) (hconf : A.columns = B.rows)
    (r c : Nat) (hr : r < A.rows) (hc : c < B.columns)
    (hin : ∀ i1 i4, i1 ≤ r → r ≤ i4 → declBand f i1 i4 c = true) :
    (selectSmallAssignKernelOptimized f t rowMajor C A B).elem r c = naiveProduct A B r c := by
  unfold selectSmallAssignKernelOptimized
  rw [mirror_elem, hf]
  simp only [Bool.false_eq_true, false_and, if_false]
  rw [smallBlockedLoop_struct_elem f t rowMajor A B C hA r c hin, if_pos hc, if_pos hr,
    zero_add]
  exact sum_structSum_eq_naiveProduct t A B hA ht hconf r c hc

theorem declBand_upper (i1 i4 c : Nat) : declBand DeclFlags.upper i1 i4 c = decide (i1 ≤ c) := by
  simp [declBand, DeclFlags.upper, DeclFlags.SYM, DeclFlags.HERM, DeclFlags.UPP, DeclFlags.LOW]

theorem declBand_lower (i1 i4 c : Nat) :
    declBand DeclFlags.lower i1 i4 c = decide (c < i4 + 1) := by
  simp [declBand, DeclFlags.lower, DeclFlags.SYM, DeclFlags.HERM, DeclFlags.UPP, DeclFlags.LOW]

/-- A product declared upper that really is upper: the default kernel leaves the
naive product everywhere, the optimized small kernel on and above the
diagonal. -/
theorem upper_product_kernels [CommRing R] [DecidableEq R] [Star R]
    (t : StructFlags) (rowMajor : Bool) (A : CompressedMatrix R) (B : DenseMatrix R)
    (C : DenseMatrix R) (hA : A.WF) (ht : t.Holds B) (hconf : A.columns = B.rows)
    (hrows : C.rows = A.rows) (hcols : C.columns = B.columns)
    (hupper : ∀ r c, r < A.rows → c < B.columns → c < r → naiveProduct A B r c = 0)
    (r c : Nat) (hr : r < A.rows) (hc : c < B.columns) :
    (selectDefaultAssignKernel DeclFlags.upper t C A B).elem r c = naiveProduct A B r c ∧
      (r ≤ c → (selectSmallAssignKernelOptimized DeclFlags.upper t rowMajor C A B).elem r c =
        naiveProduct A B r c) := by
  constructor
  · apply default_kernel_declared_structure DeclFlags.upper t A B C rfl hA ht hconf hrows
      hcols _ r c hr hc
    intro r c hr hc hb
    rw [declBand_upper] at hb
    exact hupper r c hr hc (by simpa using hb)
  · intro hrc
    apply small_kernel_declared_structure DeclFlags.upper t rowMajor A B C rfl hA ht hconf
      r c hr hc
    intro i1 i4 h1 _
    rw [declBand_upper]
    simpa using le_trans h1 hrc

/-- A product declared lower that really is lower: the default kernel leaves the
naive product everywhere, the optimized small kernel on and below the
diagonal. -/
theorem lower_product_kernels [CommRing R] [DecidableEq R] [Star R]
    (t : StructFlags) (rowMajor : Bool) (A : CompressedMatrix R) (B : DenseMatrix R)
    (C : DenseMatrix R) (hA : A.WF) (ht : t.Holds B) (hconf : A.columns = B.rows)
    (hrows : C.rows = A.rows) (hcols : C.columns = B.columns)
    (hlower : ∀ r c, r < A.rows → c < B.columns → r < c → naiveProduct A B r c = 0)
    (r c : Nat) (hr : r < A.rows) (hc : c < B.columns) :
    (selectDefaultAssignKernel DeclFlags.lower t C A B).elem r c = naiveProduct A B r c ∧
      (c ≤ r → (selectSmallAssignKernelOptimized DeclFlags.lower t rowMajor C A B).elem r c =
        naiveProduct A B r c) := by
  constructor
  · apply default_kernel_declared_structure DeclFlags.lower t A B C rfl hA ht hconf hrows
      hcols _ r c hr hc
    intro r c hr hc hb
    rw [declBand_lower] at hb
    exact hlower r c hr hc (by simp at hb; omega)
  · intro hrc
    apply small_kernel_declared_structure DeclFlags.lower t rowMajor A B C rfl hA ht hconf
      r c hr hc
    intro i1 i4 _ h4
    rw [declBand_lower]
    simp
    omega

/-! ## Restructuring assignment -/

/-- C8: for conformant operands of which at least one is symmetric, the product
that the restructuring `assign` forwards to has the shape and, entry by entry,
the value of the direct product: `trans(A)*trans(B)` when both are symmetric,
`trans(A)*B` when `A` is symmetric, `A*trans(B)` when only `B` is. -/
theorem restructure_value [CommRing R] (symmetricLeft symmetricRight : Bool)
    (e : TSMatTDMatMultExpr R) (hconf : e.lhs.columns = e.rhs.rows)
    (hcan : symmetricLeft = true ∨ symmetricRight = true)
    (hl : symmetricLeft = true → IsSymmetricMatrix e.lhs.toDense)
    (hr : symmetricRight = true → IsSymmetricMatrix e.rhs) :
    (restructure symmetricLeft symmetricRight e).1.rows = e.rows ∧
    (restructure symmetricLeft symmetricRight e).2.columns = e.columns ∧
    (restructure symmetricLeft symmetricRight e).1.columns =
      (restructure symmetricLeft symmetricRight e).2.rows ∧
    ∀ i j, i < e.rows → j < e.columns →
      productValue (restructure symmetricLeft symmetricRight e).1
          (restructure symmetricLeft symmetricRight e).2 i j =
        productValue e.lhs.toDense e.rhs i j := by
  unfold TSMatTDMatMultExpr.rows TSMatTDMatMultExpr.columns
  cases symmetricLeft <;> cases symmetricRight
  · simp at hcan
  · obtain ⟨hsq, hsymm⟩ := hr rfl
    refine ⟨rfl, by simp [restructure, trans, hsq], by simp [restructure, trans, hsq,
      CompressedMatrix.toDense, hconf], ?_⟩
    intro i j _ hj
    simp only [restructure, productValue, trans, CompressedMatrix.toDense, Bool.false_and,
      Bool.false_eq_true, if_false]
    apply Finset.sum_congr rfl
    intro l hl'
    have hlk : l < e.rhs.rows := by rw [← hconf]; exact Finset.mem_range.1 hl'
    rw [hsymm j l (by omega) hlk]
  · obtain ⟨hsq, hsymm⟩ := hl rfl
    simp only [CompressedMatrix.toDense] at hsq hsymm
    refine ⟨by simp [restructure, trans, CompressedMatrix.toDense, hsq],
      rfl, by simp [restructure, trans, CompressedMatrix.toDense, hsq, hconf], ?_⟩
    intro i j hi _
    simp only [restructure, productValue, trans, CompressedMatrix.toDense, Bool.and_false,
      Bool.false_eq_true, if_false, if_true]
    rw [hsq]
    apply Finset.sum_congr rfl
    intro l hl'
    have hlk : l < e.lhs.rows := by rw [hsq]; exact Finset.mem_range.1 hl'
    rw [hsymm l i hlk hi]
  · obtain ⟨hsq, hsymm⟩ := hl rfl
    obtain ⟨hsq', hsymm'⟩ := hr rfl
    simp only [CompressedMatrix.toDense] at hsq hsymm
    refine ⟨by simp [restructure, trans, CompressedMatrix.toDense, hsq, hconf, hsq'],
      by simp [restructure, trans, hsq', hconf, hsq],
      by simp [restructure, trans, CompressedMatrix.toDense, hsq, hconf, hsq'], ?_⟩
    intro i j hi hj
    simp only [restructure, productValue, trans, CompressedMatrix.toDense, Bool.and_self,
      if_true]
    rw [hsq]
    apply Finset.sum_congr rfl
    intro l hl'
    have hlk : l < e.lhs.rows := by rw [hsq]; exact Finset.mem_range.1 hl'
    rw [hsymm l i hlk hi, hsymm' j l (by omega) (by omega)]

theorem exampleSym_symmetric : IsSymmetricMatrix exampleSym.toDense := by
  refine ⟨rfl, ?_⟩
  intro i j hi hj
  have hi' : i < 2 := hi
  have hj' : j < 2 := hj
  interval_cases i <;> interval_cases j <;> rfl

theorem restructure_value_witness :
    IsSymmetricMatrix exampleSym.toDense ∧
      productValue
          (restructure true false ⟨exampleSym, filled 2 2 3, DeclFlags.none⟩).1
          (restructure true false ⟨exampleSym, filled 2 2 3, DeclFlags.none⟩).2 1 0 =
        productValue exampleSym.toDense (filled 2 2 3) 1 0 :=
  ⟨exampleSym_symmetric,
    (restructure_value true false ⟨exampleSym, filled 2 2 3, DeclFlags.none⟩ rfl (Or.inl rfl)
      (fun _ => exampleSym_symmetric) (fun h => absurd h (by decide))).2.2.2 1 0
      (by decide) (by decide)⟩

/-! ## Kernel selection -/

theorem enabledOverloads_length (k : KernelConfig) (t : StructFlags) :
    (enabledOverloads k t).length = 1 := by
  unfold enabledOverloads UseDefaultKernel
  cases UseOptimizedKernel k t <;> rfl

/-- C9: `selectAssignKernel` is a total two-way choice: with `size` the element
count `C.rows() * C.columns()` of the target, the small kernel is chosen if and
only if the target is row-major and `size < TSMATTDMATMULT_THRESHOLD`, or it is
column-major and `size < 625`; otherwise the large kernel is chosen.  Within
each choice exactly one of the default and the optimized overload is enabled
(`UseDefaultKernel = !UseOptimizedKernel`).  `selectAddAssignKernel` and
`selectSubAssignKernel` choose by the same rule.  For targets with fewer than
`2^64` elements the `size_t` product is the exact element count. -/
theorem selectAssignKernel_spec (k : KernelConfig) (SO : Bool) (C : DenseMatrix R) :
    (∀ (α : Type) (small large : α),
      selectAssignKernel k SO C small large =
        if (IsRowMajorMatrix SO = true ∧ targetSize C < k.TSMATTDMATMULT_THRESHOLD) ∨
            (IsColumnMajorMatrix SO = true ∧ targetSize C < 625) then small else large) ∧
    (selectAssignKernel k SO C KernelSize.small KernelSize.large = KernelSize.small ↔
      ((IsRowMajorMatrix SO = true ∧ targetSize C < k.TSMATTDMATMULT_THRESHOLD) ∨
        (IsColumnMajorMatrix SO = true ∧ targetSize C < 625))) ∧
    (selectAssignKernel k SO C KernelSize.small KernelSize.large = KernelSize.large ↔
      ¬ ((IsRowMajorMatrix SO = true ∧ targetSize C < k.TSMATTDMATMULT_THRESHOLD) ∨
        (IsColumnMajorMatrix SO = true ∧ targetSize C < 625))) ∧
    (∀ (α : Type) (small large : α),
      selectAddAssignKernel k SO C small large = selectAssignKernel k SO C small large ∧
      selectSubAssignKernel k SO C small large = selectAssignKernel k SO C small large) ∧
    (∀ t : StructFlags, UseDefaultKernel k t = !UseOptimizedKernel k t) ∧
    (∀ t : StructFlags, (enabledOverloads k t).length = 1 ∧
      (enabledOverloads k t = [KernelVariant.optimized] ↔ UseOptimizedKernel k t = true) ∧
      (enabledOverloads k t = [KernelVariant.default] ↔ UseDefaultKernel k t = true)) ∧
    (C.rows * C.columns < 2 ^ 64 → targetSize C = C.rows * C.columns) := by
  have hgen : ∀ (α : Type) (small large : α),
      selectAssignKernel k SO C small large =
        if (IsRowMajorMatrix SO = true ∧ targetSize C < k.TSMATTDMATMULT_THRESHOLD) ∨
            (IsColumnMajorMatrix SO = true ∧ targetSize C < 625) then small else large := by
    intro α small large
    unfold selectAssignKernel
    simp only [Bool.or_eq_true, Bool.and_eq_true, decide_eq_true_eq]
  refine ⟨hgen, ?_, ?_, ?_, ?_, ?_, ?_⟩
  · rw [hgen]
    by_cases h : (IsRowMajorMatrix SO = true ∧ targetSize C < k.TSMATTDMATMULT_THRESHOLD) ∨
        (IsColumnMajorMatrix SO = true ∧ targetSize C < 625)
    · simp [h]
    · simp [h]
  · rw [hgen]
    by_cases h : (IsRowMajorMatrix SO = true ∧ targetSize C < k.TSMATTDMATMULT_THRESHOLD) ∨
        (IsColumnMajorMatrix SO = true ∧ targetSize C < 625)
    · simp [h]
    · simp [h]
  · intro α small large
    exact ⟨rfl, rfl⟩
  · intro t
    rfl
  · intro t
    refine ⟨enabledOverloads_length k t, ?_, ?_⟩
    · unfold enabledOverloads UseDefaultKernel
      cases UseOptimizedKernel k t <;> simp
    · unfold enabledOverloads UseDefaultKernel
      cases UseOptimizedKernel k t <;> simp
  · intro h
    exact Nat.mod_eq_of_lt h

theorem selectAssignKernel_spec_witness :
    (filled 3 3 (0 : Int)).rows * (filled 3 3 (0 : Int)).columns < 2 ^ 64 ∧
      targetSize (filled 3 3 (0 : Int)) =
        (filled 3 3 (0 : Int)).rows * (filled 3 3 (0 : Int)).columns :=
  ⟨by decide,
    (selectAssignKernel_spec exampleConfig true (filled 3 3 (0 : Int))).2.2.2.2.2.2
      (by decide)⟩

/-! ## Declaring a dense matrix symmetric -/

theorem declsym_backend_ok (dm : DenseOperand R) (h : isSquare dm = true) :
    ∃ res, declsym_backend dm = .ok res := by
  unfold declsym_backend internalAssert DMatDeclSymExpr.new
  simp only [h, if_true]
  cases dm.isSymmetric
  · cases dm.isUniTriangular
    · exact ⟨_, rfl⟩
    · exact ⟨_, rfl⟩
  · exact ⟨_, rfl⟩

/-- The two outcomes of `declsym`. -/
theorem declsym_cases : ∀ dm : DenseOperand R,
    (isSquare dm = false ∧
        declsym dm = .error (.invalidArgument "Invalid symmetric matrix specification")) ∨
      (isSquare dm = true ∧ ∃ res, declsym dm = .ok res)
  | .matrix M s u => by
    cases h : isSquare (DenseOperand.matrix M s u)
    · left
      exact ⟨rfl, by simp [declsym, h]⟩
    · right
      obtain ⟨res, hres⟩ := declsym_backend_ok _ h
      exact ⟨rfl, res, by simp [declsym, h, hres]⟩
  | .scalarMult l x s u => by
    have ih := declsym_cases l
    have hsq : isSquare (DenseOperand.scalarMult l x s u) = isSquare l := rfl
    cases h : isSquare (DenseOperand.scalarMult l x s u)
    · left
      refine ⟨rfl, ?_⟩
      cases hl : l.isSymmetric <;> simp [declsym, h, hl]
    · right
      refine ⟨rfl, ?_⟩
      cases hl : l.isSymmetric
      · rcases ih with ⟨h1, _⟩ | ⟨_, res, hres⟩
        · rw [← hsq, h] at h1
          cases h1
        · exact ⟨.scaled res x, by simp [declsym, h, hl, hres]⟩
      · obtain ⟨res, hres⟩ := declsym_backend_ok _ h
        exact ⟨res, by simp [declsym, h, hl, hres]⟩

/-- C10: `declsym( dm )` fails with an invalid-argument error if and only if
`dm` is not square, for every kind of operand (general, already symmetric,
uni-triangular, or a matrix-scalar multiplication); for a square operand it
returns a result.  The failure is the one raised by the check at the call: the
assertion of the backend and of the constructor of the wrapper node is never
reached with a non-square operand. -/
theorem declsym_spec (dm : DenseOperand R) :
    ((∃ msg, declsym dm = .error (.invalidArgument msg)) ↔ isSquare dm = false) ∧
    ((∃ err, declsym dm = .error err) ↔ isSquare dm = false) ∧
    ((∃ res, declsym dm = .ok res) ↔ isSquare dm = true) ∧
    (∀ msg, declsym dm ≠ .error (.assertion msg)) := by
  rcases declsym_cases dm with ⟨h1, h2⟩ | ⟨h1, res, h2⟩
  · refine ⟨?_, ?_, ?_, ?_⟩
    · simp [h1, h2]
    · simp [h1, h2]
    · simp [h1, h2]
    · intro msg
      simp [h2]
  · refine ⟨?_, ?_, ?_, ?_⟩
    · simp [h1, h2]
    · simp [h1, h2]
    · simp [h1, h2]
    · intro msg
      simp [h2]

theorem declsym_spec_witness :
    ((∃ msg, declsym exampleScaled = .error (.invalidArgument msg)) ↔
        isSquare exampleScaled = false) ∧
      isSquare exampleScaled = false ∧
      declsym exampleScaled =
        .error (.invalidArgument "Invalid symmetric matrix specification") :=
  ⟨(declsym_spec exampleScaled).1, rfl, rfl⟩

/-! ## The overloads of `declsym_backend` -/

/-- C11: for every square operand exactly one overload of `declsym_backend` is
enabled, decided by `IsSymmetric` and `IsUniTriangular` of the operand type: a
symmetric operand is returned itself (also when it is uni-triangular), a
uni-triangular operand that is not symmetric gives the identity matrix of size
`rows()` (1 on the diagonal, 0 elsewhere), any other operand is wrapped in a
`DMatDeclSymExpr`. -/
theorem declsym_backend_spec [Mul R] [Zero R] [One R] (dm : DenseOperand R)
    (hsq : isSquare dm = true) :
    (enabledBackendOverloads dm.isSymmetric dm.isUniTriangular).length = 1 ∧
    (dm.isSymmetric = true →
      enabledBackendOverloads dm.isSymmetric dm.isUniTriangular = [BackendOverload.forward] ∧
      declsym_backend dm = .ok (.operand dm)) ∧
    (dm.isSymmetric = false → dm.isUniTriangular = true →
      enabledBackendOverloads dm.isSymmetric dm.isUniTriangular = [BackendOverload.identity] ∧
      ∃ res, declsym_backend dm = .ok res ∧ res = .identityMatrix dm.rows ∧
        res.rows = dm.rows ∧ res.columns = dm.rows ∧
        ∀ i j, res.elem i j = if i = j then 1 else 0) ∧
    (dm.isSymmetric = false → dm.isUniTriangular = false →
      enabledBackendOverloads dm.isSymmetric dm.isUniTriangular = [BackendOverload.wrap] ∧
      declsym_backend dm = .ok (.wrapper ⟨dm⟩)) := by
  unfold declsym_backend internalAssert DMatDeclSymExpr.new enabledBackendOverloads
  simp only [hsq, if_true]
  refine ⟨?_, ?_, ?_, ?_⟩
  · cases dm.isSymmetric <;> cases dm.isUniTriangular <;> rfl
  · intro hs
    simp only [hs]
    exact ⟨rfl, rfl⟩
  · intro hs hu
    simp only [hs, hu]
    exact ⟨rfl, .identityMatrix dm.rows, rfl, rfl, rfl, rfl, fun _ _ => rfl⟩
  · intro hs hu
    simp only [hs, hu]
    exact ⟨rfl, rfl⟩

theorem declsym_backend_spec_witness :
    isSquare exampleUniLower = true ∧
      ∃ res, declsym_backend exampleUniLower = .ok res ∧
        res = .identityMatrix exampleUniLower.rows ∧
        res.rows = exampleUniLower.rows ∧ res.columns = exampleUniLower.rows ∧
        ∀ i j, res.elem i j = if i = j then 1 else 0 :=
  ⟨rfl, ((declsym_backend_spec exampleUniLower rfl).2.2.1 rfl rfl).2⟩

/-! ## Access through the declared-symmetry node -/

/-- Checked access of the wrapper node: the element of the operand inside the
bounds, an out-of-range error outside. -/
theorem declSym_at_cases [Mul R] (e : DMatDeclSymExpr R) (i j : Nat) :
    (i < e.dm.rows ∧ j < e.dm.columns ∧ e.at i j = .ok (e.dm.elem i j)) ∨
      ((i ≥ e.dm.rows ∨ j ≥ e.dm.columns) ∧ ∃ msg, e.at i j = .error (.outOfRange msg)) := by
  unfold DMatDeclSymExpr.at
  by_cases hi : i ≥ e.dm.rows
  · right
    exact ⟨Or.inl hi, _, by rw [if_pos hi]⟩
  · by_cases hj : j ≥ e.dm.columns
    · right
      exact ⟨Or.inr hj, _, by rw [if_neg hi, if_pos hj]⟩
    · left
      refine ⟨by omega, by omega, ?_⟩
      rw [if_neg hi, if_neg hj]
      have hi' : i < e.dm.rows := by omega
      have hj' : j < e.dm.columns := by omega
      simp [DMatDeclSymExpr.call, internalAssert, hi', hj']
      rfl

/-- C12: for a square operand `M` wrapped in a `DMatDeclSymExpr` node `E`:
`E.rows() = M.rows()`, `E.columns() = M.columns()`, so `E` is square;
`E(i,j) = M(i,j)` for all in-range `i`, `j`; `E.at(i,j)` returns `M(i,j)` when
`i < rows` and `j < columns` and fails with an out-of-range error exactly when
`i >= rows` or `j >= columns`. -/
theorem declSym_node_access [Mul R] (M : DenseOperand R) (hsq : isSquare M = true) :
    ∃ E, DMatDeclSymExpr.new M = .ok E ∧
      E.rows = M.rows ∧ E.columns = M.columns ∧ E.rows = E.columns ∧
      (∀ i j, i < M.rows → j < M.columns → E.call i j = .ok (M.elem i j)) ∧
      (∀ i j, i < M.rows → j < M.columns → E.at i j = .ok (M.elem i j)) ∧
      (∀ i j, (∃ msg, E.at i j = .error (.outOfRange msg)) ↔ (i ≥ M.rows ∨ j ≥ M.columns)) ∧
      (∀ i j, (∃ err, E.at i j = .error err) ↔ (i ≥ M.rows ∨ j ≥ M.columns)) := by
  have hcases : ∀ i j,
      (i < M.rows ∧ j < M.columns ∧
        (⟨M⟩ : DMatDeclSymExpr R).at i j = .ok (M.elem i j)) ∨
      ((i ≥ M.rows ∨ j ≥ M.columns) ∧
        ∃ msg, (⟨M⟩ : DMatDeclSymExpr R).at i j = .error (.outOfRange msg)) :=
    fun i j => declSym_at_cases ⟨M⟩ i j
  refine ⟨⟨M⟩, by simp [DMatDeclSymExpr.new, hsq], rfl, rfl, ?_, ?_, ?_, ?_, ?_⟩
  · simpa [isSquare] using hsq
  · intro i j hi hj
    simp [DMatDeclSymExpr.call, internalAssert, hi, hj]
    rfl
  · intro i j hi hj
    rcases hcases i j with ⟨_, _, h⟩ | ⟨h, _⟩
    · exact h
    · exact absurd h (by simp only [ge_iff_le]; omega)
  · intro i j
    rcases hcases i j with ⟨h1, h2, h⟩ | ⟨h, msg, hm⟩
    · constructor
      · rintro ⟨msg, hm⟩
        rw [h] at hm
        cases hm
      · intro hor
        exact absurd hor (by simp only [ge_iff_le]; omega)
    · exact ⟨fun _ => h, fun _ => ⟨msg, hm⟩⟩
  · intro i j
    rcases hcases i j with ⟨h1, h2, h⟩ | ⟨h, msg, hm⟩
    · constructor
      · rintro ⟨err, hm⟩
        rw [h] at hm
        cases hm
      · intro hor
        exact absurd hor (by simp only [ge_iff_le]; omega)
    · exact ⟨fun _ => h, fun _ => ⟨_, hm⟩⟩

theorem declSym_node_access_witness :
    isSquare exampleSquare = true ∧
      ∃ E, DMatDeclSymExpr.new exampleSquare = .ok E ∧
        E.rows = exampleSquare.rows ∧ E.columns = exampleSquare.columns ∧
        E.rows = E.columns ∧
        (∀ i j, i < exampleSquare.rows → j < exampleSquare.columns →
          E.call i j = .ok (exampleSquare.elem i j)) ∧
        (∀ i j, i < exampleSquare.rows → j < exampleSquare.columns →
          E.at i j = .ok (exampleSquare.elem i j)) ∧
        (∀ i j, (∃ msg, E.at i j = .error (.outOfRange msg)) ↔
          (i ≥ exampleSquare.rows ∨ j ≥ exampleSquare.columns)) ∧
        (∀ i j, (∃ err, E.at i j = .error err) ↔
          (i ≥ exampleSquare.rows ∨ j ≥ exampleSquare.columns)) :=
  ⟨rfl, declSym_node_access exampleSquare rfl⟩

/-! ## Traits of the declared-symmetry node -/

/-- C13: for every operand type `MT`, `IsSymmetric` of the wrapper
`DMatDeclSymExpr<MT>` is true whatever the structural flags of `MT` are, while
`IsHermitian`, `IsLower`, `IsUniLower`, `IsStrictlyLower`, `IsUpper`,
`IsUniUpper` and `IsStrictlyUpper` of the wrapper each equal the same trait of
`MT`. -/
theorem declSym_traits (mt : Traits) :
    (DMatDeclSymExpr.traits mt).isSymmetric = true ∧
    (DMatDeclSymExpr.traits mt).isHermitian = mt.isHermitian ∧
    (DMatDeclSymExpr.traits mt).isLower = mt.isLower ∧
    (DMatDeclSymExpr.traits mt).isUniLower = mt.isUniLower ∧
    (DMatDeclSymExpr.traits mt).isStrictlyLower = mt.isStrictlyLower ∧
    (DMatDeclSymExpr.traits mt).isUpper = mt.isUpper ∧
    (DMatDeclSymExpr.traits mt).isUniUpper = mt.isUniUpper ∧
    (DMatDeclSymExpr.traits mt).isStrictlyUpper = mt.isStrictlyUpper :=
  ⟨rfl, rfl, rfl, rfl, rfl, rfl, rfl, rfl⟩

/-! ## The unary map node -/

theorem forEach_at_cases {S : Type} (e : DVecForEachExpr R S) (i : Nat) :
    (i < e.dv.size ∧ e.at i = .ok (e.op (e.dv.elem i))) ∨
      (i ≥ e.dv.size ∧ e.at i = .error (.outOfRange "Invalid vector access index")) := by
  unfold DVecForEachExpr.at
  by_cases hi : i ≥ e.dv.size
  · right
    exact ⟨hi, by rw [if_pos hi]⟩
  · left
    have hi' : i < e.dv.size := by omega
    refine ⟨hi', ?_⟩
    rw [if_neg hi]
    simp [DVecForEachExpr.subscript, internalAssert, hi']

/-- C14: for every dense vector `v` and every operation `op`, the node
`E = forEach( v, op )` has `E.size() = v.size()`, `E[i] = op( v[i] )` for all
`i < size`, and `E.at(i)` returns `op( v[i] )` when `i < size` and fails with an
out-of-range error exactly when `i >= size`; reads of the same index return the
same value. -/
theorem forEach_access {S : Type} (v : DenseVector R) (op : R → S) :
    (forEach v op).size = v.size ∧
    (∀ i, i < v.size → (forEach v op).subscript i = .ok (op (v.elem i))) ∧
    (∀ i, i < v.size → (forEach v op).at i = .ok (op (v.elem i))) ∧
    (∀ i, (∃ msg, (forEach v op).at i = .error (.outOfRange msg)) ↔ i ≥ v.size) ∧
    (∀ i, (∃ err, (forEach v op).at i = .error err) ↔ i ≥ v.size) ∧
    (∀ i j, i = j → (forEach v op).at i = (forEach v op).at j ∧
      (forEach v op).subscript i = (forEach v op).subscript j) := by
  have hcases : ∀ i, (i < v.size ∧ (forEach v op).at i = .ok (op (v.elem i))) ∨
      (i ≥ v.size ∧
        (forEach v op).at i = .error (.outOfRange "Invalid vector access index")) :=
    fun i => forEach_at_cases (forEach v op) i
  refine ⟨rfl, ?_, ?_, ?_, ?_, ?_⟩
  · intro i hi
    simp [forEach, DVecForEachExpr.subscript, internalAssert, hi]
  · intro i hi
    rcases hcases i with ⟨_, h⟩ | ⟨h, _⟩
    · exact h
    · omega
  · intro i
    rcases hcases i with ⟨h1, h⟩ | ⟨h1, h⟩
    · constructor
      · rintro ⟨msg, hm⟩
        rw [h] at hm
        cases hm
      · intro h2
        omega
    · exact ⟨fun _ => h1, fun _ => ⟨_, h⟩⟩
  · intro i
    rcases hcases i with ⟨h1, h⟩ | ⟨h1, h⟩
    · constructor
      · rintro ⟨err, hm⟩
        rw [h] at hm
        cases hm
      · intro h2
        omega
    · exact ⟨fun _ => h1, fun _ => ⟨_, h⟩⟩
  · intro i j hij
    subst hij
    exact ⟨rfl, rfl⟩

theorem forEach_access_witness :
    (forEach exampleVector (fun x => x * x)).at 2 = .ok 9 ∧
      (forEach exampleVector (fun x => x * x)).at 4 =
        .error (.outOfRange "Invalid vector access index") ∧
      ((∃ msg, (forEach exampleVector (fun x => x * x)).at 4 = .error (.outOfRange msg)) ↔
        4 ≥ exampleVector.size) :=
  ⟨rfl, rfl, (forEach_access exampleVector (fun x => x * x)).2.2.2.1 4⟩

/-- C15: for every address, `DVecForEachExpr::canAlias` is false when the
operand type is not a computation, and equals `canAlias` of the operand when
the operand type is a computation. -/
theorem forEach_canAlias (operand : Capabilities) (address : Nat) :
    (operand.isComputation = false → DVecForEachExpr.canAlias operand address = false) ∧
    (operand.isComputation = true →
      DVecForEachExpr.canAlias operand address = operand.canAlias address) := by
  unfold DVecForEachExpr.canAlias
  constructor
  · intro h
    simp [h]
  · intro h
    simp [h]

theorem forEach_canAlias_witness :
    leafAt7.isComputation = false ∧ leafAt7.canAlias 7 = true ∧
      DVecForEachExpr.canAlias leafAt7 7 = false :=
  ⟨rfl, rfl, (forEach_canAlias leafAt7 7).1 rfl⟩

/-! ## The sparse vector minus dense vector node -/

/-- C16: `operator-( sparse vector a, dense vector b )` fails with an
invalid-argument error if and only if `a.size() != b.size()`; the operator has
no target among its arguments and its failure is decided by the two sizes
alone.  Otherwise the resulting node `E` has `E.size() = a.size()` and
`E[i] = a[i] - b[i]` for all `i < size`. -/
theorem operatorSub_spec [Zero R] [Sub R] (a : CompressedVector R) (b : DenseVector R) :
    ((∃ msg, operatorSub a b = .error (.invalidArgument msg)) ↔ a.size ≠ b.size) ∧
    ((∃ err, operatorSub a b = .error err) ↔ a.size ≠ b.size) ∧
    (a.size ≠ b.size →
      ∀ (elements : List (Element R)) (elem : Nat → R),
        operatorSub ⟨a.size, elements⟩ ⟨b.size, elem⟩ =
          .error (.invalidArgument "Vector sizes do not match")) ∧
    (a.size = b.size →
      ∃ E, operatorSub a b = .ok E ∧ E.lhs = a ∧ E.rhs = b ∧ E.size = a.size ∧
        ∀ i, i < E.size → E.subscript i = .ok (a.subscript i - b.elem i)) := by
  by_cases h : a.size = b.size
  · refine ⟨?_, ?_, ?_, ?_⟩
    · simp [operatorSub, SVecDVecSubExpr.new, h]
    · simp [operatorSub, SVecDVecSubExpr.new, h]
    · intro h'
      exact absurd h h'
    · intro _
      refine ⟨⟨a, b⟩, by simp [operatorSub, SVecDVecSubExpr.new, h], rfl, rfl, rfl, ?_⟩
      intro i hi
      have hi' : i < a.size := hi
      simp [SVecDVecSubExpr.subscript, internalAssert, hi']
  · refine ⟨?_, ?_, ?_, ?_⟩
    · simp [operatorSub, h]
    · simp [operatorSub, h]
    · intro _ elements elem
      simp [operatorSub, h]
    · intro h'
      exact absurd h' h

theorem operatorSub_spec_witness :
    exampleSparseVector.size ≠ shortVector.size ∧
      ((∃ msg, operatorSub exampleSparseVector shortVector = .error (.invalidArgument msg)) ↔
        exampleSparseVector.size ≠ shortVector.size) ∧
      (∃ E, operatorSub exampleSparseVector exampleVector = .ok E ∧
        E.lhs = exampleSparseVector ∧ E.rhs = exampleVector ∧
        E.size = exampleSparseVector.size ∧
        ∀ i, i < E.size →
          E.subscript i = .ok (exampleSparseVector.subscript i - exampleVector.elem i)) :=
  ⟨by decide, (operatorSub_spec exampleSparseVector shortVector).1,
    (operatorSub_spec exampleSparseVector exampleVector).2.2.2 rfl⟩

@[simp] theorem DenseVector.vector_set_elem (t : DenseVector R) (i : Nat) (v : R) (a : Nat) :
    (t.set i v).elem a = if a = i then v else t.elem a := rfl

theorem foldl_addSparse_elem [CommRing R] (es : List (Element R)) (t : DenseVector R) (i : Nat) :
    (es.foldl (fun t element =>
      t.set element.index (t.elem element.index + element.value)) t).elem i =
      t.elem i + (es.map (fun e => if e.index = i then e.value * 1 else 0)).sum := by
  induction es generalizing t with
  | nil => simp
  | cons e es ih =>
    simp only [List.foldl_cons, List.map_cons, List.sum_cons]
    rw [ih, DenseVector.vector_set_elem]
    by_cases h : i = e.index
    · subst h
      simp [add_assoc]
    · have h' : ¬ e.index = i := fun h' => h h'.symm
      simp [h, h']

theorem foldl_subSparse_elem [CommRing R] (es : List (Element R)) (t : DenseVector R) (i : Nat) :
    (es.foldl (fun t element =>
      t.set element.index (t.elem element.index - element.value)) t).elem i =
      t.elem i - (es.map (fun e => if e.index = i then e.value * 1 else 0)).sum := by
  induction es generalizing t with
  | nil => simp
  | cons e es ih =>
    simp only [List.foldl_cons, List.map_cons, List.sum_cons]
    rw [ih, DenseVector.vector_set_elem]
    by_cases h : i = e.index
    · subst h
      simp [sub_sub]
    · have h' : ¬ e.index = i := fun h' => h h'.symm
      simp [h, h']

theorem foldl_set_size {α : Type} (g : DenseVector R → α → Nat) (v : DenseVector R → α → R)
    (es : List α) (t : DenseVector R) :
    (es.foldl (fun t e => t.set (g t e) (v t e)) t).size = t.size := by
  induction es generalizing t with
  | nil => rfl
  | cons e es ih =>
    simp only [List.foldl_cons]
    rw [ih]
    rfl

/-- Adding a well-formed sparse vector to a dense vector adds `a[i]` at every
index. -/
theorem addAssignSparse_elem [CommRing R] (t : DenseVector R) (a : CompressedVector R)
    (ha : a.WF) (i : Nat) :
    (addAssignSparse t a).elem i = t.elem i + a.subscript i := by
  unfold addAssignSparse CompressedVector.subscript
  rw [foldl_addSparse_elem, sum_index_eq a.size a.elements ha i 1, mul_one]

/-- Subtracting a well-formed sparse vector from a dense vector subtracts `a[i]`
at every index. -/
theorem subAssignSparse_elem [CommRing R] (t : DenseVector R) (a : CompressedVector R)
    (ha : a.WF) (i : Nat) :
    (subAssignSparse t a).elem i = t.elem i - a.subscript i := by
  unfold subAssignSparse CompressedVector.subscript
  rw [foldl_subSparse_elem, sum_index_eq a.size a.elements ha i 1, mul_one]

theorem addAssignSparse_size [CommRing R] (t : DenseVector R) (a : CompressedVector R) :
    (addAssignSparse t a).size = t.size :=
  foldl_set_size (fun _ (e : Element R) => e.index)
    (fun t (e : Element R) => t.elem e.index + e.value) a.elements t

theorem subAssignSparse_size [CommRing R] (t : DenseVector R) (a : CompressedVector R) :
    (subAssignSparse t a).size = t.size :=
  foldl_set_size (fun _ (e : Element R) => e.index)
    (fun t (e : Element R) => t.elem e.index - e.value) a.elements t

/-- C17: for a sparse vector `a`, a dense vector `b` and a dense target `t` of
equal size (the target being an object of its own), `assign( t, a - b )` leaves
`t[i] = a[i] - b[i]`, `addAssign( t, a - b )` leaves `t[i] = t0[i] + (a[i] -
b[i])` and `subAssign( t, a - b )` leaves `t[i] = t0[i] - (a[i] - b[i])` for all
`i`, where `t0` is the target before the call; the two-step implementations
agree with the element access `E[i]` of the node. -/
theorem subExpr_assignments [CommRing R] (a : CompressedVector R) (b t : DenseVector R)
    (ha : a.WF) (hab : a.size = b.size) (hta : t.size = a.size) :
    ∃ t1 t2 t3,
      SVecDVecSubExpr.assign t ⟨a, b⟩ = .ok t1 ∧
      SVecDVecSubExpr.addAssign t ⟨a, b⟩ = .ok t2 ∧
      SVecDVecSubExpr.subAssign t ⟨a, b⟩ = .ok t3 ∧
      t1.size = t.size ∧ t2.size = t.size ∧ t3.size = t.size ∧
      ∀ i, i < t.size →
        t1.elem i = a.subscript i - b.elem i ∧
        t2.elem i = t.elem i + (a.subscript i - b.elem i) ∧
        t3.elem i = t.elem i - (a.subscript i - b.elem i) ∧
        (⟨a, b⟩ : SVecDVecSubExpr R).subscript i = .ok (a.subscript i - b.elem i) ∧
        (⟨a, b⟩ : SVecDVecSubExpr R).subscript i = .ok (t1.elem i) := by
  refine ⟨addAssignSparse (assignNegDense t b) a, subAssignDense (addAssignSparse t a) b,
    addAssignDense (subAssignSparse t a) b, ?_, ?_, ?_, ?_, ?_, ?_, ?_⟩
  · simp [SVecDVecSubExpr.assign, internalAssert, SVecDVecSubExpr.size, hta]
  · simp [SVecDVecSubExpr.addAssign, internalAssert, SVecDVecSubExpr.size, hta]
  · simp [SVecDVecSubExpr.subAssign, internalAssert, SVecDVecSubExpr.size, hta]
  · rw [addAssignSparse_size]
    rfl
  · show (addAssignSparse t a).size = t.size
    exact addAssignSparse_size t a
  · show (subAssignSparse t a).size = t.size
    exact subAssignSparse_size t a
  · intro i hi
    have hib : i < b.size := by omega
    have hia : i < a.size := by omega
    have h1 : (addAssignSparse (assignNegDense t b) a).elem i = a.subscript i - b.elem i := by
      rw [addAssignSparse_elem _ a ha]
      simp only [assignNegDense, hib, if_true]
      ring
    refine ⟨h1, ?_, ?_, ?_, ?_⟩
    · simp only [subAssignDense, hib, if_true]
      rw [addAssignSparse_elem _ a ha]
      ring
    · simp only [addAssignDense, hib, if_true]
      rw [subAssignSparse_elem _ a ha]
      ring
    · simp [SVecDVecSubExpr.subscript, internalAssert, hia]
    · rw [h1]
      simp [SVecDVecSubExpr.subscript, internalAssert, hia]

theorem exampleSparseVector_WF : exampleSparseVector.WF := by
  simp [CompressedVector.WF, exampleSparseVector, sortedBelow]

theorem subExpr_assignments_witness :
    exampleSparseVector.WF ∧
      ∃ t1 t2 t3,
        SVecDVecSubExpr.assign exampleVector ⟨exampleSparseVector, exampleVector⟩ = .ok t1 ∧
        SVecDVecSubExpr.addAssign exampleVector ⟨exampleSparseVector, exampleVector⟩ = .ok t2 ∧
        SVecDVecSubExpr.subAssign exampleVector ⟨exampleSparseVector, exampleVector⟩ = .ok t3 ∧
        t1.size = exampleVector.size ∧ t2.size = exampleVector.size ∧
        t3.size = exampleVector.size ∧
        ∀ i, i < exampleVector.size →
          t1.elem i = exampleSparseVector.subscript i - exampleVector.elem i ∧
          t2.elem i =
            exampleVector.elem i + (exampleSparseVector.subscript i - exampleVector.elem i) ∧
          t3.elem i =
            exampleVector.elem i - (exampleSparseVector.subscript i - exampleVector.elem i) ∧
          (⟨exampleSparseVector, exampleVector⟩ : SVecDVecSubExpr Int).subscript i =
            .ok (exampleSparseVector.subscript i - exampleVector.elem i) ∧
          (⟨exampleSparseVector, exampleVector⟩ : SVecDVecSubExpr Int).subscript i =
            .ok (t1.elem i) :=
  ⟨exampleSparseVector_WF,
    subExpr_assignments exampleSparseVector exampleVector exampleVector
      exampleSparseVector_WF rfl rfl⟩

/-! ## SMP assignability -/

/-- C19, the claim fails for the product node: a 100×100 product (threshold
10000, right operand not diagonal) answers `canSMPAssign()` with true although
`canSMPAssign()` of both operands is false. -/
theorem canSMPAssign_product_counterexample :
    noCapabilities.canSMPAssign = false ∧
      TSMatTDMatMultExpr.canSMPAssign 10000 StructFlags.none noCapabilities noCapabilities
        largeProduct = true := by
  decide

/-- C19 as amended: `canSMPAssign()` of the unary map node and of the
declared-symmetry node is `canSMPAssign()` of their operand; `canSMPAssign()` of
the product node does not depend on the operands' answers: it is true if and
only if `rows() * columns() >= SMP_TSMATTDMATMULT_THRESHOLD` and the right
operand type is not diagonal. -/
theorem canSMPAssign_spec (threshold : Nat) (t : StructFlags) (operand lhs rhs : Capabilities)
    (e : TSMatTDMatMultExpr R) :
    DVecForEachExpr.canSMPAssign operand = operand.canSMPAssign ∧
    DMatDeclSymExpr.canSMPAssign operand = operand.canSMPAssign ∧
    (TSMatTDMatMultExpr.canSMPAssign threshold t lhs rhs e = true ↔
      ((e.rows * e.columns) % 2 ^ 64 ≥ threshold ∧ t.isDiagonal = false)) ∧
    (∀ lhs' rhs' : Capabilities,
      TSMatTDMatMultExpr.canSMPAssign threshold t lhs' rhs' e =
        TSMatTDMatMultExpr.canSMPAssign threshold t lhs rhs e) := by
  refine ⟨rfl, rfl, ?_, fun _ _ => rfl⟩
  unfold TSMatTDMatMultExpr.canSMPAssign
  simp

/-! ## Assignment to an operand -/

theorem selectAssignKernel_shape [CommRing R] [DecidableEq R] [Star R] (k : KernelConfig)
    (f : DeclFlags) (t : StructFlags) (SO : Bool) (C : DenseMatrix R)
    (A : CompressedMatrix R) (B : DenseMatrix R) :
    (selectAssignKernel k SO C (selectSmallAssignKernel k f t SO C A B)
        (selectLargeAssignKernel k f t C A B)).rows = C.rows ∧
      (selectAssignKernel k SO C (selectSmallAssignKernel k f t SO C A B)
        (selectLargeAssignKernel k f t C A B)).columns = C.columns := by
  unfold selectAssignKernel selectSmallAssignKernel selectLargeAssignKernel
  simp only
  split
  · split
    · exact selectSmallAssignKernelOptimized_shape f t _ C A B
    · exact selectDefaultAssignKernel_shape f t C A B
  · split
    · exact ⟨rfl, rfl⟩
    · exact selectDefaultAssignKernel_shape f t C A B

/-- Assigning a product without flags to a target of the right shape succeeds
and leaves the naive product, whatever the target held. -/
theorem assign_none_ok [CommRing R] [DecidableEq R] [Star R] (k : KernelConfig) (SO : Bool)
    (A : CompressedMatrix R) (B : DenseMatrix R) (C : DenseMatrix R) (hA : A.WF)
    (hrows : C.rows = A.rows) (hcols : C.columns = B.columns) :
    ∃ C', assign k StructFlags.none SO C ⟨A, B, DeclFlags.none⟩ = .ok C' ∧
      C'.rows = A.rows ∧ C'.columns = B.columns ∧
      ∀ i j, i < A.rows → j < B.columns → C'.elem i j = naiveProduct A B i j := by
  refine ⟨selectAssignKernel k SO C
      (selectSmallAssignKernel k DeclFlags.none StructFlags.none SO C A B)
      (selectLargeAssignKernel k DeclFlags.none StructFlags.none C A B), ?_, ?_, ?_, ?_⟩
  · simp [assign, internalAssert, TSMatTDMatMultExpr.rows, TSMatTDMatMultExpr.columns,
      hrows, hcols]
    rfl
  · rw [(selectAssignKernel_shape k DeclFlags.none StructFlags.none SO C A B).1, hrows]
  · rw [(selectAssignKernel_shape k DeclFlags.none StructFlags.none SO C A B).2, hcols]
  · intro i j hi hj
    exact selectAssignKernel_none_elem k SO A B C hA hrows hcols i j hi hj

/-- The modelled container assignment with the alias answer of the product node
leaves the naive product of the operands as they were before the assignment,
at every target address. -/
theorem assignInMemory_elem [CommRing R] [DecidableEq R] [Star R] (k : KernelConfig)
    (SO : Bool) (memory : Memory R) (target lhsAddress rhsAddress : Nat)
    (A : CompressedMatrix R) (hA : A.WF) :
    ∃ memory', assignInMemory
        (TSMatTDMatMultExpr.canAlias (containerAt lhsAddress) (containerAt rhsAddress))
        k SO memory target A rhsAddress = .ok memory' ∧
      (memory' target).rows = A.rows ∧
      (memory' target).columns = (memory rhsAddress).columns ∧
      ∀ i j, i < A.rows → j < (memory rhsAddress).columns →
        (memory' target).elem i j = naiveProduct A (memory rhsAddress) i j := by
  unfold assignInMemory
  by_cases hc : TSMatTDMatMultExpr.canAlias (containerAt lhsAddress) (containerAt rhsAddress)
      target = true
  · obtain ⟨C', hC', hr, hcl, hel⟩ := assign_none_ok k SO A (memory rhsAddress)
      (filled A.rows (memory rhsAddress).columns 0) hA rfl rfl
    refine ⟨memory.write target C', ?_, ?_, ?_, ?_⟩
    · rw [if_pos hc, hC']
      rfl
    · simp [Memory.write, hr]
    · simp [Memory.write, hcl]
    · intro i j hi hj
      simp [Memory.write, hel i j hi hj]
  · have hne : target ≠ rhsAddress := by
      intro h
      apply hc
      simp [TSMatTDMatMultExpr.canAlias, containerAt, h]
    have hrhs : (memory.write target
        (reset (resize (memory target) A.rows (memory rhsAddress).columns))) rhsAddress =
        memory rhsAddress := by
      simp [Memory.write, Ne.symm hne]
    have htar : (memory.write target
        (reset (resize (memory target) A.rows (memory rhsAddress).columns))) target =
        reset (resize (memory target) A.rows (memory rhsAddress).columns) := by
      simp [Memory.write]
    obtain ⟨C', hC', hr, hcl, hel⟩ := assign_none_ok k SO A (memory rhsAddress)
      (reset (resize (memory target) A.rows (memory rhsAddress).columns)) hA rfl rfl
    refine ⟨(memory.write target
        (reset (resize (memory target) A.rows (memory rhsAddress).columns))).write target C',
      ?_, ?_, ?_, ?_⟩
    · rw [if_neg hc]
      simp only [hrhs, htar, hC']
      rfl
    · simp [Memory.write, hr]
    · simp [Memory.write, hcl]
    · intro i j hi hj
      simp [Memory.write, hel i j hi hj]

/-- C18: the queries `canAlias( a )` and `isAliased( a )` of the product node are
true if and only if the left operand or the right operand is aliased with `a`;
with this answer the container assignment of the product to the address of one
of its own operands leaves the same matrix as the assignment to a fresh
address, namely the naive product of the operands as they were before. -/
theorem product_aliasing [CommRing R] [DecidableEq R] [Star R] (k : KernelConfig) (SO : Bool)
    (memory : Memory R) (lhsAddress rhsAddress fresh : Nat) (A : CompressedMatrix R)
    (hA : A.WF) (hfresh : fresh ≠ lhsAddress ∧ fresh ≠ rhsAddress) :
    (∀ (lhs rhs : Capabilities) (a : Nat),
      (TSMatTDMatMultExpr.canAlias lhs rhs a = true ↔
        (lhs.isAliased a = true ∨ rhs.isAliased a = true)) ∧
      (TSMatTDMatMultExpr.isAliased lhs rhs a = true ↔
        (lhs.isAliased a = true ∨ rhs.isAliased a = true))) ∧
    (TSMatTDMatMultExpr.canAlias (containerAt lhsAddress) (containerAt rhsAddress) fresh
      = false) ∧
    ∀ target, target = lhsAddress ∨ target = rhsAddress →
      TSMatTDMatMultExpr.canAlias (containerAt lhsAddress) (containerAt rhsAddress) target
        = true ∧
      ∃ toOperand toFresh,
        assignInMemory
          (TSMatTDMatMultExpr.canAlias (containerAt lhsAddress) (containerAt rhsAddress))
          k SO memory target A rhsAddress = .ok toOperand ∧
        assignInMemory
          (TSMatTDMatMultExpr.canAlias (containerAt lhsAddress) (containerAt rhsAddress))
          k SO memory fresh A rhsAddress = .ok toFresh ∧
        (toOperand target).rows = (toFresh fresh).rows ∧
        (toOperand target).columns = (toFresh fresh).columns ∧
        ∀ i j, i < (toFresh fresh).rows → j < (toFresh fresh).columns →
          (toOperand target).elem i j = (toFresh fresh).elem i j ∧
          (toFresh fresh).elem i j = naiveProduct A (memory rhsAddress) i j := by
  refine ⟨?_, ?_, ?_⟩
  · intro lhs rhs a
    simp [TSMatTDMatMultExpr.canAlias, TSMatTDMatMultExpr.isAliased]
  · simp [TSMatTDMatMultExpr.canAlias, containerAt, hfresh.1, hfresh.2]
  · intro target ht
    constructor
    · rcases ht with h | h <;> simp [TSMatTDMatMultExpr.canAlias, containerAt, h]
    · obtain ⟨m1, h1, r1, c1, e1⟩ :=
        assignInMemory_elem k SO memory target lhsAddress rhsAddress A hA
      obtain ⟨m2, h2, r2, c2, e2⟩ :=
        assignInMemory_elem k SO memory fresh lhsAddress rhsAddress A hA
      refine ⟨m1, m2, h1, h2, by rw [r1, r2], by rw [c1, c2], ?_⟩
      intro i j hi hj
      rw [r2] at hi
      rw [c2] at hj
      rw [e1 i j hi hj, e2 i j hi hj]
      exact ⟨rfl, rfl⟩

theorem product_aliasing_witness :
    exampleA.WF ∧ ((2 : Nat) ≠ 0 ∧ (2 : Nat) ≠ 1) ∧
      ∃ toOperand toFresh,
        assignInMemory (TSMatTDMatMultExpr.canAlias (containerAt 0) (containerAt 1))
          exampleConfig true exampleMemory 1 exampleA 1 = .ok toOperand ∧
        assignInMemory (TSMatTDMatMultExpr.canAlias (containerAt 0) (containerAt 1))
          exampleConfig true exampleMemory 2 exampleA 1 = .ok toFresh ∧
        (toOperand 1).rows = (toFresh 2).rows ∧
        (toOperand 1).columns = (toFresh 2).columns ∧
        ∀ i j, i < (toFresh 2).rows → j < (toFresh 2).columns →
          (toOperand 1).elem i j = (toFresh 2).elem i j ∧
          (toFresh 2).elem i j = naiveProduct exampleA (exampleMemory 1) i j :=
  ⟨exampleA_WF, ⟨by decide, by decide⟩,
    ((product_aliasing exampleConfig true exampleMemory 0 1 2 exampleA exampleA_WF
      ⟨by decide, by decide⟩).2.2 1 (Or.inr rfl)).2⟩

/-- Why the alias answer matters: if the product node denied every alias, the
direct assignment of `exampleA * B` to the address of `B` itself (the identity
of size 3) would reset `B` before it is read and leave zero in entry `(0,0)`,
where the product has 1. -/
theorem assignInMemory_without_alias_check :
    naiveProduct exampleA (exampleMemory 1) 0 0 = 1 ∧
      ∃ memory', assignInMemory (fun _ => false) ⟨10000, false, false, false⟩ true
          exampleMemory 1 exampleA 1 = .ok memory' ∧
        (memory' 1).elem 0 0 = 0 := by
  refine ⟨by decide, _, rfl, ?_⟩
  decide

/-! ## Soundness of the propagated traits -/

theorem productValue_eq_zero [CommRing R] (A B : DenseMatrix R) (i j : Nat)
    (h : ∀ l, l < A.columns → A.elem i l = 0 ∨ B.elem l j = 0) :
    productValue A B i j = 0 := by
  unfold productValue
  apply Finset.sum_eq_zero
  intro l hl
  rcases h l (Finset.mem_range.1 hl) with h0 | h0 <;> simp [h0]

/-- The product of two lower triangular matrices is lower triangular. -/
theorem lower_mul_lower [CommRing R] (A B : DenseMatrix R) (n : Nat)
    (hA : A.rows = n ∧ A.columns = n) (hB : B.rows = n ∧ B.columns = n)
    (h1 : IsLowerMatrix A) (h2 : IsLowerMatrix B) : IsLowerMatrix (productMatrix A B) := by
  intro i j hi hj hij
  apply productValue_eq_zero
  intro l hl
  have hi' : i < A.rows := hi
  have hj' : j < B.columns := hj
  by_cases hli : i < l
  · exact Or.inl (h1 i l hi' hl hli)
  · exact Or.inr (h2 l j (by omega) hj' (by omega))

/-- The product of two upper triangular matrices is upper triangular. -/
theorem upper_mul_upper [CommRing R] (A B : DenseMatrix R) (n : Nat)
    (hA : A.rows = n ∧ A.columns = n) (hB : B.rows = n ∧ B.columns = n)
    (h1 : IsUpperMatrix A) (h2 : IsUpperMatrix B) : IsUpperMatrix (productMatrix A B) := by
  intro i j hi hj hij
  apply productValue_eq_zero
  intro l hl
  have hi' : i < A.rows := hi
  have hj' : j < B.columns := hj
  by_cases hli : l < i
  · exact Or.inl (h1 i l hi' hl hli)
  · exact Or.inr (h2 l j (by omega) hj' (by omega))

/-- Strictly lower times lower is strictly lower. -/
theorem strictlyLower_mul_lower [CommRing R] (A B : DenseMatrix R) (n : Nat)
    (hA : A.rows = n ∧ A.columns = n) (hB : B.rows = n ∧ B.columns = n)
    (h1 : IsStrictlyLowerMatrix A) (h2 : IsLowerMatrix B) :
    IsStrictlyLowerMatrix (productMatrix A B) := by
  intro i j hi hj hij
  apply productValue_eq_zero
  intro l hl
  have hi' : i < A.rows := hi
  have hj' : j < B.columns := hj
  by_cases hli : i ≤ l
  · exact Or.inl (h1 i l hi' hl hli)
  · exact Or.inr (h2 l j (by omega) hj' (by omega))

/-- Lower times strictly lower is strictly lower. -/
theorem lower_mul_strictlyLower [CommRing R] (A B : DenseMatrix R) (n : Nat)
    (hA : A.rows = n ∧ A.columns = n) (hB : B.rows = n ∧ B.columns = n)
    (h1 : IsLowerMatrix A) (h2 : IsStrictlyLowerMatrix B) :
    IsStrictlyLowerMatrix (productMatrix A B) := by
  intro i j hi hj hij
  apply productValue_eq_zero
  intro l hl
  have hi' : i < A.rows := hi
  have hj' : j < B.columns := hj
  by_cases hli : i < l
  · exact Or.inl (h1 i l hi' hl hli)
  · exact Or.inr (h2 l j (by omega) hj' (by omega))

/-- Strictly upper times upper is strictly upper. -/
theorem strictlyUpper_mul_upper [CommRing R] (A B : DenseMatrix R) (n : Nat)
    (hA : A.rows = n ∧ A.columns = n) (hB : B.rows = n ∧ B.columns = n)
    (h1 : IsStrictlyUpperMatrix A) (h2 : IsUpperMatrix B) :
    IsStrictlyUpperMatrix (productMatrix A B) := by
  intro i j hi hj hij
  apply productValue_eq_zero
  intro l hl
  have hi' : i < A.rows := hi
  have hj' : j < B.columns := hj
  by_cases hli : l ≤ i
  · exact Or.inl (h1 i l hi' hl hli)
  · exact Or.inr (h2 l j (by omega) hj' (by omega))

/-- Upper times strictly upper is strictly upper. -/
theorem upper_mul_strictlyUpper [CommRing R] (A B : DenseMatrix R) (n : Nat)
    (hA : A.rows = n ∧ A.columns = n) (hB : B.rows = n ∧ B.columns = n)
    (h1 : IsUpperMatrix A) (h2 : IsStrictlyUpperMatrix B) :
    IsStrictlyUpperMatrix (productMatrix A B) := by
  intro i j hi hj hij
  apply productValue_eq_zero
  intro l hl
  have hi' : i < A.rows := hi
  have hj' : j < B.columns := hj
  by_cases hli : l < i
  · exact Or.inl (h1 i l hi' hl hli)
  · exact Or.inr (h2 l j (by omega) hj' (by omega))

/-- The diagonal of a product of two matrices that are both lower or both upper
triangular is the product of the diagonals. -/
theorem productValue_diag [CommRing R] (A B : DenseMatrix R) (n : Nat)
    (hA : A.rows = n ∧ A.columns = n) (i : Nat) (hi : i < n)
    (h : ∀ l, l < n → l ≠ i → A.elem i l = 0 ∨ B.elem l i = 0) :
    productValue A B i i = A.elem i i * B.elem i i := by
  unfold productValue
  rw [Finset.sum_eq_single i]
  · intro l hl hne
    have hl' : l < n := by rw [← hA.2]; exact Finset.mem_range.1 hl
    rcases h l hl' hne with h0 | h0 <;> simp [h0]
  · intro hni
    exact absurd (Finset.mem_range.2 (by rw [hA.2]; exact hi)) hni

/-- The product of two unit lower triangular matrices is unit lower
triangular. -/
theorem uniLower_mul_uniLower [CommRing R] (A B : DenseMatrix R) (n : Nat)
    (hA : A.rows = n ∧ A.columns = n) (hB : B.rows = n ∧ B.columns = n)
    (h1 : IsUniLowerMatrix A) (h2 : IsUniLowerMatrix B) :
    IsUniLowerMatrix (productMatrix A B) := by
  refine ⟨lower_mul_lower A B n hA hB h1.1 h2.1, ?_⟩
  intro i hi _
  have hin : i < n := by rw [← hA.1]; exact hi
  show productValue A B i i = 1
  rw [productValue_diag A B n hA i hin, h1.2 i (by omega) (by omega),
    h2.2 i (by omega) (by omega), mul_one]
  intro l hl hne
  by_cases hli : i < l
  · exact Or.inl (h1.1 i l (by omega) (by omega) hli)
  · exact Or.inr (h2.1 l i (by omega) (by omega) (by omega))

/-- The product of two unit upper triangular matrices is unit upper
triangular. -/
theorem uniUpper_mul_uniUpper [CommRing R] (A B : DenseMatrix R) (n : Nat)
    (hA : A.rows = n ∧ A.columns = n) (hB : B.rows = n ∧ B.columns = n)
    (h1 : IsUniUpperMatrix A) (h2 : IsUniUpperMatrix B) :
    IsUniUpperMatrix (productMatrix A B) := by
  refine ⟨upper_mul_upper A B n hA hB h1.1 h2.1, ?_⟩
  intro i hi _
  have hin : i < n := by rw [← hA.1]; exact hi
  show productValue A B i i = 1
  rw [productValue_diag A B n hA i hin, h1.2 i (by omega) (by omega),
    h2.2 i (by omega) (by omega), mul_one]
  intro l hl hne
  by_cases hli : l < i
  · exact Or.inl (h1.1 i l (by omega) (by omega) hli)
  · exact Or.inr (h2.1 l i (by omega) (by omega) (by omega))

/-- In a symmetric or Hermitian matrix an entry vanishes with its mirror
image. -/
theorem mirrored_zero [CommRing R] [StarRing R] (P : DenseMatrix R)
    (hm : IsSymmetricMatrix P ∨ IsHermitianMatrix P) (i j : Nat) (hi : i < P.rows)
    (hj : j < P.rows) (h : P.elem j i = 0) : P.elem i j = 0 := by
  rcases hm with hs | hh
  · rw [hs.2 i j hi hj, h]
  · rw [hh.2 i j hi hj, h]
    simp [conj]

theorem mirrored_square [Star R] (P : DenseMatrix R)
    (hm : IsSymmetricMatrix P ∨ IsHermitianMatrix P) : P.rows = P.columns := by
  rcases hm with hs | hh
  · exact hs.1
  · exact hh.1

/-- An upper triangular matrix that is symmetric or Hermitian is lower
triangular. -/
theorem lower_of_upper_mirrored [CommRing R] [StarRing R] (P : DenseMatrix R)
    (hm : IsSymmetricMatrix P ∨ IsHermitianMatrix P) (h : IsUpperMatrix P) :
    IsLowerMatrix P := by
  have hsq := mirrored_square P hm
  intro i j hi hj hij
  exact mirrored_zero P hm i j hi (by omega) (h j i (by omega) (by omega) hij)

/-- A lower triangular matrix that is symmetric or Hermitian is upper
triangular. -/
theorem upper_of_lower_mirrored [CommRing R] [StarRing R] (P : DenseMatrix R)
    (hm : IsSymmetricMatrix P ∨ IsHermitianMatrix P) (h : IsLowerMatrix P) :
    IsUpperMatrix P := by
  have hsq := mirrored_square P hm
  intro i j hi hj hij
  exact mirrored_zero P hm i j hi (by omega) (h j i (by omega) (by omega) hij)

theorem strictlyLower_of_strictlyUpper_mirrored [CommRing R] [StarRing R] (P : DenseMatrix R)
    (hm : IsSymmetricMatrix P ∨ IsHermitianMatrix P) (h : IsStrictlyUpperMatrix P) :
    IsStrictlyLowerMatrix P := by
  have hsq := mirrored_square P hm
  intro i j hi hj hij
  exact mirrored_zero P hm i j hi (by omega) (h j i (by omega) (by omega) hij)

theorem strictlyUpper_of_strictlyLower_mirrored [CommRing R] [StarRing R] (P : DenseMatrix R)
    (hm : IsSymmetricMatrix P ∨ IsHermitianMatrix P) (h : IsStrictlyLowerMatrix P) :
    IsStrictlyUpperMatrix P := by
  have hsq := mirrored_square P hm
  intro i j hi hj hij
  exact mirrored_zero P hm i j hi (by omega) (h j i (by omega) (by omega) hij)

theorem mirrored_of_flags [Zero R] [Star R] (f : DeclFlags) (P : DenseMatrix R)
    (hf : f.Holds P) (h : (f.SF || f.HF) = true) :
    IsSymmetricMatrix P ∨ IsHermitianMatrix P := by
  rcases Bool.or_eq_true_iff.1 h with h1 | h1
  · exact Or.inl (hf.1 h1)
  · exact Or.inr (hf.2.1 h1)

/-- C20: the propagation rules of the product node are sound.  For square
matrices `A` and `B` of equal size whose traits describe them, and declaration
flags that describe the product, every triangular trait that the specializations
derive for the node holds of the product `A*B`: both lower gives lower; one
strictly lower and the other lower, in either order, gives strictly lower; both
unit lower gives unit lower; both upper with a symmetric (or Hermitian) product
gives lower; and dually with lower and upper exchanged. -/
theorem product_traits_sound [CommRing R] [StarRing R] (f : DeclFlags) (isBuiltin : Bool)
    (mt1 mt2 : Traits) (A B : DenseMatrix R) (n : Nat)
    (hA : A.rows = n ∧ A.columns = n) (hB : B.rows = n ∧ B.columns = n)
    (h1 : mt1.Holds A) (h2 : mt2.Holds B) (hf : f.Holds (productMatrix A B)) :
    ((TSMatTDMatMultExpr.traits f isBuiltin mt1 mt2).isLower = true →
      IsLowerMatrix (productMatrix A B)) ∧
    ((TSMatTDMatMultExpr.traits f isBuiltin mt1 mt2).isUniLower = true →
      IsUniLowerMatrix (productMatrix A B)) ∧
    ((TSMatTDMatMultExpr.traits f isBuiltin mt1 mt2).isStrictlyLower = true →
      IsStrictlyLowerMatrix (productMatrix A B)) ∧
    ((TSMatTDMatMultExpr.traits f isBuiltin mt1 mt2).isUpper = true →
      IsUpperMatrix (productMatrix A B)) ∧
    ((TSMatTDMatMultExpr.traits f isBuiltin mt1 mt2).isUniUpper = true →
      IsUniUpperMatrix (productMatrix A B)) ∧
    ((TSMatTDMatMultExpr.traits f isBuiltin mt1 mt2).isStrictlyUpper = true →
      IsStrictlyUpperMatrix (productMatrix A B)) := by
  obtain ⟨_, _, a_l, a_ul, a_sl, a_u, a_uu, a_su⟩ := h1
  obtain ⟨_, _, b_l, b_ul, b_sl, b_u, b_uu, b_su⟩ := h2
  simp only [TSMatTDMatMultExpr.traits, Bool.or_eq_true, Bool.and_eq_true]
  refine ⟨?_, ?_, ?_, ?_, ?_, ?_⟩
  · rintro ((h | ⟨ha, hb⟩) | ⟨⟨hm, ha⟩, hb⟩)
    · exact hf.2.2.1 h
    · exact lower_mul_lower A B n hA hB (a_l ha) (b_l hb)
    · exact lower_of_upper_mirrored _ (mirrored_of_flags f _ hf (by simpa using hm))
        (upper_mul_upper A B n hA hB (a_u ha) (b_u hb))
  · rintro (⟨ha, hb⟩ | ⟨⟨hm, ha⟩, hb⟩)
    · exact uniLower_mul_uniLower A B n hA hB (a_ul ha) (b_ul hb)
    · have hP := uniUpper_mul_uniUpper A B n hA hB (a_uu ha) (b_uu hb)
      exact ⟨lower_of_upper_mirrored _ (mirrored_of_flags f _ hf (by simpa using hm)) hP.1,
        hP.2⟩
  · rintro ((⟨ha, hb⟩ | ⟨hb, ha⟩) | ⟨hm, (⟨ha, hb⟩ | ⟨hb, ha⟩)⟩)
    · exact strictlyLower_mul_lower A B n hA hB (a_sl ha) (b_l hb)
    · exact lower_mul_strictlyLower A B n hA hB (a_l ha) (b_sl hb)
    · exact strictlyLower_of_strictlyUpper_mirrored _
        (mirrored_of_flags f _ hf (by simpa using hm))
        (strictlyUpper_mul_upper A B n hA hB (a_su ha) (b_u hb))
    · exact strictlyLower_of_strictlyUpper_mirrored _
        (mirrored_of_flags f _ hf (by simpa using hm))
        (upper_mul_strictlyUpper A B n hA hB (a_u ha) (b_su hb))
  · rintro ((h | ⟨ha, hb⟩) | ⟨⟨hm, ha⟩, hb⟩)
    · exact hf.2.2.2 h
    · exact upper_mul_upper A B n hA hB (a_u ha) (b_u hb)
    · exact upper_of_lower_mirrored _ (mirrored_of_flags f _ hf (by simpa using hm))
        (lower_mul_lower A B n hA hB (a_l ha) (b_l hb))
  · rintro (⟨ha, hb⟩ | ⟨⟨hm, ha⟩, hb⟩)
    · exact uniUpper_mul_uniUpper A B n hA hB (a_uu ha) (b_uu hb)
    · have hP := uniLower_mul_uniLower A B n hA hB (a_ul ha) (b_ul hb)
      exact ⟨upper_of_lower_mirrored _ (mirrored_of_flags f _ hf (by simpa using hm)) hP.1,
        hP.2⟩
  · rintro ((⟨ha, hb⟩ | ⟨hb, ha⟩) | ⟨hm, (⟨ha, hb⟩ | ⟨hb, ha⟩)⟩)
    · exact strictlyUpper_mul_upper A B n hA hB (a_su ha) (b_u hb)
    · exact upper_mul_strictlyUpper A B n hA hB (a_u ha) (b_su hb)
    · exact strictlyUpper_of_strictlyLower_mirrored _
        (mirrored_of_flags f _ hf (by simpa using hm))
        (strictlyLower_mul_lower A B n hA hB (a_sl ha) (b_l hb))
    · exact strictlyUpper_of_strictlyLower_mirrored _
        (mirrored_of_flags f _ hf (by simpa using hm))
        (lower_mul_strictlyLower A B n hA hB (a_l ha) (b_sl hb))

theorem exampleLower_holds : Traits.lower.Holds exampleLower := by
  refine ⟨?_, ?_, ?_, ?_, ?_, ?_, ?_, ?_⟩ <;> intro h
  all_goals first
    | exact absurd h (by decide)
    | skip
  intro i j hi hj hij
  have hi' : i < 2 := hi
  have hj' : j < 2 := hj
  have hji : ¬ j ≤ i := by omega
  simp [exampleLower, hji]

theorem flags_none_holds [Zero R] [Star R] (P : DenseMatrix R) : DeclFlags.none.Holds P := by
  refine ⟨?_, ?_, ?_, ?_⟩ <;> intro h <;> exact absurd h (by decide)

theorem product_traits_sound_witness :
    Traits.lower.Holds exampleLower ∧
      (TSMatTDMatMultExpr.traits DeclFlags.none true Traits.lower Traits.lower).isLower = true ∧
      IsLowerMatrix (productMatrix exampleLower exampleLower) :=
  ⟨exampleLower_holds, rfl,
    (product_traits_sound DeclFlags.none true Traits.lower Traits.lower exampleLower
      exampleLower 2 ⟨rfl, rfl⟩ ⟨rfl, rfl⟩ exampleLower_holds exampleLower_holds
      (flags_none_holds _)).1 rfl⟩


/-! ## Monotonicity of the propagated traits -/

theorem bool_or_mono {a b c d : Bool} (h1 : a = true → c = true) (h2 : b = true → d = true)
    (h : (a || b) = true) : (c || d) = true := by
  rcases Bool.or_eq_true_iff.1 h with h | h
  · exact Bool.or_eq_true_iff.2 (Or.inl (h1 h))
  · exact Bool.or_eq_true_iff.2 (Or.inr (h2 h))

theorem bool_and_mono {a b c d : Bool} (h1 : a = true → c = true) (h2 : b = true → d = true)
    (h : (a && b) = true) : (c && d) = true := by
  obtain ⟨ha, hb⟩ := Bool.and_eq_true_iff.1 h
  exact Bool.and_eq_true_iff.2 ⟨h1 ha, h2 hb⟩

theorem traits_le_of_le (f g : DeclFlags) (b b2 : Bool) (mt1 nt1 mt2 nt2 : Traits)
    (hf : f.le g) (hb : b = true → b2 = true) (h1 : mt1.le nt1) (h2 : mt2.le nt2) :
    (TSMatTDMatMultExpr.traits f b mt1 mt2).le (TSMatTDMatMultExpr.traits g b2 nt1 nt2) := by
  obtain ⟨fS, fH, fL, fU⟩ := hf
  obtain ⟨-, -, aL, aUL, aSL, aU, aUU, aSU⟩ := h1
  obtain ⟨-, -, bL, bUL, bSL, bU, bUU, bSU⟩ := h2
  have fSH := bool_or_mono fS fH
  exact ⟨bool_or_mono (bool_or_mono fS (bool_and_mono fH hb)) (bool_and_mono fL fU),
    fH,
    bool_or_mono (bool_or_mono fL (bool_and_mono aL bL)) (bool_and_mono (bool_and_mono fSH aU) bU),
    bool_or_mono (bool_and_mono aUL bUL) (bool_and_mono (bool_and_mono fSH aUU) bUU),
    bool_or_mono (bool_or_mono (bool_and_mono aSL bL) (bool_and_mono bSL aL))
      (bool_and_mono fSH (bool_or_mono (bool_and_mono aSU bU) (bool_and_mono bSU aU))),
    bool_or_mono (bool_or_mono fU (bool_and_mono aU bU)) (bool_and_mono (bool_and_mono fSH aL) bL),
    bool_or_mono (bool_and_mono aUU bUU) (bool_and_mono (bool_and_mono fSH aUL) bUL),
    bool_or_mono (bool_or_mono (bool_and_mono aSU bU) (bool_and_mono bSU aU))
      (bool_and_mono fSH (bool_or_mono (bool_and_mono aSL bL) (bool_and_mono bSL aL)))⟩

/-- C21: every structural trait of the product node (`IsSymmetric`,
`IsHermitian`, `IsLower`, `IsUniLower`, `IsStrictlyLower`, `IsUpper`,
`IsUniUpper`, `IsStrictlyUpper`) is monotone in the flags `SF`, `HF`, `LF`, `UF`,
the builtin bit and the traits of the two operands: when inputs only turn from
false to true, no trait of the node turns from true to false. -/
theorem product_traits_monotone (f g : DeclFlags) (b b2 : Bool) (mt1 nt1 mt2 nt2 : Traits)
    (hf : f.le g) (hb : b = true → b2 = true) (h1 : mt1.le nt1) (h2 : mt2.le nt2) :
    (TSMatTDMatMultExpr.traits f b mt1 mt2).le (TSMatTDMatMultExpr.traits g b2 nt1 nt2) :=
  traits_le_of_le f g b b2 mt1 nt1 mt2 nt2 hf hb h1 h2

theorem product_traits_monotone_witness :
    DeclFlags.none.le DeclFlags.hermitian ∧ Traits.none.le Traits.lower ∧
      (TSMatTDMatMultExpr.traits DeclFlags.none false Traits.none Traits.lower).le
        (TSMatTDMatMultExpr.traits DeclFlags.hermitian true Traits.lower Traits.lower) :=
  ⟨by decide, by decide,
    product_traits_monotone DeclFlags.none DeclFlags.hermitian false true Traits.none
      Traits.lower Traits.lower Traits.lower (by decide) (by decide) (by decide) (by decide)⟩


/-! ## The addition and subtraction assignment kernels -/

theorem jbeginUPP_eq (f : DeclFlags) (t : StructFlags) (i1 i jj : Nat)
    (hf : (f.SYM || f.HERM) = false) : jbeginUPP f t i1 i jj = jbegin f t i1 i jj := by
  unfold jbeginUPP jbegin
  rw [hf, Bool.false_or]

theorem subUpdate_eq_smallUpdate [CommRing R] (B : DenseMatrix R) (i i1 : Nat) (v : R)
    (jb je : Nat) (C : DenseMatrix R) :
    subUpdate B i i1 v jb je C = smallUpdate B i i1 (-v) jb je C := by
  unfold subUpdate smallUpdate
  have hbody : (fun (j : Nat) (C : DenseMatrix R) =>
      C.set i1 j (C.elem i1 j - v * B.elem i j)) =
      (fun j C => C.set i1 j (C.elem i1 j + -v * B.elem i j)) := by
    funext j C
    rw [neg_mul, sub_eq_add_neg]
  rw [hbody]

/-- The accumulation on one column block when the stored value `v` enters as
`g v`. -/
theorem accumBlock_elem [CommRing R] (g : R → R) (f : DeclFlags) (t : StructFlags)
    (A : CompressedMatrix R) (B : DenseMatrix R) (jj jpos : Nat) (C : DenseMatrix R)
    (r c : Nat) :
    (forLoop 0 A.columns 1 (fun i C =>
      (A.col i).foldl (fun C element =>
        smallUpdate B i element.index (g element.value) (jbegin f t element.index i jj)
          (jend f t element.index i jpos) C) C) C).elem r c =
      if jj ≤ c ∧ c < jpos then
        C.elem r c + Finset.sum (Finset.range A.columns)
          (fun i => ((A.col i).map
            (fun e => bandTerm f t B i r c ⟨e.index, g e.value⟩)).sum)
      else C.elem r c := by
  rw [forLoop_accum A.columns _
    (fun i r c => if jj ≤ c ∧ c < jpos then
      ((A.col i).map (fun e => bandTerm f t B i r c ⟨e.index, g e.value⟩)).sum else 0)]
  · by_cases hb : jj ≤ c ∧ c < jpos
    · simp only [hb, and_self, if_true]
    · simp only [hb, if_false, Finset.sum_const_zero, add_zero]
  · intro i C r c _
    rw [foldl_accum _ (fun e r c => if r = e.index ∧ jbegin f t e.index i jj ≤ c ∧
        c < jend f t e.index i jpos then g e.value * B.elem i c else 0)]
    · congr 1
      rw [← sum_map_ite_const]
      congr 1
      apply List.map_congr_left
      intro e _
      exact windowTerm_eq f t B i jj jpos r c ⟨e.index, g e.value⟩
    · intro e C r c
      rw [smallUpdate_elem]

/-- Entry-wise description of a blocked accumulation loop with blocks of 64
columns. -/
theorem accumBlockedLoop_elem [CommRing R] (g : R → R) (f : DeclFlags) (t : StructFlags)
    (A : CompressedMatrix R) (B : DenseMatrix R) (C : DenseMatrix R) (r c : Nat) :
    (forLoop 0 B.columns 64 (fun jj C =>
      forLoop 0 A.columns 1 (fun i C =>
        (A.col i).foldl (fun C element =>
          smallUpdate B i element.index (g element.value) (jbegin f t element.index i jj)
            (jend f t element.index i (blockEnd 64 B.columns jj)) C) C) C) C).elem r c =
      if c < B.columns then
        C.elem r c + Finset.sum (Finset.range A.columns)
          (fun i => ((A.col i).map
            (fun e => bandTerm f t B i r c ⟨e.index, g e.value⟩)).sum)
      else C.elem r c :=
  blockLoop_elem B.columns 64 (by decide) _
    (fun x r c => x + Finset.sum (Finset.range A.columns)
      (fun i => ((A.col i).map (fun e => bandTerm f t B i r c ⟨e.index, g e.value⟩)).sum))
    (fun jj C r c _ => accumBlock_elem g f t A B jj (blockEnd 64 B.columns jj) C r c) C r c

/-- Without flags every stored element with row index `r` contributes. -/
theorem sum_bandTerm_none [CommRing R] (g : R → R) (A : CompressedMatrix R)
    (B : DenseMatrix R) (r c : Nat) :
    Finset.sum (Finset.range A.columns) (fun i => ((A.col i).map
      (fun e => bandTerm DeclFlags.none StructFlags.none B i r c ⟨e.index, g e.value⟩)).sum) =
    Finset.sum (Finset.range A.columns) (fun i => ((A.col i).map
      (fun e => if e.index = r then g e.value * B.elem i c else 0)).sum) := by
  apply Finset.sum_congr rfl
  intro l _
  apply congrArg
  apply List.map_congr_left
  intro e _
  simp [bandTerm, structBand_none, declBand_none]

theorem sum_map_neg [CommRing R] {α : Type} (g : α → R) (es : List α) :
    (es.map (fun e => -g e)).sum = -(es.map g).sum := by
  induction es with
  | nil => simp
  | cons e es ih =>
    simp only [List.map_cons, List.sum_cons, ih]
    ring

/-- The default addition assignment kernel without flags adds the naive
product. -/
theorem defaultAddKernel_none_elem [CommRing R]
    (A : CompressedMatrix R) (B : DenseMatrix R) (C : DenseMatrix R) (hA : A.WF)
    (r c : Nat) (hc : c < B.columns) :
    (selectDefaultAddAssignKernel DeclFlags.none StructFlags.none C A B).elem r c =
      C.elem r c + naiveProduct A B r c := by
  unfold selectDefaultAddAssignKernel
  have hd : StructFlags.none.isDiagonal = false := rfl
  simp only [hd, Bool.false_eq_true, if_false,
    jbeginUPP_eq DeclFlags.none StructFlags.none _ _ _ rfl]
  rw [accumBlockedLoop_elem (fun v => v), if_pos hc, sum_bandTerm_none (fun v => v) A B r c,
    sum_columns_eq_naiveProduct A B hA r c]

/-- The default subtraction assignment kernel without flags subtracts the naive
product. -/
theorem defaultSubKernel_none_elem [CommRing R]
    (A : CompressedMatrix R) (B : DenseMatrix R) (C : DenseMatrix R) (hA : A.WF)
    (r c : Nat) (hc : c < B.columns) :
    (selectDefaultSubAssignKernel DeclFlags.none StructFlags.none C A B).elem r c =
      C.elem r c - naiveProduct A B r c := by
  unfold selectDefaultSubAssignKernel
  have hd : StructFlags.none.isDiagonal = false := rfl
  simp only [hd, Bool.false_eq_true, if_false, subUpdate_eq_smallUpdate,
    jbeginUPP_eq DeclFlags.none StructFlags.none _ _ _ rfl]
  rw [accumBlockedLoop_elem (fun v => -v), if_pos hc, sum_bandTerm_none (fun v => -v) A B r c,
    ← sum_columns_eq_naiveProduct A B hA r c, sub_eq_add_neg, ← Finset.sum_neg_distrib]
  congr 1
  apply Finset.sum_congr rfl
  intro l _
  rw [← sum_map_neg]
  apply congrArg
  apply List.map_congr_left
  intro e _
  by_cases he : e.index = r
  · simp [he]
  · simp [he]

/-- C22: for a product node without declaration flags, a well-formed `A`, a
right operand `B` without static structure flags and any initial target `C0`,
`selectDefaultAddAssignKernel` leaves `C(i,j) = C0(i,j) + sum over l of
A(i,l) * B(l,j)` and `selectDefaultSubAssignKernel` leaves
`C(i,j) = C0(i,j) - sum over l of A(i,l) * B(l,j)` in every entry `(i,j)` with
`j < B.columns()`, in particular in every entry of a conformant target. -/
theorem default_add_sub_kernels [CommRing R]
    (A : CompressedMatrix R) (B : DenseMatrix R) (C0 : DenseMatrix R) (hA : A.WF)
    (i j : Nat) (hj : j < B.columns) :
    (selectDefaultAddAssignKernel DeclFlags.none StructFlags.none C0 A B).elem i j =
        C0.elem i j + naiveProduct A B i j ∧
      (selectDefaultSubAssignKernel DeclFlags.none StructFlags.none C0 A B).elem i j =
        C0.elem i j - naiveProduct A B i j :=
  ⟨defaultAddKernel_none_elem A B C0 hA i j hj, defaultSubKernel_none_elem A B C0 hA i j hj⟩

theorem default_add_sub_kernels_witness :
    exampleA.WF ∧ 0 < (identity 3 : DenseMatrix Int).columns ∧
      (selectDefaultAddAssignKernel DeclFlags.none StructFlags.none (filled 3 3 7) exampleA
          (identity 3)).elem 2 0 = (filled 3 3 7).elem 2 0 + naiveProduct exampleA (identity 3) 2 0 ∧
      (selectDefaultSubAssignKernel DeclFlags.none StructFlags.none (filled 3 3 7) exampleA
          (identity 3)).elem 2 0 = (filled 3 3 7).elem 2 0 - naiveProduct exampleA (identity 3) 2 0 :=
  ⟨exampleA_WF, by decide,
    default_add_sub_kernels exampleA (identity 3) (filled 3 3 7) exampleA_WF 2 0 (by decide)⟩


/-! ## Right operands with static structure, no declaration flags -/

theorem mem_blockStarts (n x : Nat) : x ∈ blockStarts n 64 ↔ 64 ∣ x ∧ x < n := by
  obtain ⟨j', hj', hdvd, hI⟩ := forLoop_invariant
    (fun jj (visited : List Nat) => 64 ∣ jj ∧ ∀ x, x ∈ visited ↔ (64 ∣ x ∧ x < jj ∧ x < n))
    0 n 64 (fun jj visited => visited ++ [jj]) [] (by decide)
    ⟨by omega, by intro x; simp⟩
    (by
      rintro jj visited hjj ⟨hd, hI⟩
      refine ⟨by omega, ?_⟩
      intro x
      rw [List.mem_append, hI x, List.mem_singleton]
      omega)
  unfold blockStarts
  rw [hI x]
  omega

/-- Every column below `n` lies in the block of exactly one visited block
start. -/
theorem unique_block (n c : Nat) (hc : c < n) :
    ∃! jj, jj ∈ blockStarts n 64 ∧ jj ≤ c ∧ c < blockEnd 64 n jj := by
  refine ⟨c / 64 * 64, ⟨(mem_blockStarts n _).2 ⟨by omega, by omega⟩, by omega, ?_⟩, ?_⟩
  · unfold blockEnd
    split_ifs <;> omega
  · rintro jj ⟨hmem, hle, hlt⟩
    have hd := ((mem_blockStarts n jj).1 hmem).1
    unfold blockEnd at hlt
    split_ifs at hlt <;> omega

/-- Without declaration flags, a column of the current block that the range
`[jbegin, jend)` of a stored element of column `i` leaves out meets a zero of
row `i` of `B`. -/
theorem clipped_entry_zero [CommRing R] (t : StructFlags) (B : DenseMatrix R)
    (ht : t.Holds B) (i i1 jj jpos c : Nat) (hi : i < B.rows) (hc : c < B.columns)
    (hjj : jj ≤ c) (hjpos : c < jpos)
    (hout : ¬ (jbegin DeclFlags.none t i1 i jj ≤ c ∧ c < jend DeclFlags.none t i1 i jpos)) :
    B.elem i c = 0 := by
  apply structBand_false_zero t B ht i c hi hc
  cases hb : structBand t i c
  · rfl
  · exact absurd ((window_iff DeclFlags.none t i1 i1 i jj jpos c).2
      ⟨⟨hjj, hjpos⟩, hb, declBand_none i1 i1 c⟩) hout

theorem defaultKernel_static_elem [CommRing R] [DecidableEq R] [Star R]
    (t : StructFlags) (A : CompressedMatrix R) (B : DenseMatrix R) (C : DenseMatrix R)
    (hA : A.WF) (ht : t.Holds B) (hconf : A.columns = B.rows) (hrows : C.rows = A.rows)
    (hcols : C.columns = B.columns) (r c : Nat) (hr : r < A.rows) (hc : c < B.columns) :
    (selectDefaultAssignKernel DeclFlags.none t C A B).elem r c = naiveProduct A B r c := by
  apply default_kernel_declared_structure DeclFlags.none t A B C rfl hA ht hconf hrows hcols _
    r c hr hc
  intro r c _ _ hb
  rw [declBand_none] at hb
  cases hb

/-- C29: for a product node without declaration flags and a right operand `B`
that has the structure its static flags assert, `selectDefaultAssignKernel`
leaves `C(r,c) = sum over l of A(r,l) * B(l,c)` in every entry of the target.
The diagonal branch skips only the contributions of the rows `i ≠ c` of `B`,
where `B(i,c) = 0`; a column `c` of the current block outside the clipped range
`[jbegin, jend)` of a stored element of column `i` has `B(i,c) = 0`; and every
column `c < B.columns()` lies in the block `[jj, jpos)` of exactly one visited
block start `jj`. -/
theorem default_kernel_static_structure [CommRing R] [DecidableEq R] [Star R]
    (t : StructFlags) (A : CompressedMatrix R) (B : DenseMatrix R) (C : DenseMatrix R)
    (hA : A.WF) (ht : t.Holds B) (hconf : A.columns = B.rows) (hrows : C.rows = A.rows)
    (hcols : C.columns = B.columns) (r c : Nat) (hr : r < A.rows) (hc : c < B.columns) :
    (selectDefaultAssignKernel DeclFlags.none t C A B).elem r c = naiveProduct A B r c ∧
      (t.isDiagonal = true → ∀ i, i < B.rows → i ≠ c → B.elem i c = 0) ∧
      (∀ i i1 jj, i < B.rows → jj ≤ c → c < blockEnd 64 B.columns jj →
        ¬ (jbegin DeclFlags.none t i1 i jj ≤ c ∧
          c < jend DeclFlags.none t i1 i (blockEnd 64 B.columns jj)) → B.elem i c = 0) ∧
      (∃! jj, jj ∈ blockStarts B.columns 64 ∧ jj ≤ c ∧ c < blockEnd 64 B.columns jj) :=
  ⟨defaultKernel_static_elem t A B C hA ht hconf hrows hcols r c hr hc,
    fun hd i hi hne => ht.1 hd i c hi hc hne,
    fun i i1 jj hi hjj hjpos hout =>
      clipped_entry_zero t B ht i i1 jj (blockEnd 64 B.columns jj) c hi hc hjj hjpos hout,
    unique_block B.columns c hc⟩

theorem exampleUpper_holds : StructFlags.upper.Holds exampleUpper := by
  refine ⟨fun h => absurd h (by decide), fun _ l j _ _ h => ?_, fun h => absurd h (by decide),
    fun h => absurd h (by decide), fun h => absurd h (by decide)⟩
  have hn : ¬ l ≤ j := by omega
  simp [exampleUpper, hn]

theorem default_kernel_static_structure_witness :
    exampleA.WF ∧ StructFlags.upper.Holds exampleUpper ∧
      (selectDefaultAssignKernel DeclFlags.none StructFlags.upper (filled 3 3 7) exampleA
        exampleUpper).elem 2 1 = naiveProduct exampleA exampleUpper 2 1 :=
  ⟨exampleA_WF, exampleUpper_holds,
    (default_kernel_static_structure StructFlags.upper exampleA exampleUpper (filled 3 3 7)
      exampleA_WF exampleUpper_holds rfl rfl rfl 2 1 (by decide) (by decide)).1⟩


/-! ## Element access through the product node -/

theorem accessBegin_le_iff (t1 t2 : StructFlags) (i j l : Nat) :
    accessBegin t1 t2 i j ≤ l ↔
      ((t1.isUpper = true → (if t1.isStrictlyUpper then i + 1 else i) ≤ l) ∧
        (t2.isLower = true → (if t2.isStrictlyLower then j + 1 else j) ≤ l)) := by
  unfold accessBegin
  generalize (if t1.isStrictlyUpper then i + 1 else i) = a
  generalize (if t2.isStrictlyLower then j + 1 else j) = b
  cases t1.isUpper <;> cases t2.isLower <;> simp

theorem lt_accessEnd_iff (t1 t2 : StructFlags) (n i j l : Nat) (hl : l < n) :
    l < accessEnd t1 t2 n i j ↔
      ((t1.isLower = true → l < (if t1.isStrictlyLower then i else i + 1)) ∧
        (t2.isUpper = true → l < (if t2.isStrictlyUpper then j else j + 1))) := by
  unfold accessEnd
  generalize (if t1.isStrictlyLower then i else i + 1) = a
  generalize (if t2.isStrictlyUpper then j else j + 1) = b
  cases t1.isLower <;> cases t2.isUpper <;> simp [hl]

/-- The range `[begin, end)` ends inside the row of the left operand. -/
theorem accessEnd_le (t1 t2 : StructFlags) (n i j : Nat)
    (h1 : t1.isLower = true → i < n) (h2 : t2.isUpper = true → j < n) :
    accessEnd t1 t2 n i j ≤ n := by
  unfold accessEnd
  cases hl : t1.isLower
  · cases hu : t2.isUpper
    · simp only [Bool.false_eq_true, if_false, le_refl]
    · have := h2 hu
      simp only [Bool.false_eq_true, if_false, if_true]
      split_ifs <;> omega
  · have := h1 hl
    simp only [if_true]
    split_ifs <;> omega

/-- Outside the range `[begin, end)` every term of the inner product has a zero
factor. -/
theorem term_zero_outside [CommRing R] (t1 t2 : StructFlags) (A : CompressedMatrix R)
    (B : DenseMatrix R) (h1 : t1.Holds A.toDense) (h2 : t2.Holds B)
    (hconf : A.columns = B.rows) (i j l : Nat) (hi : i < A.rows) (hj : j < B.columns)
    (hl : l < A.columns)
    (hout : ¬ (accessBegin t1 t2 i j ≤ l ∧ l < accessEnd t1 t2 A.columns i j)) :
    A.at i l * B.elem l j = 0 := by
  obtain ⟨-, aU, aL, aSU, aSL⟩ := h1
  obtain ⟨-, bU, bL, bSU, bSL⟩ := h2
  have hl' : l < B.rows := hconf ▸ hl
  rw [accessBegin_le_iff, lt_accessEnd_iff t1 t2 A.columns i j l hl] at hout
  have hA : ∀ x, A.toDense.elem i x = A.at i x := fun _ => rfl
  by_cases c1 : t1.isUpper = true ∧ l < (if t1.isStrictlyUpper then i + 1 else i)
  · obtain ⟨hu, hlt⟩ := c1
    have hz : A.at i l = 0 := by
      cases hs : t1.isStrictlyUpper
      · rw [hs] at hlt
        exact aU hu i l hi hl (by simpa using hlt)
      · rw [hs] at hlt
        exact aSU hs i l hi hl (by simp at hlt; omega)
    rw [hz, zero_mul]
  by_cases c2 : t2.isLower = true ∧ l < (if t2.isStrictlyLower then j + 1 else j)
  · obtain ⟨hu, hlt⟩ := c2
    have hz : B.elem l j = 0 := by
      cases hs : t2.isStrictlyLower
      · rw [hs] at hlt
        exact bL hu l j hl' hj (by simpa using hlt)
      · rw [hs] at hlt
        exact bSL hs l j hl' hj (by simp at hlt; omega)
    rw [hz, mul_zero]
  by_cases c3 : t1.isLower = true ∧ (if t1.isStrictlyLower then i else i + 1) ≤ l
  · obtain ⟨hu, hlt⟩ := c3
    have hz : A.at i l = 0 := by
      cases hs : t1.isStrictlyLower
      · rw [hs] at hlt
        exact aL hu i l hi hl (by simp at hlt; omega)
      · rw [hs] at hlt
        exact aSL hs i l hi hl (by simpa using hlt)
    rw [hz, zero_mul]
  by_cases c4 : t2.isUpper = true ∧ (if t2.isStrictlyUpper then j else j + 1) ≤ l
  · obtain ⟨hu, hlt⟩ := c4
    have hz : B.elem l j = 0 := by
      cases hs : t2.isStrictlyUpper
      · rw [hs] at hlt
        exact bU hu l j hl' hj (by simp at hlt; omega)
      · rw [hs] at hlt
        exact bSU hs l j hl' hj (by simpa using hlt)
    rw [hz, mul_zero]
  exfalso
  apply hout
  refine ⟨⟨fun h => ?_, fun h => ?_⟩, ⟨fun h => ?_, fun h => ?_⟩⟩
  · by_contra hc
    exact c1 ⟨h, by omega⟩
  · by_contra hc
    exact c2 ⟨h, by omega⟩
  · by_contra hc
    exact c3 ⟨h, by omega⟩
  · by_contra hc
    exact c4 ⟨h, by omega⟩

/-- A sum whose terms vanish outside `[b, e)` is the sum over that range. -/
theorem sum_range_window [CommRing R] (f : Nat → R) (n b e : Nat) (he : e ≤ n)
    (hz : ∀ l, l < n → ¬ (b ≤ l ∧ l < e) → f l = 0) :
    Finset.sum (Finset.range n) f = Finset.sum (Finset.range (e - b)) (fun l => f (b + l)) := by
  rw [← Finset.sum_Ico_eq_sum_range]
  symm
  apply Finset.sum_subset
  · intro x hx
    rw [Finset.mem_Ico] at hx
    exact Finset.mem_range.2 (by omega)
  · intro x hx hnot
    exact hz x (Finset.mem_range.1 hx) (fun h => hnot (Finset.mem_Ico.2 h))

theorem call_eq_naiveProduct [CommRing R] (t1 t2 : StructFlags) (triangular1 triangular2 : Bool)
    (e : TSMatTDMatMultExpr R) (h1 : t1.Holds e.lhs.toDense) (h2 : t2.Holds e.rhs)
    (hsq1 : t1.isStructured = true → e.lhs.rows = e.lhs.columns)
    (hsq2 : t2.isStructured = true → e.rhs.rows = e.rhs.columns)
    (hconf : e.lhs.columns = e.rhs.rows) (i j : Nat) (hi : i < e.lhs.rows)
    (hj : j < e.rhs.columns) :
    e.call t1 t2 triangular1 triangular2 i j = .ok (naiveProduct e.lhs e.rhs i j) := by
  have hstart : e.call t1 t2 triangular1 triangular2 i j =
      (if t1.isDiagonal then pure (e.lhs.at i i * e.rhs.elem i j)
      else if t2.isDiagonal then pure (e.lhs.at i j * e.rhs.elem j j)
      else if triangular1 || triangular2 then
        if accessBegin t1 t2 i j ≥ accessEnd t1 t2 e.lhs.columns i j then pure 0
        else subvectorProduct e.lhs e.rhs i j (accessBegin t1 t2 i j)
          (accessEnd t1 t2 e.lhs.columns i j - accessBegin t1 t2 i j)
      else rowColumnProduct e.lhs e.rhs i j) := by
    simp [TSMatTDMatMultExpr.call, internalAssert, hi, hj]
    rfl
  rw [hstart]
  cases hd1 : t1.isDiagonal
  · cases hd2 : t2.isDiagonal
    · simp only [Bool.false_eq_true, if_false]
      cases htri : (triangular1 || triangular2)
      · simp only [Bool.false_eq_true, if_false]
        unfold rowColumnProduct
        rw [if_neg (not_not.2 hconf)]
        rfl
      · simp only [if_true]
        have hend : accessEnd t1 t2 e.lhs.columns i j ≤ e.lhs.columns := by
          apply accessEnd_le
          · intro hl
            have := hsq1 (by simp [StructFlags.isStructured, hl])
            omega
          · intro hu
            have := hsq2 (by simp [StructFlags.isStructured, hu])
            omega
        have hsum := sum_range_window (fun l => e.lhs.at i l * e.rhs.elem l j)
          e.lhs.columns (accessBegin t1 t2 i j) (accessEnd t1 t2 e.lhs.columns i j) hend
          (fun l hl hout => term_zero_outside t1 t2 e.lhs e.rhs h1 h2 hconf i j l hi hj hl hout)
        by_cases hge : accessBegin t1 t2 i j ≥ accessEnd t1 t2 e.lhs.columns i j
        · rw [if_pos hge]
          unfold naiveProduct
          rw [hsum, Nat.sub_eq_zero_of_le hge, Finset.sum_range_zero]
          rfl
        · rw [if_neg hge]
          unfold subvectorProduct naiveProduct
          rw [if_neg (by omega), if_neg (by omega), hsum]
    · simp only [Bool.false_eq_true, if_false, if_true]
      have hsq := hsq2 (by simp [StructFlags.isStructured, hd2])
      have hjc : j < e.lhs.columns := by omega
      unfold naiveProduct
      rw [Finset.sum_eq_single j
        (fun l hl hne => by
          rw [h2.1 hd2 l j (by rw [← hconf]; exact Finset.mem_range.1 hl) hj hne, mul_zero])
        (fun h => absurd (Finset.mem_range.2 hjc) h)]
      rfl
  · simp only [if_true]
    have hsq := hsq1 (by simp [StructFlags.isStructured, hd1])
    have hic : i < e.lhs.columns := by omega
    unfold naiveProduct
    rw [Finset.sum_eq_single i
      (fun l hl hne => by
        have hz : e.lhs.at i l = 0 :=
          h1.1 hd1 i l hi (Finset.mem_range.1 hl) (fun h => hne h.symm)
        rw [hz, zero_mul])
      (fun h => absurd (Finset.mem_range.2 hic) h)]
    rfl

/-- When the range is empty the inner product is zero. -/
theorem naiveProduct_zero_of_empty_range [CommRing R] (t1 t2 : StructFlags)
    (A : CompressedMatrix R) (B : DenseMatrix R) (h1 : t1.Holds A.toDense) (h2 : t2.Holds B)
    (hconf : A.columns = B.rows) (i j : Nat) (hi : i < A.rows) (hj : j < B.columns)
    (hge : accessBegin t1 t2 i j ≥ accessEnd t1 t2 A.columns i j) :
    naiveProduct A B i j = 0 := by
  unfold naiveProduct
  apply Finset.sum_eq_zero
  intro l hl
  exact term_zero_outside t1 t2 A B h1 h2 hconf i j l hi hj (Finset.mem_range.1 hl)
    (fun h => by omega)

theorem accessEnd_le_columns (t1 t2 : StructFlags) (A : CompressedMatrix R) (B : DenseMatrix R)
    (hsq1 : t1.isStructured = true → A.rows = A.columns)
    (hsq2 : t2.isStructured = true → B.rows = B.columns)
    (hconf : A.columns = B.rows) (i j : Nat) (hi : i < A.rows) (hj : j < B.columns) :
    accessEnd t1 t2 A.columns i j ≤ A.columns := by
  apply accessEnd_le
  · intro hl
    have := hsq1 (by simp [StructFlags.isStructured, hl])
    omega
  · intro hu
    have := hsq2 (by simp [StructFlags.isStructured, hu])
    omega

/-- C28: for a product node whose operands have the structure their static
flags assert (structured operands being square) and all `i < rows()`,
`j < columns()`, `operator()( i, j )` returns the full inner product
`sum over l of A(i,l) * B(l,j)`.  The range `[begin, end)` of the triangular
branch ends at or before `A.columns()`, every term outside the range is zero,
and the inner product is zero when `begin >= end`. -/
theorem product_access_spec [CommRing R] (t1 t2 : StructFlags) (triangular1 triangular2 : Bool)
    (e : TSMatTDMatMultExpr R) (h1 : t1.Holds e.lhs.toDense) (h2 : t2.Holds e.rhs)
    (hsq1 : t1.isStructured = true → e.lhs.rows = e.lhs.columns)
    (hsq2 : t2.isStructured = true → e.rhs.rows = e.rhs.columns)
    (hconf : e.lhs.columns = e.rhs.rows) (i j : Nat) (hi : i < e.lhs.rows)
    (hj : j < e.rhs.columns) :
    e.call t1 t2 triangular1 triangular2 i j = .ok (naiveProduct e.lhs e.rhs i j) ∧
      accessEnd t1 t2 e.lhs.columns i j ≤ e.lhs.columns ∧
      (∀ l, l < e.lhs.columns →
        ¬ (accessBegin t1 t2 i j ≤ l ∧ l < accessEnd t1 t2 e.lhs.columns i j) →
        e.lhs.at i l * e.rhs.elem l j = 0) ∧
      (accessBegin t1 t2 i j ≥ accessEnd t1 t2 e.lhs.columns i j →
        naiveProduct e.lhs e.rhs i j = 0) :=
  ⟨call_eq_naiveProduct t1 t2 triangular1 triangular2 e h1 h2 hsq1 hsq2 hconf i j hi hj,
    accessEnd_le_columns t1 t2 e.lhs e.rhs hsq1 hsq2 hconf i j hi hj,
    fun l hl hout => term_zero_outside t1 t2 e.lhs e.rhs h1 h2 hconf i j l hi hj hl hout,
    naiveProduct_zero_of_empty_range t1 t2 e.lhs e.rhs h1 h2 hconf i j hi hj⟩

theorem exampleSparseLower_holds : StructFlags.lower.Holds exampleSparseLower.toDense := by
  refine ⟨fun h => absurd h (by decide), fun h => absurd h (by decide), fun _ l j hl hj h => ?_,
    fun h => absurd h (by decide), fun h => absurd h (by decide)⟩
  have hl3 : l < 3 := hl
  have hj3 : j < 3 := hj
  interval_cases l <;> interval_cases j <;> first | omega | rfl

theorem product_access_spec_witness :
    StructFlags.lower.Holds exampleSparseLower.toDense ∧ StructFlags.upper.Holds exampleUpper ∧
      TSMatTDMatMultExpr.call StructFlags.lower StructFlags.upper true true
        ⟨exampleSparseLower, exampleUpper, DeclFlags.none⟩ 2 1 =
        .ok (naiveProduct exampleSparseLower exampleUpper 2 1) :=
  ⟨exampleSparseLower_holds, exampleUpper_holds,
    (product_access_spec StructFlags.lower StructFlags.upper true true
      ⟨exampleSparseLower, exampleUpper, DeclFlags.none⟩ exampleSparseLower_holds
      exampleUpper_holds (fun _ => rfl) (fun _ => rfl) rfl 2 1 (by decide) (by decide)).1⟩


/-! ## Selection of the assignment path -/

/-- C30, as stated, fails: for a symmetric target type and a symmetric operand
the direct overloads are disabled and the restructuring overload rejects the
target at compile time, so no path is selected where the claim names the direct
one; for a Hermitian target type that is not symmetric the restructuring path is
selected where the claim names the direct one. -/
theorem assign_path_counterexample :
    selectAssignPath Traits.symmetric Traits.symmetric Traits.none = none ∧
      specifiedAssignPath Traits.symmetric Traits.symmetric Traits.none = .direct ∧
      selectAssignPath Traits.hermitian Traits.symmetric Traits.none = some .restructuring ∧
      specifiedAssignPath Traits.hermitian Traits.symmetric Traits.none = .direct := by
  decide

theorem selectAssignPath_cases (MT MT1 MT2 : Traits) :
    (selectAssignPath MT MT1 MT2 = some .restructuring ↔
        (MT.isSymmetric = false ∧ (MT1.isSymmetric = true ∨ MT2.isSymmetric = true))) ∧
      (selectAssignPath MT MT1 MT2 = some .direct ↔
        (MT1.isSymmetric = false ∧ MT2.isSymmetric = false)) ∧
      (selectAssignPath MT MT1 MT2 = none ↔
        (MT.isSymmetric = true ∧ (MT1.isSymmetric = true ∨ MT2.isSymmetric = true))) := by
  unfold selectAssignPath CanExploitSymmetry
  cases MT.isSymmetric <;> cases MT1.isSymmetric <;> cases MT2.isSymmetric <;> simp

/-- C30, amended: the selection consults the operand types only.  The
restructuring path is taken if and only if at least one operand is statically
symmetric and the target type is not symmetric; the direct path is taken if and
only if neither operand is statically symmetric; with a symmetric operand and a
symmetric target type no path is taken, the program is rejected at compile
time.  Whether the target type is Hermitian is not consulted. -/
theorem assign_path_spec (MT MT1 MT2 : Traits) :
    (selectAssignPath MT MT1 MT2 = some .restructuring ↔
        (MT.isSymmetric = false ∧ (MT1.isSymmetric = true ∨ MT2.isSymmetric = true))) ∧
      (selectAssignPath MT MT1 MT2 = some .direct ↔
        (MT1.isSymmetric = false ∧ MT2.isSymmetric = false)) ∧
      (selectAssignPath MT MT1 MT2 = none ↔
        (MT.isSymmetric = true ∧ (MT1.isSymmetric = true ∨ MT2.isSymmetric = true))) :=
  selectAssignPath_cases MT MT1 MT2

/-! ## Type resolution traits -/

theorem sVecScalarDivTrait_cases {Ty : Type} (tt : TypeTraits Ty) (VT ST : Ty) :
    (SVecScalarDivTrait tt VT ST = .INVALID_TYPE ↔
        ¬ (tt.IsSparseVector VT = true ∧ tt.IsTransposeVector VT = false ∧
          tt.IsNumeric ST = true)) ∧
      SVecScalarDivTrait tt VT ST =
        (if tt.IsSparseVector VT = true ∧ tt.IsTransposeVector VT = false ∧
            tt.IsNumeric ST = true then
          (if tt.IsFloatingPoint (tt.DivType (tt.BaseElementType VT) ST) = true then
            .SVecScalarMultExpr VT (tt.DivType (tt.BaseElementType VT) ST) false
          else .SVecScalarDivExpr VT (tt.DivType (tt.BaseElementType VT) ST) false)
        else .INVALID_TYPE) := by
  unfold SVecScalarDivTrait SVecScalarDivTraitHelper
  cases hfp : tt.IsFloatingPoint (tt.DivType (tt.BaseElementType VT) ST) <;>
    cases tt.IsSparseVector VT <;> cases tt.IsTransposeVector VT <;> cases tt.IsNumeric ST <;>
    simp [hfp]

/-- C23: `SVecScalarDivTrait<VT,ST>::Type` is `INVALID_TYPE` exactly when `VT`
is not a non-transpose sparse vector or `ST` is not numeric.  When valid, with
`E` the `DivType` of the base element type of `VT` and `ST`, the type is
`SVecScalarMultExpr<VT,E,false>` if `E` is a floating point type and
`SVecScalarDivExpr<VT,E,false>` otherwise. -/
theorem sVecScalarDivTrait_spec {Ty : Type} (tt : TypeTraits Ty) (VT ST : Ty) :
    (SVecScalarDivTrait tt VT ST = .INVALID_TYPE ↔
        ¬ (tt.IsSparseVector VT = true ∧ tt.IsTransposeVector VT = false ∧
          tt.IsNumeric ST = true)) ∧
      SVecScalarDivTrait tt VT ST =
        (if tt.IsSparseVector VT = true ∧ tt.IsTransposeVector VT = false ∧
            tt.IsNumeric ST = true then
          (if tt.IsFloatingPoint (tt.DivType (tt.BaseElementType VT) ST) = true then
            .SVecScalarMultExpr VT (tt.DivType (tt.BaseElementType VT) ST) false
          else .SVecScalarDivExpr VT (tt.DivType (tt.BaseElementType VT) ST) false)
        else .INVALID_TYPE) :=
  sVecScalarDivTrait_cases tt VT ST

theorem resolution_traits_cases {Ty : Type} (tt : TypeTraits Ty) (T1 T2 : Ty) :
    (DMatScalarMultTrait tt T1 T2 ≠ .INVALID_TYPE ↔
        (tt.IsDenseMatrix T1 = true ∧ tt.IsRowMajorMatrix T1 = true ∧
          tt.IsNumeric T2 = true)) ∧
      (SMatSMatAddTrait tt T1 T2 ≠ .INVALID_TYPE ↔
        ((tt.IsSparseMatrix T1 = true ∧ tt.IsRowMajorMatrix T1 = true) ∧
          (tt.IsSparseMatrix T2 = true ∧ tt.IsRowMajorMatrix T2 = true))) ∧
      (TSVecTDMatMultTrait tt T1 T2 ≠ .INVALID_TYPE ↔
        ((tt.IsSparseVector T1 = true ∧ tt.IsTransposeVector T1 = true) ∧
          (tt.IsDenseMatrix T2 = true ∧ tt.IsColumnMajorMatrix T2 = true))) := by
  refine ⟨?_, ?_, ?_⟩
  · unfold DMatScalarMultTrait DMatScalarMultTraitHelper
    cases tt.IsDenseMatrix T1 <;> cases tt.IsRowMajorMatrix T1 <;> cases tt.IsNumeric T2 <;>
      simp
  · unfold SMatSMatAddTrait
    cases tt.IsSparseMatrix T1 <;> cases tt.IsRowMajorMatrix T1 <;>
      cases tt.IsSparseMatrix T2 <;> cases tt.IsRowMajorMatrix T2 <;> simp
  · unfold TSVecTDMatMultTrait
    cases tt.IsSparseVector T1 <;> cases tt.IsTransposeVector T1 <;>
      cases tt.IsDenseMatrix T2 <;> cases tt.IsColumnMajorMatrix T2 <;> simp

/-- C24: each of the three type resolution traits yields `INVALID_TYPE` exactly
when its operand-kind condition fails.  `DMatScalarMultTrait<MT,ST>` is valid if
and only if `MT` is a row-major dense matrix and `ST` is numeric;
`SMatSMatAddTrait<MT1,MT2>` is valid if and only if `MT1` and `MT2` are row-major
sparse matrices; `TSVecTDMatMultTrait<VT,MT>` is valid if and only if `VT` is a
transpose sparse vector and `MT` is a column-major dense matrix. -/
theorem resolution_traits_spec {Ty : Type} (tt : TypeTraits Ty) (T1 T2 : Ty) :
    (DMatScalarMultTrait tt T1 T2 ≠ .INVALID_TYPE ↔
        (tt.IsDenseMatrix T1 = true ∧ tt.IsRowMajorMatrix T1 = true ∧
          tt.IsNumeric T2 = true)) ∧
      (SMatSMatAddTrait tt T1 T2 ≠ .INVALID_TYPE ↔
        ((tt.IsSparseMatrix T1 = true ∧ tt.IsRowMajorMatrix T1 = true) ∧
          (tt.IsSparseMatrix T2 = true ∧ tt.IsRowMajorMatrix T2 = true))) ∧
      (TSVecTDMatMultTrait tt T1 T2 ≠ .INVALID_TYPE ↔
        ((tt.IsSparseVector T1 = true ∧ tt.IsTransposeVector T1 = true) ∧
          (tt.IsDenseMatrix T2 = true ∧ tt.IsColumnMajorMatrix T2 = true))) :=
  resolution_traits_cases tt T1 T2


/-! ## Availability of a SIMD division -/

/-- Without SVML the two partial specializations have the value false, so a
pair of types other than `<float,float>` and `<double,double>` has no SIMD
division. -/
theorem hasSIMDDivHelper_no_svml (m : SIMDModes) (tt : ScalarTraits) (T1 T2 : CppType)
    (hSVML : m.BLAZE_SVML_MODE = false) (hf : ¬ (T1 = .float ∧ T2 = .float))
    (hd : ¬ (T1 = .double ∧ T2 = .double)) : HasSIMDDivHelper m tt T1 T2 = false := by
  unfold HasSIMDDivHelper
  rw [if_neg hf, if_neg hd, hSVML]
  simp

/-- Types that differ in cv-qualifiers and references only give the same
value. -/
theorem hasSIMDDiv_removeCVRef (m : SIMDModes) (tt : ScalarTraits) (T1 T2 U1 U2 : CppType)
    (h1 : RemoveCVRef T1 = RemoveCVRef U1) (h2 : RemoveCVRef T2 = RemoveCVRef U2) :
    HasSIMDDiv m tt T1 T2 = HasSIMDDiv m tt U1 U2 := by
  unfold HasSIMDDiv
  rw [h1, h2]

/-- The table of the documentation for every configuration with AVX and
without SVML, whatever the scalar traits: five entries have the documented
value, `HasSIMDDiv<complex<float>,float>` is false. -/
theorem hasSIMDDiv_table (m : SIMDModes) (tt : ScalarTraits)
    (hAVX : m.BLAZE_AVX_MODE = true) (hSVML : m.BLAZE_SVML_MODE = false) :
    HasSIMDDiv m tt .float .float = true ∧ HasSIMDDiv m tt .double .double = true ∧
      HasSIMDDiv m tt (.complex .float) .float = false ∧
      HasSIMDDiv m tt .int .int = false ∧ HasSIMDDiv m tt .float .int = false ∧
      HasSIMDDiv m tt .double .float = false := by
  refine ⟨?_, ?_, ?_, ?_, ?_, ?_⟩
  · simp [HasSIMDDiv, HasSIMDDivHelper, RemoveCVRef, RemoveCV, RemoveReference, hAVX]
  · simp [HasSIMDDiv, HasSIMDDivHelper, RemoveCVRef, RemoveCV, RemoveReference, hAVX]
  · exact hasSIMDDivHelper_no_svml m tt _ _ hSVML (by decide) (by decide)
  · exact hasSIMDDivHelper_no_svml m tt _ _ hSVML (by decide) (by decide)
  · exact hasSIMDDivHelper_no_svml m tt _ _ hSVML (by decide) (by decide)
  · exact hasSIMDDivHelper_no_svml m tt _ _ hSVML (by decide) (by decide)

/-- C25, evaluated at the failing input: with AVX available and SVML, MIC and
AVX-512 off, `HasSIMDDiv<complex<float>,float>` is false, where the table of the
documentation says true.  The other five entries of the table have the
documented values, and cv-qualifiers and references do not change a value. -/
theorem hasSIMDDiv_complex_float :
    HasSIMDDiv avxModes exampleScalarTraits (.complex .float) .float = false ∧
      HasSIMDDiv avxModes exampleScalarTraits .float .float = true ∧
      HasSIMDDiv avxModes exampleScalarTraits .double .double = true ∧
      HasSIMDDiv avxModes exampleScalarTraits .int .int = false ∧
      HasSIMDDiv avxModes exampleScalarTraits .float .int = false ∧
      HasSIMDDiv avxModes exampleScalarTraits .double .float = false ∧
      HasSIMDDiv avxModes exampleScalarTraits (.lvalueReference (.const .float))
        (.volatile .float) = true ∧
      HasSIMDDiv avxModes exampleScalarTraits (.const (.complex .float))
        (.rvalueReference .float) = false := by
  decide

/-! ## The linear complementarity problem -/

theorem project_project [LinearOrderedRing R] (p : LCP R) (i : Nat) :
    (p.project i).project i = p.project i := by
  unfold LCP.project
  have hx : (p.x_.set i (max 0 (p.x_.elem i))).set i
      (max 0 ((p.x_.set i (max 0 (p.x_.elem i))).elem i)) =
      p.x_.set i (max 0 (p.x_.elem i)) := by
    apply DenseVector.ext
    · rfl
    · funext a
      by_cases ha : a = i
      · simp [DenseVector.set, ha]
      · simp [DenseVector.set, ha]
  simp only [hx]

/-- C26: `project( i )` sets `x[i]` to `max( 0, x[i] )`, so that afterwards
`lbound( i ) <= x[i] <= ubound( i )` with `lbound( i ) = 0` and `ubound( i )`
infinite; it leaves every other component of `x`, the size, `A` and `b`
unchanged, and a second `project( i )` changes nothing. -/
theorem project_spec [LinearOrderedRing R] (p : LCP R) (i : Nat) :
    (p.project i).x_.elem i = max 0 (p.x_.elem i) ∧
      p.lbound i = 0 ∧ p.ubound i = ⊤ ∧
      (p.project i).lbound i ≤ (p.project i).x_.elem i ∧
      (((p.project i).x_.elem i : R) : WithTop R) ≤ (p.project i).ubound i ∧
      (∀ j, j ≠ i → (p.project i).x_.elem j = p.x_.elem j) ∧
      (p.project i).size = p.size ∧ (p.project i).A_ = p.A_ ∧ (p.project i).b_ = p.b_ ∧
      (p.project i).project i = p.project i := by
  refine ⟨by simp [LCP.project, DenseVector.set], rfl, rfl, ?_, le_top, ?_, rfl, rfl, rfl,
    project_project p i⟩
  · simp [LCP.project, LCP.lbound, DenseVector.set]
  · intro j hj
    simp [LCP.project, DenseVector.set, hj]

theorem max_eq_zero_iff_of_nonneg [LinearOrderedRing R] (a b : R) (ha : 0 ≤ a) (hb : 0 ≤ b) :
    max a b = 0 ↔ a = 0 ∧ b = 0 := by
  constructor
  · intro h
    have h1 : a ≤ 0 := h ▸ le_max_left a b
    have h2 : b ≤ 0 := h ▸ le_max_right a b
    exact ⟨le_antisymm h1 ha, le_antisymm h2 hb⟩
  · rintro ⟨rfl, rfl⟩
    exact max_self 0

/-- The loop of `residual()` ends with zero exactly when every component of
the residual is zero. -/
theorem residual_eq_zero_iff [LinearOrderedRing R] (p : LCP R) :
    p.residual = 0 ↔ ∀ i, i < p.size → p.residualAt i = 0 := by
  have key := forLoop_one_invariant
    (fun k (rmax : R) => 0 ≤ rmax ∧ (rmax = 0 ↔ ∀ i, i < k → p.residualAt i = 0))
    0 p.size (fun i rmax => max rmax |p.residualAt i|) 0 (Nat.zero_le _)
    ⟨le_refl 0, by simp⟩
    (by
      rintro k rmax _ _ ⟨h0, hI⟩
      refine ⟨le_trans h0 (le_max_left _ _), ?_⟩
      rw [max_eq_zero_iff_of_nonneg _ _ h0 (abs_nonneg _), hI, abs_eq_zero]
      constructor
      · rintro ⟨hall, hk⟩ i hi
        by_cases hik : i = k
        · rw [hik]; exact hk
        · exact hall i (by omega)
      · intro hall
        exact ⟨fun i hi => hall i (by omega), hall k (by omega)⟩)
  exact key.2

theorem min_eq_zero_iff [LinearOrderedRing R] (x w : R) :
    min x w = 0 ↔ 0 ≤ x ∧ 0 ≤ w ∧ x * w = 0 := by
  constructor
  · intro h
    have hx : 0 ≤ x := h ▸ min_le_left x w
    have hw : 0 ≤ w := h ▸ min_le_right x w
    refine ⟨hx, hw, ?_⟩
    rcases min_choice x w with hc | hc
    · rw [hc] at h
      rw [h, zero_mul]
    · rw [hc] at h
      rw [h, mul_zero]
  · rintro ⟨hx, hw, hxw⟩
    rcases mul_eq_zero.1 hxw with h | h
    · rw [h, min_eq_left hw]
    · rw [h, min_eq_right hx]

/-- What `residual()` measures: it is zero exactly when `x >= 0`,
`A*x + b >= 0` and `x[i] * ( (A*x)[i] + b[i] ) = 0` for every `i`. -/
theorem residual_zero_characterisation [LinearOrderedRing R] (p : LCP R) :
    p.residual = 0 ↔ ∀ i, i < p.size → 0 ≤ p.x_.elem i ∧
      0 ≤ matVecAt p.A_ p.x_ i + p.b_.elem i ∧
      p.x_.elem i * (matVecAt p.A_ p.x_ i + p.b_.elem i) = 0 := by
  rw [residual_eq_zero_iff]
  constructor
  · intro h i hi
    exact (min_eq_zero_iff _ _).1 (h i hi)
  · intro h i hi
    exact (min_eq_zero_iff _ _).2 (h i hi)

/-- C27, evaluated at a failing input: for `A = (0)`, `b = (-1)`, `x = (0)` the
unknowns solve the problem in its documented form (`x >= 0`, `A*x + b = -1 <= 0`,
`x * (A*x + b) = 0`), but `residual()` is 1; for `A = (0)`, `b = (1)`, `x = (0)`
the unknowns do not solve it (`A*x + b = 1 > 0`), but `residual()` is 0. -/
theorem residual_documented_form :
    exampleLCP.SolvesDocumentedForm ∧ exampleLCP.residual = 1 ∧
      ¬ exampleLCPPositive.SolvesDocumentedForm ∧ exampleLCPPositive.residual = 0 := by
  decide


/-! ## Restructuring operators of the subtraction node -/

theorem addDense_ok [Ring R] (b : CompressedVector R) (c d : DenseVector R)
    (hbc : b.size = c.size) (hcd : c.size = d.size) :
    SVecDVecSubExpr.addDense ⟨b, c⟩ d = .ok ⟨⟨d.size, fun i => d.elem i - c.elem i⟩, b⟩ := by
  unfold SVecDVecSubExpr.addDense dvecDVecSub
  have h1 : ¬ d.size ≠ c.size := by omega
  simp only [h1, if_false]
  show dvecSVecAdd _ _ = _
  unfold dvecSVecAdd
  have h2 : ¬ d.size ≠ b.size := by omega
  simp only [h2, if_false]

theorem subDense_ok [Ring R] (b : CompressedVector R) (c d : DenseVector R)
    (hbc : b.size = c.size) (hcd : c.size = d.size) :
    SVecDVecSubExpr.subDense ⟨b, c⟩ d = .ok ⟨b, ⟨c.size, fun i => c.elem i + d.elem i⟩⟩ := by
  unfold SVecDVecSubExpr.subDense dvecDVecAdd
  have h1 : ¬ c.size ≠ d.size := by omega
  simp only [h1, if_false]
  show operatorSub _ _ = _
  unfold operatorSub SVecDVecSubExpr.new
  have h2 : ¬ b.size ≠ c.size := by omega
  simp only [h2, if_false]
  exact if_pos hbc

theorem subExpr_subscript_ok [Ring R] (e : SVecDVecSubExpr R) (i : Nat) (hi : i < e.lhs.size) :
    e.subscript i = .ok (e.lhs.subscript i - e.rhs.elem i) := by
  simp [SVecDVecSubExpr.subscript, internalAssert, hi]

theorem addExpr_subscript_ok [Ring R] (e : DVecSVecAddExpr R) (i : Nat) (hi : i < e.lhs.size) :
    e.subscript i = .ok (e.lhs.elem i + e.rhs.subscript i) := by
  simp [DVecSVecAddExpr.subscript, internalAssert, hi]

/-- C31: for a sparse `b` and dense `c`, `d` of equal size, the restructuring
`operator+` turns `(b - c) + d` into the node `(d - c) + b` and the
restructuring `operator-` turns `(b - c) - d` into the node `b - (c + d)`; at
every index `i` below the size the rewritten expressions have the elements
`b[i] - c[i] + d[i]` and `b[i] - c[i] - d[i]`, the element of `b - c` plus,
respectively minus, `d[i]`. -/
theorem restructuring_operators [Ring R] (b : CompressedVector R) (c d : DenseVector R)
    (hbc : b.size = c.size) (hcd : c.size = d.size) :
    (∃ sum, SVecDVecSubExpr.addDense ⟨b, c⟩ d = .ok sum ∧ sum.rhs = b ∧
        sum.lhs.size = d.size ∧ (∀ i, sum.lhs.elem i = d.elem i - c.elem i) ∧
        ∀ i, i < b.size →
          sum.subscript i = .ok (b.subscript i - c.elem i + d.elem i) ∧
          SVecDVecSubExpr.subscript ⟨b, c⟩ i = .ok (b.subscript i - c.elem i)) ∧
      (∃ difference, SVecDVecSubExpr.subDense ⟨b, c⟩ d = .ok difference ∧
        difference.lhs = b ∧ difference.rhs.size = c.size ∧
        (∀ i, difference.rhs.elem i = c.elem i + d.elem i) ∧
        ∀ i, i < b.size →
          difference.subscript i = .ok (b.subscript i - c.elem i - d.elem i)) := by
  refine ⟨⟨_, addDense_ok b c d hbc hcd, rfl, rfl, fun _ => rfl, fun i hi => ⟨?_, ?_⟩⟩,
    ⟨_, subDense_ok b c d hbc hcd, rfl, rfl, fun _ => rfl, fun i hi => ?_⟩⟩
  · rw [addExpr_subscript_ok _ i (by show i < d.size; omega)]
    congr 1
    show d.elem i - c.elem i + b.subscript i = b.subscript i - c.elem i + d.elem i
    abel
  · exact subExpr_subscript_ok ⟨b, c⟩ i hi
  · rw [subExpr_subscript_ok _ i hi]
    congr 1
    show b.subscript i - (c.elem i + d.elem i) = b.subscript i - c.elem i - d.elem i
    abel

theorem restructuring_operators_witness :
    exampleSparseVector.size = exampleVector.size ∧
      exampleVector.size = (⟨4, fun _ => 10⟩ : DenseVector Int).size ∧
      ∃ sum, SVecDVecSubExpr.addDense ⟨exampleSparseVector, exampleVector⟩ ⟨4, fun _ => 10⟩ =
        .ok sum ∧ sum.rhs = exampleSparseVector :=
  ⟨rfl, rfl,
    (restructuring_operators exampleSparseVector exampleVector ⟨4, fun _ => 10⟩ rfl rfl).1.imp
      (fun _ h => ⟨h.1, h.2.1⟩)⟩

/-! ## Assignment of the unary map node -/

/-- An element-wise assignment whose right-hand side element `i` reads at most
the element `i` of the target stores, below the size, the right-hand side
evaluated on the initial target. -/
theorem assignElementwise_spec {S : Type} (lhs : DenseVector S) (rhs : DenseVector S → Nat → S)
    (hlocal : ∀ t u i, t.elem i = u.elem i → rhs t i = rhs u i) :
    (assignElementwise lhs rhs).size = lhs.size ∧
      ∀ i, (assignElementwise lhs rhs).elem i = if i < lhs.size then rhs lhs i else lhs.elem i := by
  unfold assignElementwise
  have key := forLoop_one_invariant
    (fun k (t : DenseVector S) => t.size = lhs.size ∧
      ∀ i, t.elem i = if i < k then rhs lhs i else lhs.elem i)
    0 lhs.size (fun i target => target.set i (rhs target i)) lhs (Nat.zero_le _)
    ⟨rfl, by intro i; simp⟩
    (by
      rintro k t _ _ ⟨hs, hI⟩
      refine ⟨hs, ?_⟩
      intro i
      show (if i = k then rhs t k else t.elem i) = _
      by_cases hik : i = k
      · subst hik
        have ht : t.elem i = lhs.elem i := by rw [hI i, if_neg (Nat.lt_irrefl i)]
        rw [if_pos rfl, if_pos (Nat.lt_succ_self i), hlocal t lhs i ht]
      · rw [if_neg hik, hI i]
        by_cases hlt : i < k
        · rw [if_pos hlt, if_pos (by omega)]
        · rw [if_neg hlt, if_neg (by omega)])
  exact key

theorem forEach_assert_ok {S : Type} (v : DenseVector R) (t : DenseVector S) (op : R → S)
    (h : t.size = v.size) :
    internalAssert (decide (t.size = (forEach v op).size)) "Invalid vector sizes" = .ok () := by
  have h' : t.size = (forEach v op).size := h
  simp [internalAssert, h']

theorem forEach_assign_ok (v t : DenseVector R) (op : R → R) (h : t.size = v.size) :
    DVecForEachExpr.assign t (forEach v op) =
      .ok ⟨t.size, fun i => if i < t.size then op (v.elem i) else t.elem i⟩ := by
  have h1 := assignElementwise_spec t (fun _ index => v.elem index) (fun _ _ _ _ => rfl)
  have h2 := assignElementwise_spec (assignElementwise t (fun _ index => v.elem index))
    (fun target index => op (target.elem index)) (fun _ _ _ e => congrArg op e)
  have hval : assignElementwise (assignElementwise t (fun _ index => v.elem index))
      (fun target index => op (target.elem index)) =
      ⟨t.size, fun i => if i < t.size then op (v.elem i) else t.elem i⟩ := by
    apply DenseVector.ext
    · rw [h2.1, h1.1]
    · funext i
      rw [h2.2 i, h1.1]
      by_cases hi : i < t.size
      · rw [if_pos hi]
        show op _ = _
        rw [h1.2 i, if_pos hi]
        exact (if_pos hi).symm
      · rw [if_neg hi, h1.2 i, if_neg hi]
        exact (if_neg hi).symm
  unfold DVecForEachExpr.assign
  rw [forEach_assert_ok v t op h]
  exact congrArg Except.ok hval

theorem forEach_assignFromTemporary_ok {S : Type} (v : DenseVector R) (t : DenseVector S)
    (op : R → S) (h : t.size = v.size) :
    DVecForEachExpr.assignFromTemporary t (forEach v op) =
      .ok ⟨t.size, fun i => if i < t.size then op (v.elem i) else t.elem i⟩ := by
  have h1 := assignElementwise_spec t (fun _ index => op (v.elem index)) (fun _ _ _ _ => rfl)
  have hval : assignElementwise t (fun _ index => op (v.elem index)) =
      ⟨t.size, fun i => if i < t.size then op (v.elem i) else t.elem i⟩ := by
    apply DenseVector.ext
    · rw [h1.1]
    · funext i
      rw [h1.2 i]
  unfold DVecForEachExpr.assignFromTemporary
  rw [forEach_assert_ok v t op h]
  exact congrArg Except.ok hval

/-- C32: for an operand with the values `v`, an operation `op` and a target `t`
of the same size, the two serial assignment strategies of the map node return
the same target: the in-place strategy (assign `v` to `t`, then assign
`forEach( t, op )` to `t`) and the strategy with a temporary (evaluate `v` into
`tmp`, then assign `forEach( tmp, op )` to `t`) both leave `t[i] = op( v[i] )`
for all `i` below the size. -/
theorem forEach_assign_strategies (v t : DenseVector R) (op : R → R) (h : t.size = v.size) :
    ∃ result, DVecForEachExpr.assign t (forEach v op) = .ok result ∧
      DVecForEachExpr.assignFromTemporary t (forEach v op) = .ok result ∧
      result.size = t.size ∧ ∀ i, i < t.size → result.elem i = op (v.elem i) :=
  ⟨_, forEach_assign_ok v t op h, forEach_assignFromTemporary_ok v t op h, rfl,
    fun _ hi => if_pos hi⟩

theorem forEach_assign_strategies_witness :
    (⟨4, fun _ => 0⟩ : DenseVector Int).size = exampleVector.size ∧
      ∃ result, DVecForEachExpr.assign ⟨4, fun _ => 0⟩ (forEach exampleVector (fun x => x * x)) =
          .ok result ∧
        DVecForEachExpr.assignFromTemporary ⟨4, fun _ => 0⟩
          (forEach exampleVector (fun x => x * x)) = .ok result ∧
        result.size = 4 ∧ ∀ i, i < 4 → result.elem i = exampleVector.elem i * exampleVector.elem i :=
  ⟨rfl, forEach_assign_strategies exampleVector ⟨4, fun _ => 0⟩ (fun x => x * x) rfl⟩

/-! ## Aliasing of the subtraction node -/

/-- The query answers true when the right-hand side operand is aliased, and
when the left-hand side operand is aliased and the right-hand side operand is
an expression. -/
theorem subExpr_isAliased_cases (isExpressionVT2 : Bool) (lhs rhs : Capabilities)
    (address : Nat) :
    SVecDVecSubExpr.isAliased isExpressionVT2 lhs rhs address = true ↔
      ((isExpressionVT2 = true ∧ lhs.isAliased address = true) ∨
        rhs.isAliased address = true) := by
  simp [SVecDVecSubExpr.isAliased]

/-- C33, evaluated at a failing input: the target `t = (1,1)` at address 7, the
sparse operand `s * t` with `s = (2,0)`, which reads the target, and the plain
dense operand `c = (0,0)`.  The left-hand side operand is aliased with the
target, but `isAliased` answers false, because the type of the right-hand side
operand is no expression.  The two-step assignment then overwrites the target
with `-c` before the sparse operand is read and leaves 0 in element 0, where
`(s * t) - c` has the element 2. -/
theorem subExpr_isAliased_left_operand :
    expressionOver7.isAliased 7 = true ∧
      SVecDVecSubExpr.isAliased false expressionOver7 noCapabilities 7 = false ∧
      SVecDVecSubExpr.subscript ⟨componentwiseProduct exampleScale exampleTarget, exampleZero⟩ 0 =
        .ok 2 ∧
      (addAssignSparse (assignNegDense exampleTarget exampleZero)
        (componentwiseProduct exampleScale (assignNegDense exampleTarget exampleZero))).elem 0 =
        0 := by
  refine ⟨by decide, by decide, by rfl, by decide⟩

/-! ## Kernel flags and the forwarding functor -/

/-- C34: for all 16 combinations of the declaration flags the kernel flags are
consistent: `SYM` and `HERM` are never both true; `SYM` or `HERM` implies
neither `LOW` nor `UPP`; if a declaration flag is set, a kernel flag is set;
`ForwardFunctor` is `DeclHerm` iff `HERM`, `DeclSym` iff `SYM`, `DeclDiag` iff
`LOW` and `UPP`, `DeclLow` iff `LOW` only, `DeclUpp` iff `UPP` only, and `Noop`
iff no declaration flag is set. -/
theorem kernel_flags_consistent (f : DeclFlags) :
    ¬ (f.SYM = true ∧ f.HERM = true) ∧
      ((f.SYM = true ∨ f.HERM = true) → f.LOW = false ∧ f.UPP = false) ∧
      ((f.SF = true ∨ f.HF = true ∨ f.LF = true ∨ f.UF = true) →
        (f.SYM = true ∨ f.HERM = true ∨ f.LOW = true ∨ f.UPP = true)) ∧
      (ForwardFunctor f = .Noop ↔
        (f.SF = false ∧ f.HF = false ∧ f.LF = false ∧ f.UF = false)) ∧
      (ForwardFunctor f = .DeclHerm ↔ f.HERM = true) ∧
      (ForwardFunctor f = .DeclSym ↔ f.SYM = true) ∧
      (ForwardFunctor f = .DeclDiag ↔ (f.LOW = true ∧ f.UPP = true)) ∧
      (ForwardFunctor f = .DeclLow ↔ (f.LOW = true ∧ f.UPP = false)) ∧
      (ForwardFunctor f = .DeclUpp ↔ (f.UPP = true ∧ f.LOW = false)) := by
  obtain ⟨SF, HF, LF, UF⟩ := f
  cases SF <;> cases HF <;> cases LF <;> cases UF <;> decide

/-! ## Kernel flags and structural traits -/

/-- A declared lower flag is reported by `IsLower`, a declared upper flag by
`IsUpper`. -/
theorem declared_triangle_reported (f : DeclFlags) (isBuiltin : Bool) (mt1 mt2 : Traits) :
    (f.LF = true → (TSMatTDMatMultExpr.traits f isBuiltin mt1 mt2).isLower = true) ∧
      (f.UF = true → (TSMatTDMatMultExpr.traits f isBuiltin mt1 mt2).isUpper = true) := by
  constructor
  · intro h
    simp [TSMatTDMatMultExpr.traits, h]
  · intro h
    simp [TSMatTDMatMultExpr.traits, h]

/-- C35, evaluated at a failing input: for a product of operands without
structure that is declared symmetric and upper, the kernel flag `LOW` is true
and `IsLower` of the node is false; declared symmetric and lower, `UPP` is true
and `IsUpper` of the node is false. -/
theorem kernel_flags_not_reported :
    DeclFlags.symmetricUpper.LOW = true ∧
      (TSMatTDMatMultExpr.traits DeclFlags.symmetricUpper true Traits.none Traits.none).isLower =
        false ∧
      DeclFlags.symmetricLower.UPP = true ∧
      (TSMatTDMatMultExpr.traits DeclFlags.symmetricLower true Traits.none Traits.none).isUpper =
        false := by
  decide

/-! ## Declaration functions on the product node -/

theorem isSquare_mk (lhs : CompressedMatrix R) (rhs : DenseMatrix R) (f g : DeclFlags) :
    TSMatTDMatMultExpr.isSquare ⟨lhs, rhs, f⟩ = TSMatTDMatMultExpr.isSquare ⟨lhs, rhs, g⟩ := rfl

theorem new_ok (lhs : CompressedMatrix R) (rhs : DenseMatrix R) (f : DeclFlags)
    (hconf : lhs.columns = rhs.rows) : TSMatTDMatMultExpr.new lhs rhs f = .ok ⟨lhs, rhs, f⟩ := by
  unfold TSMatTDMatMultExpr.new
  rw [if_pos hconf]

/-- The five declaration functions on a node with conformant operands: on a
square node they return the node with their flags set, otherwise they fail
with an invalid-argument error. -/
theorem decl_cases (dm : TSMatTDMatMultExpr R) (hconf : dm.lhs.columns = dm.rhs.rows) :
    dm.declsym = (if dm.isSquare then
        .ok ⟨dm.lhs, dm.rhs, ⟨true, dm.flags.HF, dm.flags.LF, dm.flags.UF⟩⟩
      else .error (.invalidArgument "Invalid symmetric matrix specification")) ∧
    dm.declherm = (if dm.isSquare then
        .ok ⟨dm.lhs, dm.rhs, ⟨dm.flags.SF, true, dm.flags.LF, dm.flags.UF⟩⟩
      else .error (.invalidArgument "Invalid Hermitian matrix specification")) ∧
    dm.decllow = (if dm.isSquare then
        .ok ⟨dm.lhs, dm.rhs, ⟨dm.flags.SF, dm.flags.HF, true, dm.flags.UF⟩⟩
      else .error (.invalidArgument "Invalid lower matrix specification")) ∧
    dm.declupp = (if dm.isSquare then
        .ok ⟨dm.lhs, dm.rhs, ⟨dm.flags.SF, dm.flags.HF, dm.flags.LF, true⟩⟩
      else .error (.invalidArgument "Invalid upper matrix specification")) ∧
    dm.decldiag = (if dm.isSquare then
        .ok ⟨dm.lhs, dm.rhs, ⟨dm.flags.SF, dm.flags.HF, true, true⟩⟩
      else .error (.invalidArgument "Invalid diagonal matrix specification")) := by
  unfold TSMatTDMatMultExpr.declsym TSMatTDMatMultExpr.declherm TSMatTDMatMultExpr.decllow
    TSMatTDMatMultExpr.declupp TSMatTDMatMultExpr.decldiag
  cases hs : dm.isSquare
  · simp
  · simp [new_ok _ _ _ hconf]

theorem decl_square (dm : TSMatTDMatMultExpr R) (hconf : dm.lhs.columns = dm.rhs.rows)
    (hsq : dm.isSquare = true) :
    dm.declsym = .ok ⟨dm.lhs, dm.rhs, ⟨true, dm.flags.HF, dm.flags.LF, dm.flags.UF⟩⟩ ∧
    dm.declherm = .ok ⟨dm.lhs, dm.rhs, ⟨dm.flags.SF, true, dm.flags.LF, dm.flags.UF⟩⟩ ∧
    dm.decllow = .ok ⟨dm.lhs, dm.rhs, ⟨dm.flags.SF, dm.flags.HF, true, dm.flags.UF⟩⟩ ∧
    dm.declupp = .ok ⟨dm.lhs, dm.rhs, ⟨dm.flags.SF, dm.flags.HF, dm.flags.LF, true⟩⟩ ∧
    dm.decldiag = .ok ⟨dm.lhs, dm.rhs, ⟨dm.flags.SF, dm.flags.HF, true, true⟩⟩ := by
  have h := decl_cases dm hconf
  rw [hsq] at h
  exact h

theorem decl_not_square (dm : TSMatTDMatMultExpr R) (hconf : dm.lhs.columns = dm.rhs.rows)
    (hsq : dm.isSquare = false) :
    dm.declsym = .error (.invalidArgument "Invalid symmetric matrix specification") ∧
    dm.declherm = .error (.invalidArgument "Invalid Hermitian matrix specification") ∧
    dm.decllow = .error (.invalidArgument "Invalid lower matrix specification") ∧
    dm.declupp = .error (.invalidArgument "Invalid upper matrix specification") ∧
    dm.decldiag = .error (.invalidArgument "Invalid diagonal matrix specification") := by
  have h := decl_cases dm hconf
  rw [hsq] at h
  exact h

/-- Applying a declaration function to the result of another one. -/
theorem decl_chain (dm : TSMatTDMatMultExpr R) (hconf : dm.lhs.columns = dm.rhs.rows)
    (hsq : dm.isSquare = true) :
    (dm.declsym >>= TSMatTDMatMultExpr.declsym) = dm.declsym ∧
    (dm.declherm >>= TSMatTDMatMultExpr.declherm) = dm.declherm ∧
    (dm.decllow >>= TSMatTDMatMultExpr.decllow) = dm.decllow ∧
    (dm.declupp >>= TSMatTDMatMultExpr.declupp) = dm.declupp ∧
    (dm.declsym >>= TSMatTDMatMultExpr.declherm) = (dm.declherm >>= TSMatTDMatMultExpr.declsym) ∧
    (dm.declsym >>= TSMatTDMatMultExpr.decllow) = (dm.decllow >>= TSMatTDMatMultExpr.declsym) ∧
    (dm.declsym >>= TSMatTDMatMultExpr.declupp) = (dm.declupp >>= TSMatTDMatMultExpr.declsym) ∧
    (dm.declherm >>= TSMatTDMatMultExpr.decllow) = (dm.decllow >>= TSMatTDMatMultExpr.declherm) ∧
    (dm.declherm >>= TSMatTDMatMultExpr.declupp) = (dm.declupp >>= TSMatTDMatMultExpr.declherm) ∧
    (dm.decllow >>= TSMatTDMatMultExpr.declupp) = (dm.declupp >>= TSMatTDMatMultExpr.decllow) ∧
    dm.decldiag = (dm.decllow >>= TSMatTDMatMultExpr.declupp) := by
  obtain ⟨h1, h2, h3, h4, h5⟩ := decl_square dm hconf hsq
  refine ⟨?_, ?_, ?_, ?_, ?_, ?_, ?_, ?_, ?_, ?_, ?_⟩
  · rw [h1]
    exact (decl_square ⟨dm.lhs, dm.rhs, ⟨true, dm.flags.HF, dm.flags.LF, dm.flags.UF⟩⟩ hconf hsq).1
  · rw [h2]
    exact (decl_square
        ⟨dm.lhs, dm.rhs, ⟨dm.flags.SF, true, dm.flags.LF, dm.flags.UF⟩⟩ hconf hsq).2.1
  · rw [h3]
    exact (decl_square
        ⟨dm.lhs, dm.rhs, ⟨dm.flags.SF, dm.flags.HF, true, dm.flags.UF⟩⟩ hconf hsq).2.2.1
  · rw [h4]
    exact (decl_square
        ⟨dm.lhs, dm.rhs, ⟨dm.flags.SF, dm.flags.HF, dm.flags.LF, true⟩⟩ hconf hsq).2.2.2.1
  · rw [h1, h2]
    exact ((decl_square
        ⟨dm.lhs, dm.rhs, ⟨true, dm.flags.HF, dm.flags.LF, dm.flags.UF⟩⟩ hconf hsq).2.1).trans
      ((decl_square
          ⟨dm.lhs, dm.rhs, ⟨dm.flags.SF, true, dm.flags.LF, dm.flags.UF⟩⟩ hconf hsq).1).symm
  · rw [h1, h3]
    exact ((decl_square
        ⟨dm.lhs, dm.rhs, ⟨true, dm.flags.HF, dm.flags.LF, dm.flags.UF⟩⟩ hconf hsq).2.2.1).trans
      ((decl_square
          ⟨dm.lhs, dm.rhs, ⟨dm.flags.SF, dm.flags.HF, true, dm.flags.UF⟩⟩ hconf hsq).1).symm
  · rw [h1, h4]
    exact ((decl_square
        ⟨dm.lhs, dm.rhs, ⟨true, dm.flags.HF, dm.flags.LF, dm.flags.UF⟩⟩ hconf hsq).2.2.2.1).trans
      ((decl_square
          ⟨dm.lhs, dm.rhs, ⟨dm.flags.SF, dm.flags.HF, dm.flags.LF, true⟩⟩ hconf hsq).1).symm
  · rw [h2, h3]
    exact ((decl_square
        ⟨dm.lhs, dm.rhs, ⟨dm.flags.SF, true, dm.flags.LF, dm.flags.UF⟩⟩ hconf hsq).2.2.1).trans
      ((decl_square
          ⟨dm.lhs, dm.rhs, ⟨dm.flags.SF, dm.flags.HF, true, dm.flags.UF⟩⟩ hconf hsq).2.1).symm
  · rw [h2, h4]
    exact ((decl_square
        ⟨dm.lhs, dm.rhs, ⟨dm.flags.SF, true, dm.flags.LF, dm.flags.UF⟩⟩ hconf hsq).2.2.2.1).trans
      ((decl_square
          ⟨dm.lhs, dm.rhs, ⟨dm.flags.SF, dm.flags.HF, dm.flags.LF, true⟩⟩ hconf hsq).2.1).symm
  · rw [h3, h4]
    exact ((decl_square
        ⟨dm.lhs, dm.rhs, ⟨dm.flags.SF, dm.flags.HF, true, dm.flags.UF⟩⟩ hconf hsq).2.2.2.1).trans
      ((decl_square
          ⟨dm.lhs, dm.rhs, ⟨dm.flags.SF, dm.flags.HF, dm.flags.LF, true⟩⟩ hconf hsq).2.2.1).symm
  · rw [h5, h3]
    exact ((decl_square
        ⟨dm.lhs, dm.rhs, ⟨dm.flags.SF, dm.flags.HF, true, dm.flags.UF⟩⟩ hconf hsq).2.2.2.1).symm

/-- C36: on a product node the declaration functions only add flags and keep
the operands.  On a square node `declsym`, `declherm`, `decllow` and `declupp`
return the node with their own flag set and the other three flags preserved, so
each of them is idempotent and any two of them commute; `decldiag` returns the
node with `LF = UF = true` and `SF`, `HF` preserved, the result of `decllow`
followed by `declupp`.  On a node that is not square each of the five fails
with an invalid-argument error. -/
theorem decl_functions_spec (dm : TSMatTDMatMultExpr R)
    (hconf : dm.lhs.columns = dm.rhs.rows) :
    (dm.isSquare = true →
      (dm.declsym = .ok ⟨dm.lhs, dm.rhs, ⟨true, dm.flags.HF, dm.flags.LF, dm.flags.UF⟩⟩ ∧
        dm.declherm = .ok ⟨dm.lhs, dm.rhs, ⟨dm.flags.SF, true, dm.flags.LF, dm.flags.UF⟩⟩ ∧
        dm.decllow = .ok ⟨dm.lhs, dm.rhs, ⟨dm.flags.SF, dm.flags.HF, true, dm.flags.UF⟩⟩ ∧
        dm.declupp = .ok ⟨dm.lhs, dm.rhs, ⟨dm.flags.SF, dm.flags.HF, dm.flags.LF, true⟩⟩ ∧
        dm.decldiag = .ok ⟨dm.lhs, dm.rhs, ⟨dm.flags.SF, dm.flags.HF, true, true⟩⟩) ∧
      ((dm.declsym >>= TSMatTDMatMultExpr.declsym) = dm.declsym ∧
        (dm.declherm >>= TSMatTDMatMultExpr.declherm) = dm.declherm ∧
        (dm.decllow >>= TSMatTDMatMultExpr.decllow) = dm.decllow ∧
        (dm.declupp >>= TSMatTDMatMultExpr.declupp) = dm.declupp ∧
        (dm.declsym >>= TSMatTDMatMultExpr.declherm) = (dm.declherm >>= TSMatTDMatMultExpr.declsym) ∧
        (dm.declsym >>= TSMatTDMatMultExpr.decllow) = (dm.decllow >>= TSMatTDMatMultExpr.declsym) ∧
        (dm.declsym >>= TSMatTDMatMultExpr.declupp) = (dm.declupp >>= TSMatTDMatMultExpr.declsym) ∧
        (dm.declherm >>= TSMatTDMatMultExpr.decllow) = (dm.decllow >>= TSMatTDMatMultExpr.declherm) ∧
        (dm.declherm >>= TSMatTDMatMultExpr.declupp) = (dm.declupp >>= TSMatTDMatMultExpr.declherm) ∧
        (dm.decllow >>= TSMatTDMatMultExpr.declupp) = (dm.declupp >>= TSMatTDMatMultExpr.decllow) ∧
        dm.decldiag = (dm.decllow >>= TSMatTDMatMultExpr.declupp))) ∧
    (dm.isSquare = false →
      (dm.declsym = .error (.invalidArgument "Invalid symmetric matrix specification") ∧
        dm.declherm = .error (.invalidArgument "Invalid Hermitian matrix specification") ∧
        dm.decllow = .error (.invalidArgument "Invalid lower matrix specification") ∧
        dm.declupp = .error (.invalidArgument "Invalid upper matrix specification") ∧
        dm.decldiag = .error (.invalidArgument "Invalid diagonal matrix specification"))) :=
  ⟨fun hsq => ⟨decl_square dm hconf hsq, decl_chain dm hconf hsq⟩,
    fun hsq => decl_not_square dm hconf hsq⟩

theorem decl_functions_spec_witness :
    exampleNode.lhs.columns = exampleNode.rhs.rows ∧ exampleNode.isSquare = true ∧
      exampleNode.declsym = .ok ⟨exampleA, identity 3, DeclFlags.symmetric⟩ :=
  ⟨rfl, rfl, ((decl_functions_spec exampleNode rfl).1 rfl).1.1⟩

end Blaze
